import Mathlib

/-
Verification of the cantools KCD codec and the AUTOSAR gateway route
resolver against their natural-language specification.

The development shallowly embeds:
  * src/cantools/database/can/formats/arxml/gateway.py
    (Gateway.get_pdu_triggering_routes), and
  * src/cantools/database/can/formats/kcd.py
    (load_string / dump_string and their helpers)
into Lean.  Python dictionaries become insertion-ordered association
lists, Python ints become Lean Int (with floor division and floor
modulus, which is what Python's // and % compute for a positive
divisor), fallible operations return Except PyError, and the XML
element tree becomes an explicit inductive tree.  Python builtins used
by the code (str(), int(), tuple comparison, string comparison,
f-string hex formatting) are modelled by executable Lean functions
defined below.
-/

namespace Cantools

/-! ## Models of Python builtins -/

/-- Python compares strings lexicographically by code point; this is the
strict comparison on the underlying character lists. -/
def charListLt : List Char → List Char → Bool
  | [], [] => false
  | [], _ :: _ => true
  | _ :: _, [] => false
  | a :: as, b :: bs =>
      if a.toNat < b.toNat then true
      else if b.toNat < a.toNat then false
      else charListLt as bs

/-- Python `a < b` on strings. -/
def pyStrLt (a b : String) : Bool := charListLt a.data b.data

/-- Python `a <= b` on strings. -/
def pyStrLe (a b : String) : Bool := pyStrLt a b || a == b

/-- Python `<=` on pairs of strings (tuple comparison: lexicographic,
first component first). -/
def pairLe (p q : String × String) : Bool :=
  pyStrLt p.1 q.1 || (p.1 == q.1 && pyStrLe p.2 q.2)

/-- Decimal digit character, as produced by Python `str` on an int. -/
def decDigitChar (d : Nat) : Char := Char.ofNat (48 + d)

/-- Uppercase hexadecimal digit character, as produced by the format
spec `X`. -/
def hexDigitChar (d : Nat) : Char :=
  if d < 10 then Char.ofNat (48 + d) else Char.ofNat (55 + d)

/-- Digits of `n` in base `b`, most significant first, computed with
explicit fuel so that the definition is structurally recursive (fuel
`n` is always sufficient).  `n = 0` yields no digits. -/
def toBaseAux (b : Nat) (dc : Nat → Char) : Nat → Nat → List Char
  | 0, _ => []
  | _ + 1, 0 => []
  | fuel + 1, n + 1 =>
      toBaseAux b dc fuel ((n + 1) / b) ++ [dc ((n + 1) % b)]

/-- Python `str` on a non-negative int. -/
def pyStrOfNat (n : Nat) : String :=
  if n = 0 then "0" else String.mk (toBaseAux 10 decDigitChar n n)

/-- Python `str` on an int. -/
def pyStrOfInt (n : Int) : String :=
  if n < 0 then "-" ++ pyStrOfNat n.natAbs else pyStrOfNat n.toNat

/-- Value of a decimal digit character. -/
def decDigitVal (c : Char) : Option Nat :=
  if 48 ≤ c.toNat ∧ c.toNat ≤ 57 then some (c.toNat - 48) else none

/-- Value of a hexadecimal digit character (either case accepted, as by
Python `int(_, 16)`). -/
def hexDigitVal (c : Char) : Option Nat :=
  if 48 ≤ c.toNat ∧ c.toNat ≤ 57 then some (c.toNat - 48)
  else if 65 ≤ c.toNat ∧ c.toNat ≤ 70 then some (c.toNat - 55)
  else if 97 ≤ c.toNat ∧ c.toNat ≤ 102 then some (c.toNat - 87)
  else none

/-- Accumulating base-`b` digit-string evaluator; `none` on the first
character that is not a digit. -/
def parseDigitsAux (dv : Char → Option Nat) (b : Nat) :
    List Char → Nat → Option Nat
  | [], acc => some acc
  | c :: cs, acc =>
      match dv c with
      | some d => parseDigitsAux dv b cs (b * acc + d)
      | none => none

/-- Nonempty base-`b` digit string to value. -/
def parseDigits (dv : Char → Option Nat) (b : Nat) (cs : List Char) :
    Option Nat :=
  match cs with
  | [] => none
  | _ => parseDigitsAux dv b cs 0

/-- Python `int(s)` (base 10), restricted to an optional sign followed
by decimal digits.  `none` models a raised `ValueError`. -/
def pyIntParse (s : String) : Option Int :=
  match s.data with
  | [] => none
  | c :: cs =>
      if c == '-' then
        (parseDigits decDigitVal 10 cs).map (fun n => -(n : Int))
      else if c == '+' then
        (parseDigits decDigitVal 10 cs).map (fun n => (n : Int))
      else
        (parseDigits decDigitVal 10 (c :: cs)).map (fun n => (n : Int))

/-- Whether every character of `cs` is `'0'`. -/
def allZeros (cs : List Char) : Bool := cs.all (fun c => c == '0')

/-- Python `int(s, 0)`: a `0x`/`0X` prefix selects base 16, otherwise
base 10 where a nonzero number must not have leading zeros.  The `0b`
and `0o` prefixes of Python are not produced by this codec and are not
modelled.  `none` models a raised `ValueError`. -/
def pyIntBase0Core (cs : List Char) : Option Nat :=
  match cs with
  | c :: c2 :: ds =>
      if c == '0' && (c2 == 'x' || c2 == 'X') then
        parseDigits hexDigitVal 16 ds
      else if c == '0' then
        (if allZeros (c :: c2 :: ds) then some 0 else none)
      else parseDigits decDigitVal 10 (c :: c2 :: ds)
  | cs => parseDigits decDigitVal 10 cs

def pyIntParseBase0 (s : String) : Option Int :=
  match s.data with
  | [] => none
  | c :: cs =>
      if c == '-' then (pyIntBase0Core cs).map (fun n => -(n : Int))
      else if c == '+' then (pyIntBase0Core cs).map (fun n => (n : Int))
      else (pyIntBase0Core (c :: cs)).map (fun n => (n : Int))

/-- Python format spec `03X`: uppercase hex, zero-padded on the left to
a total width of three (the sign, if any, counts towards the width). -/
def pyFmt03X (n : Int) : String :=
  if 0 ≤ n then
    let ds := if n.toNat = 0 then ['0']
              else toBaseAux 16 hexDigitChar n.toNat n.toNat
    String.mk (List.replicate (3 - ds.length) '0' ++ ds)
  else
    let ds := if n.natAbs = 0 then ['0']
              else toBaseAux 16 hexDigitChar n.natAbs n.natAbs
    String.mk ('-' :: (List.replicate (2 - ds.length) '0' ++ ds))

/-- Python `str` repetition `s * n`. -/
def strRepeat (s : String) (n : Nat) : String :=
  String.join (List.replicate n s)

/-- Python truthiness of a string option (`None` and `""` are falsy):
used for `not element.text`. -/
def strOptFalsy : Option String → Bool
  | none => true
  | some s => s == ""

/-- Python `s.strip()` is falsy exactly when `s` is all whitespace; the
codec only ever tests `not s.strip()`. -/
def isWhitespaceStr (s : String) : Bool :=
  s.data.all (fun c => c == ' ' || c == '\t' || c == '\n' || c == '\r')

/-- The test `not element.text or not element.text.strip()` of
`_indent_xml`. -/
def textIsBlank (t : Option String) : Bool :=
  strOptFalsy t || isWhitespaceStr (t.getD "")

/-! ## Errors raised by the Python code -/

/-- The Python exceptions that the embedded code can raise. -/
inductive PyError where
  | valueError (msg : String)
  | keyError (key : String)
  | typeError
  | indexError
deriving DecidableEq, Repr

instance {ε α : Type} [DecidableEq ε] [DecidableEq α] :
    DecidableEq (Except ε α) := fun a b =>
  match a, b with
  | .ok x, .ok y =>
      if h : x = y then isTrue (by rw [h])
      else isFalse (by intro hh; cases hh; exact h rfl)
  | .ok _, .error _ => isFalse (by intro hh; cases hh)
  | .error _, .ok _ => isFalse (by intro hh; cases hh)
  | .error x, .error y =>
      if h : x = y then isTrue (by rw [h])
      else isFalse (by intro hh; cases hh; exact h rfl)

/-! ## Insertion-ordered association lists (Python dict) -/

/-- Lookup in an insertion-ordered association list; Python
`d.get(k, None)` / `d[k]`. -/
def lookupA {κ β : Type} [DecidableEq κ] : List (κ × β) → κ → Option β
  | [], _ => none
  | (k, v) :: rest, key => if k = key then some v else lookupA rest key

/-- Python `d[k] = v`: replace in place if the key is present (keeping
its position), otherwise append at the end. -/
def insertA {κ β : Type} [DecidableEq κ] :
    List (κ × β) → κ → β → List (κ × β)
  | [], key, v => [(key, v)]
  | (k, w) :: rest, key, v =>
      if k = key then (k, v) :: rest else (k, w) :: insertA rest key v

/-- The keys of an association list, in order. -/
def keysA {κ β : Type} (m : List (κ × β)) : List κ :=
  m.map Prod.fst

/-- `defaultdict(list)` appending: add `v` to the list stored under
`key`, creating the (appended-last) entry on first sight of the key. -/
def insertGrouped {κ β : Type} [DecidableEq κ] :
    List (κ × List β) → κ → β → List (κ × List β)
  | [], key, v => [(key, [v])]
  | (k, ws) :: rest, key, v =>
      if k = key then (k, ws ++ [v]) :: rest
      else (k, ws) :: insertGrouped rest key v

/-! ## Gateway route resolution
(src/cantools/database/can/formats/arxml/gateway.py) -/

/-- A CAN gateway: name, owning node reference, and the ordered list of
(source, target) pdu-triggering route pairs. -/
structure Gateway where
  name : String
  node_ref : String
  pdu_triggering_routes : List (String × String)
deriving DecidableEq, Repr

/-- First phase of `Gateway.get_pdu_triggering_routes`: build the
direct map `target -> (source, gateway_name)`.  The source keeps the
entry `source_pair` whenever
`target_to_source.get(target, source_pair) <= source_pair`. -/
def buildTargetToSource (gateways : List Gateway) :
    List (String × (String × String)) :=
  gateways.foldl
    (fun m gateway =>
      gateway.pdu_triggering_routes.foldl
        (fun m st =>
          let source_pair := (st.1, gateway.name)
          if pairLe ((lookupA m st.2).getD source_pair) source_pair then
            insertA m st.2 source_pair
          else m)
        m)
    []

/-- One iteration state of the backward-walk `while` loop: given the
pair `(source, gateway)` just read from the map, either detect a cycle
(`none`, matching `source = None` in the source), keep walking, or stop
at an origin.  `gateways_path` accumulates appended gateway names in
traversal order (target side first), exactly like the Python list; the
caller reverses it.  The fuel argument only makes the recursion
structural; `walkFuel_sufficient` below shows any fuel beyond the map
size gives the same result. -/
def walkLoop (m : List (String × (String × String))) :
    Nat → List String → List String → (String × String) →
    Option (String × List String)
  | 0, _, _, _ => none
  | fuel + 1, seen_sources, gateways_path, (source, gateway) =>
      if source ∈ seen_sources then none
      else
        match lookupA m source with
        | some prev => walkLoop m fuel (source :: seen_sources)
            (gateways_path ++ [gateway]) prev
        | none => some (source, gateways_path ++ [gateway])

/-- The walk for one target, as run by the `for target in targets`
body: seen set starts at `{target}`, the path empty, and the first
lookup is `target_to_source.get(target)`; on success the accumulated
path is reversed (origin first). -/
def walkTarget (m : List (String × (String × String))) (fuel : Nat)
    (target : String) : Option (String × List String) :=
  match lookupA m target with
  | none => none
  | some prev => (walkLoop m fuel [target] [] prev).map
      (fun r => (r.1, r.2.reverse))

/-- `Gateway.get_pdu_triggering_routes` with explicit fuel for the
inner loop. -/
def getPduTriggeringRoutesFuel (gateways : List Gateway) (fuel : Nat) :
    List (String × (String × List String)) :=
  let m := buildTargetToSource gateways
  (keysA m).foldl
    (fun result target =>
      match walkTarget m fuel target with
      | some r => insertA result target r
      | none => result)
    []

/-- `Gateway.get_pdu_triggering_routes`: the fuel `|m| + 1` always
suffices (each loop iteration adds a previously unseen source to
`seen_sources`). -/
def getPduTriggeringRoutes (gateways : List Gateway) :
    List (String × (String × List String)) :=
  getPduTriggeringRoutesFuel gateways
    ((buildTargetToSource gateways).length + 1)

/-- Relational specification of a successful backward walk: from the
pair just read out of the map, the walk reaches origin `o` having
accumulated `path` (origin-first) without revisiting a source.  This
mirrors the spec's step 2: repeatedly look the current source up as a
target, prepending the traversed gateway name, until no mapping exists. -/
inductive WalksTo (m : List (String × (String × String))) :
    List String → String × String → String → List String → Prop
  | origin (seen : List String) (source gateway : String)
      (hnotseen : source ∉ seen)
      (hnone : lookupA m source = none) :
      WalksTo m seen (source, gateway) source [gateway]
  | step (seen : List String) (source gateway : String)
      (prev : String × String) (o : String) (path : List String)
      (hnotseen : source ∉ seen)
      (hsome : lookupA m source = some prev)
      (hrest : WalksTo m (source :: seen) prev o path) :
      WalksTo m seen (source, gateway) o (path ++ [gateway])

/-- Relational specification of a cycle: following the map from the
pair just read, some source repeats within the current walk. -/
inductive WalkCycles (m : List (String × (String × String))) :
    List String → String × String → Prop
  | hit (seen : List String) (source gateway : String)
      (hseen : source ∈ seen) :
      WalkCycles m seen (source, gateway)
  | step (seen : List String) (source gateway : String)
      (prev : String × String)
      (hnotseen : source ∉ seen)
      (hsome : lookupA m source = some prev)
      (hrest : WalkCycles m (source :: seen) prev) :
      WalkCycles m seen (source, gateway)

/-- Number of map entries whose source component has not yet been
visited: the strictly decreasing measure of the backward walk. -/
def walkMeasure (m : List (String × (String × String)))
    (seen : List String) : Nat :=
  (m.filter (fun e => !(seen.contains e.2.1))).length

/-! ## KCD bit-position translation
(src/cantools/database/can/formats/kcd.py, `_start_bit`) -/

/-- `_start_bit(offset, byte_order)`: for big-endian the bit positions
within each byte are mirrored; otherwise the identity.  Python `//` and
`%` with the positive divisor 8 are floor division and floor modulus,
which is what Lean's `/` and `%` on `Int` compute for a positive
divisor. -/
def startBitKcd (offset : Int) (byte_order : String) : Int :=
  if byte_order = "big_endian" then 8 * (offset / 8) + (7 - offset % 8)
  else offset

/-- `_start_bit` applied to a possibly missing offset: Python returns
`None` unchanged on the little-endian branch and raises `TypeError`
(`None // 8`) on the big-endian branch. -/
def startBitOpt (offset : Option Int) (byte_order : String) :
    Except PyError (Option Int) :=
  match offset with
  | some o => .ok (some (startBitKcd o byte_order))
  | none =>
      if byte_order = "big_endian" then .error .typeError else .ok none

/-! ## The network model

Modelled from the spec: the `Signal`, `Message`, `Node`, `Bus` and
`InternalDatabase` classes live outside the analysed sources (only this
codec, their caller, is under `src/`), so their fields follow the
spec's data model (section 3).  The conversion object of section 4.1 is
flattened into the `scale`, `offset`, `choices` and `is_float` fields
that the codec reads back, and the numeric domain is restricted to the
integers (the codec's `num` helper also accepts floats, which a shallow
embedding does not model).  A `NamedSignalValue` is represented by its
name, which is what `str()` yields on dump. -/
structure Signal where
  name : Option String
  start : Option Int
  length : Int
  byte_order : String
  is_signed : Bool
  is_float : Bool
  scale : Int
  offset : Int
  choices : Option (List (Int × String))
  minimum : Option Int
  maximum : Option Int
  unit : Option String
  comment : Option String
  receivers : List (Option String)
  is_multiplexer : Bool
  multiplexer_ids : Option (List Int)
  multiplexer_signal : Option String
deriving DecidableEq, Repr

instance : Inhabited Signal :=
  ⟨⟨none, none, 1, "little_endian", false, false, 1, 0, none, none,
    none, none, none, [], false, none, none⟩⟩

/-- Modelled from the spec: a message aggregates its signals and the
frame-level attributes of section 3; the builder applies the caller's
sort policy to the signal list and stores the result (section 6), and
the `strict` flag only toggles invariant checks that are out of the
modelled scope. -/
structure Message where
  frame_id : Option Int
  is_extended_frame : Bool
  name : Option String
  length : Int
  unused_bit_pattern : Int
  senders : List (Option String)
  cycle_time : Option Int
  signals : List Signal
  comment : Option String
  bus_name : Option String
deriving DecidableEq, Repr

/-- Modelled from the spec: a node has a name and an optional comment. -/
structure Node where
  name : String
  comment : Option String
deriving DecidableEq, Repr

/-- Modelled from the spec: a bus has a name and a bit rate. -/
structure Bus where
  name : String
  baudrate : Int
deriving DecidableEq, Repr

/-- Modelled from the spec: the aggregate network model produced by a
load pass. -/
structure InternalDatabase where
  messages : List Message
  nodes : List Node
  buses : List Bus
  version : Option String
deriving DecidableEq, Repr

/-- Modelled from the spec: `utils.start_bit` (outside the analysed
sources) returns the canonical, byte-order-independent start-bit index
used to compare and sort signal positions, which the data model stores
in `Signal.start`.  Only evaluated on signals whose start is present. -/
def utilStartBit (s : Signal) : Int := s.start.getD 0

/-- Modelled from the spec: the sort-signals policy forwarded to the
message builder — either no sorting or a caller-supplied permutation
such as sort-by-canonical-start-bit (section 6). -/
def sortByStartBit (signals : List Signal) : List Signal :=
  List.insertionSort (fun a b => utilStartBit a ≤ utilStartBit b) signals

instance : IsTotal Signal (fun a b => utilStartBit a ≤ utilStartBit b) :=
  ⟨fun a b => le_total _ _⟩

instance : IsTrans Signal (fun a b => utilStartBit a ≤ utilStartBit b) :=
  ⟨fun _ _ _ hab hbc => le_trans hab hbc⟩

/-! ## XML element trees

`xml.etree.ElementTree.Element`: a tag, insertion-ordered attributes,
optional text, child elements and an optional tail.  The mutual
inductive keeps every recursion structural. -/

mutual
inductive Element where
  | mk (tag : String) (attrib : List (String × String))
       (text : Option String) (children : ElementList)
       (tail : Option String)
inductive ElementList where
  | nil
  | cons (e : Element) (es : ElementList)
end

def Element.tag : Element → String
  | .mk t _ _ _ _ => t

def Element.attrib : Element → List (String × String)
  | .mk _ a _ _ _ => a

def Element.text : Element → Option String
  | .mk _ _ x _ _ => x

def Element.children : Element → ElementList
  | .mk _ _ _ c _ => c

def Element.tail : Element → Option String
  | .mk _ _ _ _ x => x

def ElementList.toList : ElementList → List Element
  | .nil => []
  | .cons e es => e :: es.toList

def ElementList.ofList : List Element → ElementList
  | [] => .nil
  | e :: es => .cons e (ElementList.ofList es)

/-- Build a childless-text-free element, as `Element`/`SubElement` do
before children and text are attached. -/
def mkEl (tag : String) (attrib : List (String × String))
    (children : List Element) : Element :=
  .mk tag attrib none (ElementList.ofList children) none

/-- `iterfind('ns:T')` on a parent: the direct children carrying the
given tag, in document order. -/
def childrenWithTag (e : Element) (t : String) : List Element :=
  e.children.toList.filter (fun c => c.tag == t)

/-- `find('ns:T')`: the first direct child with the given tag. -/
def findChild (e : Element) (t : String) : Option Element :=
  (childrenWithTag e t).head?

/-- The KCD XML namespace. -/
def NAMESPACE : String := "http://kayak.2codeornot2code.org/1.0"

/-- A tag qualified with the KCD namespace, as the parser yields it. -/
def nsTag (t : String) : String := "\x7b" ++ NAMESPACE ++ "\x7d" ++ t

/-- The expected namespaced root tag. -/
def ROOT_TAG : String := nsTag "NetworkDefinition"

/-- How `fromstring` rewrites an attribute key of the serialized dump:
`xmlns` declarations disappear from `attrib`, the one `xsi:`-prefixed
attribute is expanded against its declared namespace, everything else
is unchanged. -/
def reparseAttrKey (k : String) : Option String :=
  if k == "xmlns" || k == "xmlns:xsi" then none
  else if k == "xsi:noNamespaceSchemaLocation" then
    some ("\x7bhttp://www.w3.org/2001/XMLSchema-instance\x7dnoNamespaceSchemaLocation")
  else some k

mutual
/-- Model of `fromstring(tostring(e))` for the trees this dumper
produces: the default `xmlns` declared on the root qualifies every
descendant tag with the KCD namespace, namespace declarations leave the
attribute dict, and empty text or tail strings serialize to nothing and
parse back as `None`. -/
def reparse : Element → Element
  | .mk tag attrib text children tail =>
      .mk (nsTag tag) (attrib.filterMap
          (fun kv => (reparseAttrKey kv.1).map (fun k => (k, kv.2))))
        (match text with
         | some "" => none
         | t => t)
        (reparseList children)
        (match tail with
         | some "" => none
         | t => t)
def reparseList : ElementList → ElementList
  | .nil => .nil
  | .cons e es => .cons (reparse e) (reparseList es)
end

/-- The post-loop fix-up of `_indent_xml`: the last child's
(whitespace) tail is replaced by the parent-level indentation. -/
def setLastTailIfBlank (i : String) : ElementList → ElementList
  | .nil => .nil
  | .cons e .nil =>
      .cons (if textIsBlank e.tail then
               .mk e.tag e.attrib e.text e.children (some i)
             else e) .nil
  | .cons e es => .cons e (setLastTailIfBlank i es)

/-- Python `int(s)` as the codec calls it, in the `Except` monad. -/
def pyIntE (s : String) : Except PyError Int :=
  match pyIntParse s with
  | some v => .ok v
  | none =>
      .error (.valueError ("invalid literal for int with base 10: " ++ s))

/-- Python `int(s, 0)` in the `Except` monad. -/
def pyIntBase0E (s : String) : Except PyError Int :=
  match pyIntParseBase0 s with
  | some v => .ok v
  | none =>
      .error (.valueError ("invalid literal for int with base 0: " ++ s))

/-- Modelled from the spec: the format utilities' `num` (outside the
analysed sources) parses a numeric attribute string, here restricted to
the integer subset of the embedding's numeric domain. -/
def pyNumE (s : String) : Except PyError Int := pyIntE s

mutual
/-- `_indent_xml(element, indent, level)`, functionally: elements with
children get indentation text and tail (when blank), childless
elements at level at least one get a newline tail. -/
def indentXml (indent : String) : Element → Nat → Element
  | .mk tag attrib text children tail, level =>
      let i := "\n" ++ strRepeat indent level
      match children with
      | .nil =>
          if level ≠ 0 ∧ textIsBlank tail then
            .mk tag attrib text children (some i)
          else
            .mk tag attrib text children tail
      | .cons c cs =>
          let text' := if textIsBlank text then some (i ++ indent) else text
          let tail' := if textIsBlank tail then some i else tail
          let kids := indentXmlList indent (.cons c cs) (level + 1)
          .mk tag attrib text' (setLastTailIfBlank i kids) tail'
def indentXmlList (indent : String) : ElementList → Nat → ElementList
  | .nil, _ => .nil
  | .cons e es, level =>
      .cons (indentXml indent e level) (indentXmlList indent es level)
end

/-! ## Loading (`load_string` and helpers) -/

/-- `_get_node_name_by_id(nodes, node_id)`: scan the raw node attribute
records for a matching `id` and return its `name`; falling through
returns Python `None`. -/
def getNodeNameById (nodes : List (List (String × String)))
    (node_id : String) : Except PyError (Option String) :=
  match nodes with
  | [] => .ok none
  | node :: rest =>
      match lookupA node "id" with
      | none => .error (.keyError "id")
      | some v =>
          if v == node_id then
            match lookupA node "name" with
            | none => .error (.keyError "name")
            | some n => .ok (some n)
          else getNodeNameById rest node_id

/-- The local state accumulated by the signal-attribute loop of
`_load_signal_element`. -/
structure SigAttrs where
  name : Option String
  offset : Option Int
  length : Int
  byte_order : String
deriving DecidableEq, Repr

/-- The signal XML attribute loop: `name`, `offset` (parsed), `length`
(parsed), `endianess` (suffixed with `_endian`); anything else is
ignored with a debug notice. -/
def loadSigAttrs :
    List (String × String) → SigAttrs → Except PyError SigAttrs
  | [], st => .ok st
  | (key, value) :: rest, st => do
      let st' ←
        if key == "name" then pure { st with name := some value }
        else if key == "offset" then do
          let v ← pyIntE value
          pure { st with offset := some v }
        else if key == "length" then do
          let v ← pyIntE value
          pure { st with length := v }
        else if key == "endianess" then
          pure { st with byte_order := value ++ "_endian" }
        else pure st
      loadSigAttrs rest st'

/-- The local state accumulated by the `Value` attribute loop. -/
structure ValAttrs where
  minimum : Option Int
  maximum : Option Int
  slope : Int
  intercept : Int
  unit : Option String
  is_signed : Bool
  is_float : Bool
deriving DecidableEq, Repr

/-- The `Value` sub-element attribute loop: `min`, `max`, `slope`,
`intercept` through `num`, `unit` verbatim, `type` setting both the
signedness and floatness flags; anything else ignored. -/
def loadValAttrs :
    List (String × String) → ValAttrs → Except PyError ValAttrs
  | [], st => .ok st
  | (key, value) :: rest, st => do
      let st' ←
        if key == "min" then do
          let v ← pyNumE value
          pure { st with minimum := some v }
        else if key == "max" then do
          let v ← pyNumE value
          pure { st with maximum := some v }
        else if key == "slope" then do
          let v ← pyNumE value
          pure { st with slope := v }
        else if key == "intercept" then do
          let v ← pyNumE value
          pure { st with intercept := v }
        else if key == "unit" then
          pure { st with unit := some value }
        else if key == "type" then
          pure { st with
                 is_signed := value == "signed",
                 is_float := value == "single" || value == "double" }
        else pure st
      loadValAttrs rest st'

/-- The `Label` loop of the `LabelSet` element: `labels[value] = name`,
so a repeated raw value keeps its position and takes the last name. -/
def loadLabels :
    List Element → List (Int × String) → Except PyError (List (Int × String))
  | [], acc => .ok acc
  | label :: rest, acc =>
      match lookupA label.attrib "value" with
      | none => .error (.keyError "value")
      | some vs => do
          let v ← pyIntE vs
          match lookupA label.attrib "name" with
          | none => .error (.keyError "name")
          | some n => loadLabels rest (insertA acc v n)

/-- The `NodeRef` loop of a `Consumer`/`Producer` element: each
reference id is resolved through the node table; an unresolved id
appends Python `None`. -/
def loadNodeRefs (nodes : List (List (String × String))) :
    List Element → Except PyError (List (Option String))
  | [] => .ok []
  | ref :: rest =>
      match lookupA ref.attrib "id" with
      | none => .error (.keyError "id")
      | some i => do
          let r ← getNodeNameById nodes i
          let rest' ← loadNodeRefs nodes rest
          .ok (r :: rest')

/-- `_load_signal_element(signal, nodes)`. -/
def loadSignalElement (signal : Element)
    (nodes : List (List (String × String))) : Except PyError Signal := do
  let st ← loadSigAttrs signal.attrib ⟨none, none, 1, "little_endian"⟩
  let va ←
    match findChild signal (nsTag "Value") with
    | some value => loadValAttrs value.attrib ⟨none, none, 1, 0, none, false, false⟩
    | none => pure ⟨none, none, 1, 0, none, false, false⟩
  let notes := (findChild signal (nsTag "Notes")).bind Element.text
  let labels ←
    match findChild signal (nsTag "LabelSet") with
    | some label_set => do
        let l ← loadLabels (childrenWithTag label_set (nsTag "Label")) []
        pure (some l)
    | none => pure none
  let receivers ←
    match findChild signal (nsTag "Consumer") with
    | some consumer =>
        loadNodeRefs nodes (childrenWithTag consumer (nsTag "NodeRef"))
    | none => pure []
  let start ← startBitOpt st.offset st.byte_order
  .ok { name := st.name, start := start, length := st.length,
        byte_order := st.byte_order, is_signed := va.is_signed,
        is_float := va.is_float, scale := va.slope, offset := va.intercept,
        choices := labels, minimum := va.minimum, maximum := va.maximum,
        unit := va.unit, comment := notes, receivers := receivers,
        is_multiplexer := false, multiplexer_ids := none,
        multiplexer_signal := none }

/-- The inner `Signal` loop of one `MuxGroup`: each member gets the
singleton selector-value list (`int` conversion per member, as in the
source) and the selector's name. -/
def loadMuxGroupSignals (nodes : List (List (String × String)))
    (mux_name : Option String) (count : String) :
    List Element → Except PyError (List Signal)
  | [] => .ok []
  | se :: rest => do
      let s ← loadSignalElement se nodes
      let v ← pyIntE count
      let rest' ← loadMuxGroupSignals nodes mux_name count rest
      let s' := { s with multiplexer_ids := some [v] }
      .ok ({ s' with multiplexer_signal := mux_name } :: rest')

/-- The `MuxGroup` loop of `_load_multiplex_element`. -/
def loadMuxGroups (nodes : List (List (String × String)))
    (mux_name : Option String) :
    List Element → Except PyError (List Signal)
  | [] => .ok []
  | g :: rest =>
      match lookupA g.attrib "count" with
      | none => .error (.keyError "count")
      | some count => do
          let ss ← loadMuxGroupSignals nodes mux_name count
            (childrenWithTag g (nsTag "Signal"))
          let rest' ← loadMuxGroups nodes mux_name rest
          .ok (ss ++ rest')

/-- `_load_multiplex_element(mux, nodes)`: the element itself loads as
the selector signal (flagged as multiplexer), followed by the loaded
member signals of every group. -/
def loadMultiplexElement (mux : Element)
    (nodes : List (List (String × String))) :
    Except PyError (List Signal) := do
  let s ← loadSignalElement mux nodes
  let mux_signal := { s with is_multiplexer := true }
  let rest ← loadMuxGroups nodes mux_signal.name
    (childrenWithTag mux (nsTag "MuxGroup"))
  .ok (mux_signal :: rest)

/-- The local state accumulated by the message-attribute loop. -/
structure MsgAttrs where
  name : Option String
  frame_id : Option Int
  is_extended_frame : Bool
  lengthStr : String
  interval : Option Int
deriving DecidableEq, Repr

/-- The message XML attribute loop: `name`, `id` (base-0 int),
`format` (`"extended"` literal), `length` kept as a string for the
`auto` check, `interval` (parsed); anything else ignored. -/
def loadMsgAttrs :
    List (String × String) → MsgAttrs → Except PyError MsgAttrs
  | [], st => .ok st
  | (key, value) :: rest, st => do
      let st' ←
        if key == "name" then pure { st with name := some value }
        else if key == "id" then do
          let v ← pyIntBase0E value
          pure { st with frame_id := some v }
        else if key == "format" then
          pure { st with is_extended_frame := value == "extended" }
        else if key == "length" then
          pure { st with lengthStr := value }
        else if key == "interval" then do
          let v ← pyIntE value
          pure { st with interval := some v }
        else pure st
      loadMsgAttrs rest st'

/-- The `length == 'auto'` derivation of `_load_message_element`: no
signals gives zero, otherwise the last signal of the list sorted by the
canonical start bit determines
`(start_bit(last) + last.length + 7) // 8`.  A missing start raises
`TypeError` exactly when Python would (comparing or adding `None`). -/
def deriveAutoLength (signals : List Signal) : Except PyError Int :=
  match signals with
  | [] => .ok 0
  | _ =>
      if signals.any (fun s => s.start.isNone) then .error .typeError
      else
        let last := (sortByStartBit signals).getLastD default
        .ok ((utilStartBit last + last.length + 7) / 8)

/-- The `Multiplex` element loop of `_load_message_element`. -/
def loadMultiplexList (nodes : List (List (String × String))) :
    List Element → Except PyError (List Signal)
  | [] => .ok []
  | m :: rest => do
      let ss ← loadMultiplexElement m nodes
      let rest' ← loadMultiplexList nodes rest
      .ok (ss ++ rest')

/-- The standalone `Signal` element loop of `_load_message_element`. -/
def loadSignalList (nodes : List (List (String × String))) :
    List Element → Except PyError (List Signal)
  | [] => .ok []
  | se :: rest => do
      let s ← loadSignalElement se nodes
      let rest' ← loadSignalList nodes rest
      .ok (s :: rest')

/-- `_load_message_element(message, bus_name, nodes, strict,
sort_signals)`; the `strict` flag only configures out-of-scope
invariant checks in the message builder and the sort policy is applied
by the builder to the collected signal list. -/
def loadMessageElement (message : Element) (bus_name : Option String)
    (nodes : List (List (String × String))) (strict : Bool)
    (sortSig : Option (List Signal → List Signal)) :
    Except PyError Message := do
  let st ← loadMsgAttrs message.attrib ⟨none, none, false, "auto", none⟩
  let notes := (findChild message (nsTag "Notes")).bind Element.text
  let senders ←
    match findChild message (nsTag "Producer") with
    | some producer =>
        loadNodeRefs nodes (childrenWithTag producer (nsTag "NodeRef"))
    | none => pure []
  let muxSignals ← loadMultiplexList nodes
    (childrenWithTag message (nsTag "Multiplex"))
  let plainSignals ← loadSignalList nodes
    (childrenWithTag message (nsTag "Signal"))
  let signals := muxSignals ++ plainSignals
  let length ←
    if st.lengthStr == "auto" then deriveAutoLength signals
    else pyIntE st.lengthStr
  let _ := strict
  .ok { frame_id := st.frame_id,
        is_extended_frame := st.is_extended_frame, name := st.name,
        length := length, unused_bit_pattern := 255, senders := senders,
        cycle_time := st.interval,
        signals := match sortSig with
                   | some f => f signals
                   | none => signals,
        comment := notes, bus_name := bus_name }

/-- The `Node` object comprehension at the end of `load_string`. -/
def mkNodes :
    List (List (String × String)) → Except PyError (List Node)
  | [] => .ok []
  | n :: rest =>
      match lookupA n "name" with
      | none => .error (.keyError "name")
      | some nm => do
          let rest' ← mkNodes rest
          .ok (⟨nm, none⟩ :: rest')

/-- The `Message` loop of one `Bus` element. -/
def loadMessagesOfBus (bus_name : String)
    (nodes : List (List (String × String))) (strict : Bool)
    (sortSig : Option (List Signal → List Signal)) :
    List Element → Except PyError (List Message)
  | [] => .ok []
  | m :: rest => do
      let msg ← loadMessageElement m (some bus_name) nodes strict sortSig
      let rest' ← loadMessagesOfBus bus_name nodes strict sortSig rest
      .ok (msg :: rest')

/-- The `Bus` element loop of `load_string`: name (required), baud rate
(default 500000), then the contained messages. -/
def loadBusList (nodes : List (List (String × String))) (strict : Bool)
    (sortSig : Option (List Signal → List Signal)) :
    List Element → Except PyError (List Bus × List Message)
  | [] => .ok ([], [])
  | bus :: rest =>
      match lookupA bus.attrib "name" with
      | none => .error (.keyError "name")
      | some bus_name => do
          let baudrate ←
            match lookupA bus.attrib "baudrate" with
            | some b => pyIntE b
            | none => pure 500000
          let msgs ← loadMessagesOfBus bus_name nodes strict sortSig
            (childrenWithTag bus (nsTag "Message"))
          let (bs, ms) ← loadBusList nodes strict sortSig rest
          .ok (⟨bus_name, baudrate⟩ :: bs, msgs ++ ms)

/-- `load_string`: the string parameter is modelled as the parsed
element tree (`ElementTree.fromstring` belongs to the standard
library); root-tag verification, node collection, optional document
version, buses with their messages, node objects. -/
def loadString (root : Element) (strict : Bool)
    (sortSig : Option (List Signal → List Signal)) :
    Except PyError InternalDatabase :=
  if root.tag ≠ ROOT_TAG then
    .error (.valueError ("Expected root element tag " ++ ROOT_TAG ++
      ", but got " ++ root.tag ++ "."))
  else do
    let nodes := (childrenWithTag root (nsTag "Node")).map Element.attrib
    let version :=
      match findChild root (nsTag "Document") with
      | some document => lookupA document.attrib "version"
      | none => none
    let (buses, messages) ← loadBusList nodes strict sortSig
      (childrenWithTag root (nsTag "Bus"))
    let nodeObjs ← mkNodes nodes
    .ok ⟨messages, nodeObjs, buses, version⟩

/-! ## Dumping (`dump_string` and helpers) -/

/-- `_dump_notes(parent, comment)` builds the appended element. -/
def mkNotes (comment : String) : Element :=
  .mk "Notes" [] (some comment) .nil none

/-- The `NodeRef` serialization loop of `_dump_signal` /
`_dump_message`: `node_refs[receiver]` raises `KeyError` on a missing
(or `None`) node name. -/
def dumpNodeRefList :
    List (Option String) → List (String × Int) → Except PyError (List Element)
  | [], _ => .ok []
  | r :: rest, node_refs =>
      match r with
      | none => .error (.keyError "None")
      | some rn =>
          match lookupA node_refs rn with
          | none => .error (.keyError rn)
          | some i => do
              let rest' ← dumpNodeRefList rest node_refs
              .ok (mkEl "NodeRef" [("id", pyStrOfInt i)] [] :: rest')

/-- The `Value` element attributes of `_dump_signal`, in source order:
`min`, `max`, `slope` (if not 1), `intercept` (if not 0), `unit`,
`type` (`single`/`double` for floats by length, `signed` for signed
integers, nothing otherwise). -/
def valueAttrsOf (signal : Signal) : List (String × String) :=
  (match signal.minimum with
   | some m => [("min", pyStrOfInt m)]
   | none => []) ++
  (match signal.maximum with
   | some m => [("max", pyStrOfInt m)]
   | none => []) ++
  (if signal.scale ≠ 1 then [("slope", pyStrOfInt signal.scale)] else []) ++
  (if signal.offset ≠ 0 then [("intercept", pyStrOfInt signal.offset)]
   else []) ++
  (match signal.unit with
   | some u => [("unit", u)]
   | none => []) ++
  (if signal.is_float then
     [("type", if signal.length = 32 then "single" else "double")]
   else if signal.is_signed then [("type", "signed")]
   else [])

/-- Python `byte_order[:-7]`, stripping the `_endian` suffix. -/
def stripEndian (s : String) : String :=
  String.mk (s.data.take (s.data.length - 7))

/-- `_dump_signal(signal, node_refs, signal_element)`: the attributes
set on the element (in order: `name`, `offset`, conditional `length`
and `endianess`) and the children appended to it (optional `Notes`,
`Consumer`, non-empty `Value`, truthy `LabelSet`).  A `None` signal
name or a `None` start under big-endian surfaces as a `TypeError`
(Python raises when serializing a `None` attribute / on `None // 8`);
a `None` start under little-endian serializes as the string `"None"`
via `str(offset)`. -/
def dumpSignalParts (signal : Signal) (node_refs : List (String × Int)) :
    Except PyError (List (String × String) × List Element) := do
  let name ←
    match signal.name with
    | some n => pure n
    | none => .error .typeError
  let offsetStr ←
    match signal.start with
    | some s => pure (pyStrOfInt (startBitKcd s signal.byte_order))
    | none =>
        if signal.byte_order = "big_endian" then .error .typeError
        else pure "None"
  let attrs := [("name", name), ("offset", offsetStr)]
  let attrs := if signal.length ≠ 1 then
      attrs ++ [("length", pyStrOfInt signal.length)]
    else attrs
  let attrs := if signal.byte_order ≠ "little_endian" then
      attrs ++ [("endianess", stripEndian signal.byte_order)]
    else attrs
  let notesKids :=
    match signal.comment with
    | some c => [mkNotes c]
    | none => []
  let consumerKids ←
    match signal.receivers with
    | [] => pure []
    | rs => do
        let refs ← dumpNodeRefList rs node_refs
        pure [mkEl "Consumer" [] refs]
  let vattrs := valueAttrsOf signal
  let valueKids := if vattrs ≠ [] then [mkEl "Value" vattrs []] else []
  let labelKids :=
    match signal.choices with
    | some (c :: cs) =>
        [mkEl "LabelSet" []
          ((c :: cs).map (fun p =>
            mkEl "Label" [("name", p.2), ("value", pyStrOfInt p.1)] []))]
    | _ => []
  .ok (attrs, notesKids ++ consumerKids ++ valueKids ++ labelKids)

/-- The grouping pass of `_dump_mux_groups`: a `defaultdict(list)`
keyed by `multiplexer_ids[0]` over the signals whose
`multiplexer_signal` equals the selector's name.  A `None` id list
raises `TypeError` (`None[0]`), an empty one `IndexError`. -/
def muxGroupAssignments (multiplexer_name : Option String) :
    List Signal → List (Int × List Signal) →
    Except PyError (List (Int × List Signal))
  | [], acc => .ok acc
  | s :: rest, acc =>
      if s.multiplexer_signal ≠ multiplexer_name then
        muxGroupAssignments multiplexer_name rest acc
      else
        match s.multiplexer_ids with
        | none => .error .typeError
        | some [] => .error .indexError
        | some (v :: _) =>
            muxGroupAssignments multiplexer_name rest (insertGrouped acc v s)

/-- Serialize a list of signals as sibling `Signal` elements. -/
def dumpSignalElems :
    List Signal → List (String × Int) → Except PyError (List Element)
  | [], _ => .ok []
  | s :: rest, node_refs => do
      let parts ← dumpSignalParts s node_refs
      let rest' ← dumpSignalElems rest node_refs
      .ok (mkEl "Signal" parts.1 parts.2 :: rest')

/-- `_dump_mux_group` over the grouped assignment list: one `MuxGroup`
element per selector value, members as `Signal` children in their
grouped order. -/
def dumpMuxGroupList :
    List (Int × List Signal) → List (String × Int) →
    Except PyError (List Element)
  | [], _ => .ok []
  | g :: rest, node_refs => do
      let kids ← dumpSignalElems g.2 node_refs
      let rest' ← dumpMuxGroupList rest node_refs
      .ok (mkEl "MuxGroup" [("count", pyStrOfInt g.1)] kids :: rest')

/-- `_dump_mux_groups(multiplexer_name, signals, node_refs, parent)`. -/
def dumpMuxGroups (multiplexer_name : Option String)
    (signals : List Signal) (node_refs : List (String × Int)) :
    Except PyError (List Element) := do
  let groups ← muxGroupAssignments multiplexer_name signals []
  dumpMuxGroupList groups node_refs

/-- The signal loop of `_dump_message`: a multiplexer becomes a
`Multiplex` element carrying its own signal parts plus the mux groups
collected over the whole (sorted) signal list; a signal without
selector values becomes a `Signal` element; multiplexed members are
emitted only through their group. -/
def dumpMessageSignals (signals : List Signal)
    (node_refs : List (String × Int)) :
    List Signal → Except PyError (List Element)
  | [] => .ok []
  | s :: rest =>
      if s.is_multiplexer then do
        let parts ← dumpSignalParts s node_refs
        let groups ← dumpMuxGroups s.name signals node_refs
        let rest' ← dumpMessageSignals signals node_refs rest
        .ok (mkEl "Multiplex" parts.1 (parts.2 ++ groups) :: rest')
      else
        match s.multiplexer_ids with
        | none => do
            let parts ← dumpSignalParts s node_refs
            let rest' ← dumpMessageSignals signals node_refs rest
            .ok (mkEl "Signal" parts.1 parts.2 :: rest')
        | some _ => dumpMessageSignals signals node_refs rest

/-- `_dump_message(message, bus, node_refs, sort_signals)`: attributes
`id` (`0x%03X` format), `name`, `length`, conditional `interval` and
`format`; children: optional `Notes`, `Producer` when there are
senders, then the serialized signals. -/
def dumpMessage (message : Message) (node_refs : List (String × Int))
    (sortSig : Option (List Signal → List Signal)) :
    Except PyError Element := do
  let fid ←
    match message.frame_id with
    | some f => pure f
    | none => .error .typeError
  let name ←
    match message.name with
    | some n => pure n
    | none => .error .typeError
  let attrs := [("id", "0x" ++ pyFmt03X fid), ("name", name),
                ("length", pyStrOfInt message.length)]
  let attrs := attrs ++
    (match message.cycle_time with
     | some t => [("interval", pyStrOfInt t)]
     | none => [])
  let attrs := attrs ++
    (if message.is_extended_frame then [("format", "extended")] else [])
  let notesKids :=
    match message.comment with
    | some c => [mkNotes c]
    | none => []
  let producerKids ←
    match message.senders with
    | [] => pure []
    | ss => do
        let refs ← dumpNodeRefList ss node_refs
        pure [mkEl "Producer" [] refs]
  let signals :=
    match sortSig with
    | some f => f message.signals
    | none => message.signals
  let sigKids ← dumpMessageSignals signals node_refs signals
  .ok (mkEl "Message" attrs (notesKids ++ producerKids ++ sigKids))

/-- The element half of `_dump_nodes` (`enumerate(nodes, 1)`): `Node`
elements with sequential ids starting at 1. -/
def dumpNodeElems (nodes : List Node) : List Element :=
  (List.enumFrom 1 nodes).map (fun p =>
    mkEl "Node" [("id", pyStrOfInt (p.1 : Int)), ("name", p.2.name)] [])

/-- The `node_refs` half of `_dump_nodes`: name to id, later nodes
overriding earlier ones of the same name. -/
def buildNodeRefs (nodes : List Node) : List (String × Int) :=
  (List.enumFrom 1 nodes).foldl
    (fun acc p => insertA acc p.2.name (p.1 : Int)) []

/-- The message loop of `_dump_messages`. -/
def dumpMessageList (messages : List Message)
    (node_refs : List (String × Int))
    (sortSig : Option (List Signal → List Signal)) :
    Except PyError (List Element) :=
  match messages with
  | [] => .ok []
  | m :: rest => do
      let e ← dumpMessage m node_refs sortSig
      let rest' ← dumpMessageList rest node_refs sortSig
      .ok (e :: rest')

/-- The element-construction half of `dump_string`: version first, then
the nodes, then a single `Bus` element named `Bus` holding every
message. -/
def dumpRoot (database : InternalDatabase)
    (sortSig : Option (List Signal → List Signal)) :
    Except PyError Element := do
  let node_refs := buildNodeRefs database.nodes
  let attrs := [("xmlns:xsi", "http://www.w3.org/2001/XMLSchema-instance"),
                ("xmlns", "http://kayak.2codeornot2code.org/1.0"),
                ("xsi:noNamespaceSchemaLocation", "Definition.xsd")]
  let versionKids :=
    match database.version with
    | some v => [mkEl "Document" [("version", v)] []]
    | none => []
  let nodeKids := dumpNodeElems database.nodes
  let msgs ← dumpMessageList database.messages node_refs sortSig
  let busKid := mkEl "Bus" [("name", "Bus")] msgs
  .ok (mkEl "NetworkDefinition" attrs (versionKids ++ nodeKids ++ [busKid]))

/-- `dump_string(database, sort_signals)`: the element tree serialized
to text (the final `tostring` is the standard library's); the built
tree followed by indentation normalization.  Passing `none` as the sort
policy is the resolved default (`SORT_SIGNALS_DEFAULT` becomes
`None`). -/
def dumpString (database : InternalDatabase)
    (sortSig : Option (List Signal → List Signal)) :
    Except PyError Element :=
  (dumpRoot database sortSig).map (fun root => indentXml "  " root 0)

/-- `load_string(dump_string(db))`: the text layer in between is
modelled by `reparse`. -/
def roundTrip (database : InternalDatabase)
    (sortDump sortLoad : Option (List Signal → List Signal))
    (strict : Bool) : Except PyError InternalDatabase :=
  (dumpString database sortDump).bind
    (fun tree => loadString (reparse tree) strict sortLoad)

/-! ## Derived notions used to state the claims -/

/-- The selector value a multiplexed member is grouped under
(`multiplexer_ids[0]`), totalized for specification purposes. -/
def muxKeyOf (s : Signal) : Int := (s.multiplexer_ids.getD []).headD 0

/-- The signals the dumper collects into the groups of the selector
with the given name. -/
def muxMembers (signals : List Signal) (selname : Option String) :
    List Signal :=
  signals.filter (fun t => t.multiplexer_signal == selname)

/-- Grouping by first-seen selector value, members kept in scan order:
the pure content of `_dump_mux_groups`' defaultdict pass. -/
def groupByMuxKey (members : List Signal) : List (Int × List Signal) :=
  members.foldl (fun acc s => insertGrouped acc (muxKeyOf s) s) []

/-- The signal sequence a `Multiplex` element reloads to: the selector
followed by its members in group order. -/
def muxBlockOf (signals : List Signal) (sel : Signal) : List Signal :=
  sel :: ((groupByMuxKey (muxMembers signals sel.name)).map Prod.snd).flatten

/-- The canonical signal order produced by dumping and reloading
without sorting: every multiplexer block first (in selector order),
then the standalone signals. -/
def canonicalMuxOrder (signals : List Signal) : List Signal :=
  ((signals.filter (fun s => s.is_multiplexer)).map
    (muxBlockOf signals)).flatten ++
  signals.filter (fun s => !s.is_multiplexer && s.multiplexer_ids == none)

/-- The signal-level conditions under which a dump followed by a load
reconstructs the very same signal record: present name and start, one
of the two byte-order tags, not simultaneously signed and float, no
empty (falsy) choice map and no duplicate raw choice values, no empty
comment string, resolvable receivers, and one of the three multiplexer
roles (selector, member with a singleton selector-value list, or plain
signal). -/
def normalizedSignalB (nodeNames : List String) (s : Signal) : Bool :=
  s.name.isSome &&
  s.start.isSome &&
  (s.byte_order == "little_endian" || s.byte_order == "big_endian") &&
  !(s.is_signed && s.is_float) &&
  (match s.choices with
   | none => true
   | some [] => false
   | some l => decide ((l.map Prod.fst).Nodup)) &&
  !(s.comment == some "") &&
  s.receivers.all (fun r =>
    match r with
    | some rn => nodeNames.contains rn
    | none => false) &&
  (if s.is_multiplexer then
     s.multiplexer_ids == none && s.multiplexer_signal == none
   else
     match s.multiplexer_signal with
     | some _ =>
         match s.multiplexer_ids with
         | some [_] => true
         | _ => false
     | none => s.multiplexer_ids == none)

/-- The message-level conditions for an exact reload: present name, a
non-negative frame identifier, no empty comment, the single dumped bus
name, resolvable senders, the fixed fill byte, normalized signals, and
a signal list already in the canonical multiplexer order (which is how
a load without sorting produces it). -/
def normalizedMessageB (nodeNames : List String) (m : Message) : Bool :=
  m.name.isSome &&
  (match m.frame_id with
   | some f => decide (0 ≤ f)
   | none => false) &&
  !(m.comment == some "") &&
  m.bus_name == some "Bus" &&
  m.senders.all (fun r =>
    match r with
    | some rn => nodeNames.contains rn
    | none => false) &&
  m.unused_bit_pattern == 255 &&
  m.signals.all (normalizedSignalB nodeNames) &&
  m.signals == canonicalMuxOrder m.signals

/-- A network model the dump and reload cycle reproduces exactly: the
single bus the dumper emits, comment-free nodes, and normalized
messages. -/
def normalizedDbB (db : InternalDatabase) : Bool :=
  db.buses == [⟨"Bus", 500000⟩] &&
  db.nodes.all (fun n => n.comment == none) &&
  db.messages.all (normalizedMessageB (db.nodes.map Node.name))

/-- The grouping a dumped `Multiplex` element exhibits: for each
`MuxGroup` child its `count` attribute and the `name` attributes of its
`Signal` children, in document order. -/
def muxGroupsView (e : Element) : List (String × List (Option String)) :=
  (childrenWithTag e "MuxGroup").map (fun g =>
    ((lookupA g.attrib "count").getD "",
     (childrenWithTag g "Signal").map (fun s => lookupA s.attrib "name")))

/-- The multiplexer structure of a message model: the selector's name
with, per selector value in first-seen order, the member signal names
in order; `none` when the message does not consist of exactly one
selector. -/
def muxStructure (m : Message) : Option (Option String × List (Int × List (Option String))) :=
  match m.signals.filter (fun s => s.is_multiplexer) with
  | [sel] =>
      some (sel.name,
        (groupByMuxKey (muxMembers m.signals sel.name)).map
          (fun g => (g.1, g.2.map Signal.name)))
  | _ => none

/-- First-match node-id resolution over the raw node attribute records,
totalized: the content of `_get_node_name_by_id` on a well-formed
table. -/
def resolveNodeId (nodes : List (List (String × String)))
    (node_id : String) : Option String :=
  match nodes with
  | [] => none
  | n :: rest =>
      if lookupA n "id" == some node_id then lookupA n "name"
      else resolveNodeId rest node_id

/-- A node attribute table in which every record carries an `id` and a
`name`, so that resolution never raises. -/
def wellFormedNodeTable (nodes : List (List (String × String))) : Bool :=
  nodes.all (fun n => (lookupA n "id").isSome && (lookupA n "name").isSome)

/-- The reference ids of a list of `NodeRef` elements, totalized. -/
def refIdsOf (refs : List Element) : List String :=
  refs.map (fun r => (lookupA r.attrib "id").getD "")

/-- What `loadString` answers when the root tag is wrong. -/
def rootTagError (root : Element) : PyError :=
  .valueError ("Expected root element tag " ++ ROOT_TAG ++ ", but got " ++
    root.tag ++ ".")

/-! ## Formatting erasure

`_indent_xml` rewrites whitespace only: tags, attributes, child
structure, and the text of childless elements (the only text the loader
reads is that of the childless `Notes` elements) are untouched.
`stripWs` erases exactly the parts indentation may touch — all tails,
and the text of elements that have children — so indentation disappears
under it, and every loader is proved insensitive to it. -/

mutual
def stripWs : Element → Element
  | .mk tag attrib text cs _ =>
      .mk tag attrib
        (match cs with
         | .nil => text
         | .cons _ _ => none)
        (stripWsList cs) none
def stripWsList : ElementList → ElementList
  | .nil => .nil
  | .cons e es => .cons (stripWs e) (stripWsList es)
end

mutual
/-- Every (descendant) element tagged as a namespaced `Notes` element
is childless; dumped documents satisfy this by construction. -/
def notesFlat : Element → Prop
  | .mk t _ _ cs _ =>
      (t = nsTag "Notes" → cs = ElementList.nil) ∧ notesFlatList cs
def notesFlatList : ElementList → Prop
  | .nil => True
  | .cons e es => notesFlat e ∧ notesFlatList es
end

mutual
/-- The pre-namespace analogue of `notesFlat`, holding of the trees the
dumper builds. -/
def plainNotesFlat : Element → Prop
  | .mk t _ _ cs _ =>
      (t = "Notes" → cs = ElementList.nil) ∧ plainNotesFlatList cs
def plainNotesFlatList : ElementList → Prop
  | .nil => True
  | .cons e es => plainNotesFlat e ∧ plainNotesFlatList es
end

/-- The raw attribute records the loader sees for the nodes a dump
emits, ids counted from `base`. -/
def nodeTable (nodes : List Node) (base : Nat) :
    List (List (String × String)) :=
  match nodes with
  | [] => []
  | n :: rest =>
      [("id", pyStrOfInt (base : Int)), ("name", n.name)] ::
        nodeTable rest (base + 1)

/-- A plain unsigned little-endian signal with every optional attribute
absent, used to build the concrete witness inputs. -/
def plainSig (n : String) (st len : Int) : Signal :=
  { name := some n, start := some st, length := len,
    byte_order := "little_endian", is_signed := false, is_float := false,
    scale := 1, offset := 0, choices := none, minimum := none,
    maximum := none, unit := none, comment := none, receivers := [],
    is_multiplexer := false, multiplexer_ids := none,
    multiplexer_signal := none }

/-! ## The explicit shape of a dumped document

For a normalized database the dumpers are proved below to compute
exactly these trees; the reload is then computed on their
`stripWs`-of-`reparse` images. -/

/-- `fromstring`'s effect on an attribute list. -/
def cleanAttrs (a : List (String × String)) : List (String × String) :=
  a.filterMap (fun kv => (reparseAttrKey kv.1).map (fun k => (k, kv.2)))

/-- Serialize-and-parse composed with whitespace erasure. -/
def cleanEl (e : Element) : Element := stripWs (reparse e)

/-- The node-reference id a receiver or sender name dumps to,
totalized. -/
def refIdIn (nr : List (String × Int)) (r : Option String) : Int :=
  (r.bind (fun rn => lookupA nr rn)).getD 0

/-- The `NodeRef` elements a receiver/sender list dumps to. -/
def dumpedRefElems (nr : List (String × Int))
    (rs : List (Option String)) : List Element :=
  rs.map (fun r => mkEl "NodeRef" [("id", pyStrOfInt (refIdIn nr r))] [])

/-- The attribute list `_dump_signal` sets (totalized over the
hypotheses under which the dump is proved to succeed). -/
def dumpedSignalAttrs (s : Signal) : List (String × String) :=
  ([("name", s.name.getD ""),
    ("offset", pyStrOfInt (startBitKcd (s.start.getD 0) s.byte_order))] ++
   (if s.length ≠ 1 then [("length", pyStrOfInt s.length)] else [])) ++
  (if s.byte_order ≠ "little_endian"
   then [("endianess", stripEndian s.byte_order)] else [])

/-- The children `_dump_signal` appends. -/
def dumpedSignalKids (s : Signal) (nr : List (String × Int)) :
    List Element :=
  (match s.comment with
   | some c => [mkNotes c]
   | none => []) ++
  (match s.receivers with
   | [] => []
   | _ :: _ => [mkEl "Consumer" [] (dumpedRefElems nr s.receivers)]) ++
  (if valueAttrsOf s ≠ [] then [mkEl "Value" (valueAttrsOf s) []]
   else []) ++
  (match s.choices with
   | some (c :: cs) =>
       [mkEl "LabelSet" []
         ((c :: cs).map (fun p =>
           mkEl "Label" [("name", p.2), ("value", pyStrOfInt p.1)] []))]
   | _ => [])

/-- A dumped standalone `Signal` element. -/
def dumpedSignalEl (s : Signal) (nr : List (String × Int)) : Element :=
  mkEl "Signal" (dumpedSignalAttrs s) (dumpedSignalKids s nr)

/-- The `MuxGroup` elements dumped under a selector. -/
def dumpedMuxGroupEls (signals : List Signal) (nr : List (String × Int))
    (selname : Option String) : List Element :=
  (groupByMuxKey (muxMembers signals selname)).map (fun g =>
    mkEl "MuxGroup" [("count", pyStrOfInt g.1)]
      (g.2.map (fun t => dumpedSignalEl t nr)))

/-- The element sequence the signal loop of `_dump_message` emits. -/
def dumpedMessageSignalEls (signals : List Signal)
    (nr : List (String × Int)) : List Signal → List Element
  | [] => []
  | s :: rest =>
      if s.is_multiplexer then
        mkEl "Multiplex" (dumpedSignalAttrs s)
          (dumpedSignalKids s nr ++ dumpedMuxGroupEls signals nr s.name) ::
          dumpedMessageSignalEls signals nr rest
      else
        match s.multiplexer_ids with
        | none => dumpedSignalEl s nr :: dumpedMessageSignalEls signals nr rest
        | some _ => dumpedMessageSignalEls signals nr rest

/-- The attribute list `_dump_message` sets. -/
def dumpedMessageAttrs (m : Message) : List (String × String) :=
  ([("id", "0x" ++ pyFmt03X (m.frame_id.getD 0)),
    ("name", m.name.getD ""),
    ("length", pyStrOfInt m.length)] ++
   (match m.cycle_time with
    | some t => [("interval", pyStrOfInt t)]
    | none => [])) ++
  (if m.is_extended_frame then [("format", "extended")] else [])

/-- The children `_dump_message` appends (under the no-sort policy). -/
def dumpedMessageKids (m : Message) (nr : List (String × Int)) :
    List Element :=
  (match m.comment with
   | some c => [mkNotes c]
   | none => []) ++
  (match m.senders with
   | [] => []
   | _ :: _ => [mkEl "Producer" [] (dumpedRefElems nr m.senders)]) ++
  dumpedMessageSignalEls m.signals nr m.signals

/-- A dumped `Message` element. -/
def dumpedMessageEl (m : Message) (nr : List (String × Int)) : Element :=
  mkEl "Message" (dumpedMessageAttrs m) (dumpedMessageKids m nr)

/-- The root element `dump_string` builds for a normalized database
(before indentation). -/
def dumpedRootEl (db : InternalDatabase) : Element :=
  mkEl "NetworkDefinition"
    [("xmlns:xsi", "http://www.w3.org/2001/XMLSchema-instance"),
     ("xmlns", "http://kayak.2codeornot2code.org/1.0"),
     ("xsi:noNamespaceSchemaLocation", "Definition.xsd")]
    ((match db.version with
      | some v => [mkEl "Document" [("version", v)] []]
      | none => []) ++
     dumpNodeElems db.nodes ++
     [mkEl "Bus" [("name", "Bus")]
       (db.messages.map (fun m => dumpedMessageEl m (buildNodeRefs db.nodes)))])

/-- The per-signal facts under which `_dump_signal` is proved not to
raise: a present name, a present start, and receivers that resolve in
the node-reference map. -/
def sigDumpable (nr : List (String × Int)) (s : Signal) : Prop :=
  s.name.isSome = true ∧ s.start.isSome = true ∧
  ∀ r ∈ s.receivers, (r.bind (fun rn => lookupA nr rn)).isSome = true

/-- The per-signal facts under which the cleaned dumped signal element
is proved to reload exactly. -/
def sigCleanLoadable (nodes : List Node) (s : Signal) : Prop :=
  (∃ nm, s.name = some nm) ∧ (∃ st, s.start = some st) ∧
  (s.byte_order = "little_endian" ∨ s.byte_order = "big_endian") ∧
  ¬(s.is_signed = true ∧ s.is_float = true) ∧
  s.choices ≠ some [] ∧
  (∀ l, s.choices = some l → ((l.map Prod.fst).Nodup)) ∧
  s.comment ≠ some "" ∧
  (∀ r ∈ s.receivers, ∃ rn, r = some rn ∧
    (lookupA (buildNodeRefs nodes) rn).isSome = true)

/-- The per-message facts under which the cleaned dumped message
element is proved to reload exactly. -/
def msgCleanLoadable (nodes : List Node) (m : Message) : Prop :=
  (∃ fid, m.frame_id = some fid ∧ 0 ≤ fid) ∧
  (∃ nm, m.name = some nm) ∧
  m.comment ≠ some "" ∧
  (∀ r ∈ m.senders, ∃ rn, r = some rn ∧
    (lookupA (buildNodeRefs nodes) rn).isSome = true) ∧
  m.bus_name = some "Bus" ∧ m.unused_bit_pattern = 255 ∧
  m.signals = canonicalMuxOrder m.signals ∧
  (∀ sel ∈ m.signals.filter (fun s => s.is_multiplexer),
    sigCleanLoadable nodes sel ∧ sel.is_multiplexer = true ∧
    sel.multiplexer_ids = none ∧ sel.multiplexer_signal = none ∧
    (∀ t ∈ muxMembers m.signals sel.name, sigCleanLoadable nodes t ∧
      t.is_multiplexer = false ∧ t.multiplexer_signal = sel.name ∧
      ∃ v, t.multiplexer_ids = some [v] ∧ muxKeyOf t = v)) ∧
  (∀ t ∈ m.signals.filter (fun s =>
      !s.is_multiplexer && s.multiplexer_ids == none),
    sigCleanLoadable nodes t ∧ t.is_multiplexer = false ∧
    t.multiplexer_ids = none ∧ t.multiplexer_signal = none)

/-- A signal record as `_load_signal_element` first builds it, before
any multiplexer role is attached. -/
def bareSig (s : Signal) : Signal :=
  { s with is_multiplexer := false, multiplexer_ids := none,
           multiplexer_signal := none }

/-! # Proofs

## Number formatting round trips -/

theorem parseDigitsAux_append (dv : Char → Option Nat) (b : Nat)
    (l1 l2 : List Char) (acc : Nat) :
    parseDigitsAux dv b (l1 ++ l2) acc =
      match parseDigitsAux dv b l1 acc with
      | some a => parseDigitsAux dv b l2 a
      | none => none := by
  induction l1 generalizing acc with
  | nil => simp [parseDigitsAux]
  | cons c cs ih =>
      simp only [List.cons_append, parseDigitsAux]
      cases dv c with
      | some d => exact ih _
      | none => rfl

theorem decDigit_ok : ∀ d, d < 10 → decDigitVal (decDigitChar d) = some d := by
  decide

theorem hexDigit_ok : ∀ d, d < 16 → hexDigitVal (hexDigitChar d) = some d := by
  decide

theorem toBaseAux_ne_nil (b : Nat) (dc : Nat → Char) (f m : Nat) :
    toBaseAux b dc (f + 1) (m + 1) ≠ [] := by
  rw [toBaseAux]
  simp

theorem parse_toBaseAux (b : Nat) (dc : Nat → Char) (dv : Char → Option Nat)
    (hb : 2 ≤ b) (hd : ∀ d, d < b → dv (dc d) = some d) :
    ∀ fuel n acc, n ≤ fuel →
      parseDigitsAux dv b (toBaseAux b dc fuel n) acc =
        some (acc * b ^ (toBaseAux b dc fuel n).length + n) := by
  intro fuel
  induction fuel with
  | zero =>
      intro n acc h
      interval_cases n
      simp [toBaseAux, parseDigitsAux]
  | succ f ih =>
      intro n acc h
      match n with
      | 0 => simp [toBaseAux, parseDigitsAux]
      | m + 1 =>
          rw [toBaseAux, parseDigitsAux_append]
          have hdiv : (m + 1) / b ≤ f := by
            have h1 : (m + 1) / b < m + 1 :=
              Nat.div_lt_self (Nat.succ_pos m) (by omega)
            omega
          rw [ih _ acc hdiv]
          have hmod : (m + 1) % b < b := Nat.mod_lt _ (by omega)
          simp only [parseDigitsAux, hd _ hmod, List.length_append,
            List.length_singleton]
          congr 1
          have hdm := Nat.div_add_mod (m + 1) b
          calc b * (acc * b ^ (toBaseAux b dc f ((m + 1) / b)).length
                      + (m + 1) / b) + (m + 1) % b
              = acc * (b ^ (toBaseAux b dc f ((m + 1) / b)).length * b)
                  + (b * ((m + 1) / b) + (m + 1) % b) := by ring
            _ = acc * b ^ ((toBaseAux b dc f ((m + 1) / b)).length + 1)
                  + (m + 1) := by rw [pow_succ, hdm]

theorem mem_toBaseAux (b : Nat) (dc : Nat → Char) (hb : 0 < b) :
    ∀ fuel n c, c ∈ toBaseAux b dc fuel n → ∃ d, d < b ∧ c = dc d := by
  intro fuel
  induction fuel with
  | zero => intro n c hc; simp [toBaseAux] at hc
  | succ f ih =>
      intro n c hc
      match n with
      | 0 => simp [toBaseAux] at hc
      | m + 1 =>
          rw [toBaseAux] at hc
          rcases List.mem_append.mp hc with h | h
          · exact ih _ _ h
          · refine ⟨(m + 1) % b, Nat.mod_lt _ hb, ?_⟩
            simpa using h

theorem parseDigits_ne_nil (dv : Char → Option Nat) (b : Nat)
    {cs : List Char} (h : cs ≠ []) :
    parseDigits dv b cs = parseDigitsAux dv b cs 0 := by
  cases cs with
  | nil => exact absurd rfl h
  | cons c cs => rfl

theorem parseDigits_pyStrOfNat (n : Nat) :
    parseDigits decDigitVal 10 (pyStrOfNat n).data = some n := by
  by_cases h0 : n = 0
  · subst h0; decide
  · rw [pyStrOfNat, if_neg h0]
    match n, h0 with
    | m + 1, _ =>
        show parseDigits decDigitVal 10
          (toBaseAux 10 decDigitChar (m + 1) (m + 1)) = some (m + 1)
        rw [parseDigits_ne_nil _ _ (toBaseAux_ne_nil 10 decDigitChar m m)]
        rw [parse_toBaseAux 10 decDigitChar decDigitVal (by omega) decDigit_ok
          (m + 1) (m + 1) 0 (le_refl _)]
        simp

theorem decDigitChar_not_sign :
    ∀ d, d < 10 →
      ((decDigitChar d == '-') = false ∧ (decDigitChar d == '+') = false) := by
  decide

theorem pyIntParse_mk_cons (c : Char) (cs : List Char) :
    pyIntParse ⟨c :: cs⟩ =
      (if c == '-' then
        (parseDigits decDigitVal 10 cs).map (fun n => -(n : Int))
      else if c == '+' then
        (parseDigits decDigitVal 10 cs).map (fun n => (n : Int))
      else
        (parseDigits decDigitVal 10 (c :: cs)).map (fun n => (n : Int))) :=
  rfl

theorem pyIntParse_pyStrOfNat (n : Nat) :
    pyIntParse (pyStrOfNat n) = some (n : Int) := by
  by_cases h0 : n = 0
  · subst h0; decide
  · have hparse := parseDigits_pyStrOfNat n
    rw [pyStrOfNat, if_neg h0] at hparse ⊢
    match n, h0 with
    | m + 1, _ =>
        obtain ⟨c, cs, hcs⟩ : ∃ c cs,
            toBaseAux 10 decDigitChar (m + 1) (m + 1) = c :: cs := by
          cases h : toBaseAux 10 decDigitChar (m + 1) (m + 1) with
          | nil => exact absurd h (toBaseAux_ne_nil 10 decDigitChar m m)
          | cons c cs => exact ⟨c, cs, rfl⟩
        have hc : c ∈ toBaseAux 10 decDigitChar (m + 1) (m + 1) := by
          rw [hcs]; simp
        obtain ⟨d, hd, hcd⟩ :=
          mem_toBaseAux 10 decDigitChar (by omega) (m + 1) (m + 1) c hc
        obtain ⟨hm1, hm2⟩ := decDigitChar_not_sign d hd
        have hm1' : (c == '-') = false := by rw [hcd]; exact hm1
        have hm2' : (c == '+') = false := by rw [hcd]; exact hm2
        rw [hcs] at hparse ⊢
        rw [pyIntParse_mk_cons]
        simp [hm1', hm2', hparse]

theorem pyIntParse_pyStrOfInt (n : Int) :
    pyIntParse (pyStrOfInt n) = some n := by
  by_cases hneg : n < 0
  · rw [pyStrOfInt, if_pos hneg]
    have hdata : "-" ++ pyStrOfNat n.natAbs =
        String.mk ('-' :: (pyStrOfNat n.natAbs).data) := rfl
    rw [hdata, pyIntParse_mk_cons]
    have hparse := parseDigits_pyStrOfNat n.natAbs
    simp [hparse]
    rw [abs_of_neg hneg, neg_neg]
  · rw [pyStrOfInt, if_neg hneg]
    rw [pyIntParse_pyStrOfNat]
    have h2 : ((n.toNat : Nat) : Int) = n := by omega
    rw [h2]

theorem pyIntE_pyStrOfInt (n : Int) : pyIntE (pyStrOfInt n) = .ok n := by
  rw [pyIntE, pyIntParse_pyStrOfInt]

theorem pyNumE_pyStrOfInt (n : Int) : pyNumE (pyStrOfInt n) = .ok n :=
  pyIntE_pyStrOfInt n

theorem pyStrOfInt_ne_auto (n : Int) : (pyStrOfInt n == "auto") = false := by
  by_contra h
  have heq : pyStrOfInt n = "auto" := by
    cases hb : (pyStrOfInt n == "auto") with
    | true => exact eq_of_beq hb
    | false => exact absurd hb h
  have h1 := pyIntParse_pyStrOfInt n
  rw [heq] at h1
  have h2 : pyIntParse "auto" = none := by decide
  rw [h2] at h1
  cases h1

theorem pyStrOfInt_inj {a b : Int} (h : pyStrOfInt a = pyStrOfInt b) :
    a = b := by
  have h1 := pyIntParse_pyStrOfInt a
  rw [h, pyIntParse_pyStrOfInt b] at h1
  exact (Option.some_inj.mp h1).symm

theorem parseDigitsAux_append_ok (dv : Char → Option Nat) (b : Nat)
    {l1 : List Char} {acc a : Nat} (l2 : List Char)
    (h : parseDigitsAux dv b l1 acc = some a) :
    parseDigitsAux dv b (l1 ++ l2) acc = parseDigitsAux dv b l2 a := by
  rw [parseDigitsAux_append, h]

theorem parseDigitsAux_hex_zeros (k : Nat) :
    parseDigitsAux hexDigitVal 16 (List.replicate k '0') 0 = some 0 := by
  induction k with
  | zero => simp [parseDigitsAux]
  | succ m ih =>
      rw [List.replicate_succ]
      have h0 : hexDigitVal '0' = some 0 := by decide
      simp only [parseDigitsAux, h0]
      simpa using ih

theorem parseDigits_hex_padded (k n : Nat) :
    parseDigits hexDigitVal 16
      (List.replicate k '0' ++
        (if n = 0 then ['0'] else toBaseAux 16 hexDigitChar n n)) =
      some n := by
  have hds : (if n = 0 then ['0']
      else toBaseAux 16 hexDigitChar n n) ≠ [] := by
    by_cases h0 : n = 0
    · simp [h0]
    · rw [if_neg h0]
      match n, h0 with
      | m + 1, _ => exact toBaseAux_ne_nil 16 hexDigitChar m m
  have hne : List.replicate k '0' ++
      (if n = 0 then ['0'] else toBaseAux 16 hexDigitChar n n) ≠ [] := by
    intro h
    exact hds (List.append_eq_nil.mp h).2
  rw [parseDigits_ne_nil _ _ hne,
    parseDigitsAux_append_ok hexDigitVal 16 _ (parseDigitsAux_hex_zeros k)]
  by_cases h0 : n = 0
  · subst h0
    simp only [if_pos rfl]
    decide
  · rw [if_neg h0]
    match n, h0 with
    | m + 1, _ =>
        rw [parse_toBaseAux 16 hexDigitChar hexDigitVal (by omega)
          hexDigit_ok (m + 1) (m + 1) 0 (le_refl _)]
        simp

theorem pyIntBase0Core_hex (ds : List Char) :
    pyIntBase0Core ('0' :: 'x' :: ds) = parseDigits hexDigitVal 16 ds := by
  simp [pyIntBase0Core]

theorem pyIntParseBase0_mk_cons (c : Char) (cs : List Char) :
    pyIntParseBase0 ⟨c :: cs⟩ =
      (if c == '-' then (pyIntBase0Core cs).map (fun n => -(n : Int))
       else if c == '+' then (pyIntBase0Core cs).map (fun n => (n : Int))
       else (pyIntBase0Core (c :: cs)).map (fun n => (n : Int))) := rfl

theorem pyIntBase0_hexdump (n : Int) (hn : 0 ≤ n) :
    pyIntParseBase0 ("0x" ++ pyFmt03X n) = some n := by
  have h1 : "0x" ++ pyFmt03X n =
      String.mk ('0' :: 'x' ::
        (List.replicate (3 - (if n.toNat = 0 then ['0']
            else toBaseAux 16 hexDigitChar n.toNat n.toNat).length) '0' ++
         (if n.toNat = 0 then ['0']
            else toBaseAux 16 hexDigitChar n.toNat n.toNat))) := by
    rw [pyFmt03X, if_pos hn]
    rfl
  rw [h1, pyIntParseBase0_mk_cons]
  rw [if_neg (by decide : ¬ (('0' == '-') = true))]
  rw [if_neg (by decide : ¬ (('0' == '+') = true))]
  rw [pyIntBase0Core_hex, parseDigits_hex_padded]
  have h3 : ((n.toNat : Nat) : Int) = n := by omega
  simp [h3]

theorem pyIntBase0E_hexdump (n : Int) (hn : 0 ≤ n) :
    pyIntBase0E ("0x" ++ pyFmt03X n) = .ok n := by
  rw [pyIntBase0E, pyIntBase0_hexdump n hn]

/-! ## Association-list lemmas -/

theorem lookupA_mem {κ β : Type} [DecidableEq κ] {m : List (κ × β)}
    {k : κ} {v : β} (h : lookupA m k = some v) : (k, v) ∈ m := by
  induction m with
  | nil => cases h
  | cons p rest ih =>
      obtain ⟨k', v'⟩ := p
      rw [lookupA] at h
      by_cases hk : k' = k
      · rw [if_pos hk] at h
        cases h
        subst hk
        exact List.mem_cons_self _ _
      · rw [if_neg hk] at h
        exact List.mem_cons_of_mem _ (ih h)

theorem mem_keysA_of_lookupA {κ β : Type} [DecidableEq κ]
    {m : List (κ × β)} {k : κ} {v : β} (h : lookupA m k = some v) :
    k ∈ keysA m := by
  have := lookupA_mem h
  exact List.mem_map.mpr ⟨(k, v), this, rfl⟩

theorem lookupA_eq_none_of_not_mem_keys {κ β : Type} [DecidableEq κ]
    {m : List (κ × β)} {k : κ} (h : k ∉ keysA m) : lookupA m k = none := by
  induction m with
  | nil => rfl
  | cons p rest ih =>
      obtain ⟨k', v'⟩ := p
      rw [lookupA]
      rw [keysA] at h
      simp only [List.map_cons, List.mem_cons] at h
      push_neg at h
      rw [if_neg (Ne.symm h.1)]
      exact ih (by simpa [keysA] using h.2)

theorem lookupA_insertA_self {κ β : Type} [DecidableEq κ]
    (m : List (κ × β)) (k : κ) (v : β) :
    lookupA (insertA m k v) k = some v := by
  induction m with
  | nil => simp [insertA, lookupA]
  | cons p rest ih =>
      obtain ⟨k', v'⟩ := p
      rw [insertA]
      by_cases hk : k' = k
      · rw [if_pos hk, lookupA, if_pos hk]
      · rw [if_neg hk, lookupA, if_neg hk]
        exact ih

theorem lookupA_insertA_ne {κ β : Type} [DecidableEq κ]
    (m : List (κ × β)) {k k' : κ} (v : β) (h : k' ≠ k) :
    lookupA (insertA m k' v) k = lookupA m k := by
  induction m with
  | nil => simp [insertA, lookupA, h]
  | cons p rest ih =>
      obtain ⟨k'', v''⟩ := p
      rw [insertA]
      by_cases hk : k'' = k'
      · rw [if_pos hk, lookupA, lookupA, hk]
        rw [if_neg h, if_neg (hk ▸ (hk ▸ h : k' ≠ k))]
      · rw [if_neg hk, lookupA, lookupA]
        by_cases hk2 : k'' = k
        · rw [if_pos hk2, if_pos hk2]
        · rw [if_neg hk2, if_neg hk2]
          exact ih

theorem keysA_insertA_subset {κ β : Type} [DecidableEq κ]
    (m : List (κ × β)) (k k' : κ) (v : β)
    (h1 : k ∉ keysA m) (h2 : k ≠ k') :
    k ∉ keysA (insertA m k' v) := by
  induction m with
  | nil => simpa [insertA, keysA] using h2
  | cons p rest ih =>
      obtain ⟨k'', v''⟩ := p
      rw [keysA] at h1
      simp only [List.map_cons, List.mem_cons] at h1
      push_neg at h1
      rw [insertA]
      by_cases hk : k'' = k'
      · rw [if_pos hk]
        simp only [keysA, List.map_cons, List.mem_cons]
        push_neg
        exact ⟨h1.1, by simpa [keysA] using h1.2⟩
      · rw [if_neg hk]
        simp only [keysA, List.map_cons, List.mem_cons]
        push_neg
        refine ⟨h1.1, ?_⟩
        have := ih (by simpa [keysA] using h1.2)
        simpa [keysA] using this

theorem keysA_nodup_insertA {κ β : Type} [DecidableEq κ]
    (m : List (κ × β)) (k : κ) (v : β) (h : (keysA m).Nodup) :
    (keysA (insertA m k v)).Nodup := by
  induction m with
  | nil => simp [insertA, keysA]
  | cons p rest ih =>
      obtain ⟨k', v'⟩ := p
      rw [keysA] at h
      simp only [List.map_cons, List.nodup_cons] at h
      rw [insertA]
      by_cases hk : k' = k
      · rw [if_pos hk]
        simp only [keysA, List.map_cons, List.nodup_cons]
        exact ⟨by simpa [keysA] using h.1, by simpa [keysA] using h.2⟩
      · rw [if_neg hk]
        simp only [keysA, List.map_cons, List.nodup_cons]
        constructor
        · have := keysA_insertA_subset rest k' k v
            (by simpa [keysA] using h.1) hk
          simpa [keysA] using this
        · exact ih (by simpa [keysA] using h.2)

/-! ## Gateway resolution lemmas -/

theorem filter_sublist_filter {α : Type} (p q : α → Bool)
    (himp : ∀ y, q y = true → p y = true) (l : List α) :
    (l.filter q).Sublist (l.filter p) := by
  induction l with
  | nil => simp
  | cons a rest ih =>
      rw [List.filter_cons, List.filter_cons]
      cases hq : q a with
      | true =>
          rw [himp a hq]
          simpa using List.Sublist.cons₂ a ih
      | false =>
          cases hp : p a with
          | true => simpa using List.Sublist.cons a ih
          | false => simpa using ih

theorem filter_length_lt {α : Type} {p q : α → Bool} {l : List α} {x : α}
    (hx : x ∈ l) (hpx : p x = true) (hqx : q x = false)
    (himp : ∀ y, q y = true → p y = true) :
    (l.filter q).length < (l.filter p).length := by
  induction l with
  | nil => cases hx
  | cons a rest ih =>
      rcases List.mem_cons.mp hx with rfl | hmem
      · have hle : (rest.filter q).length ≤ (rest.filter p).length :=
          (filter_sublist_filter p q himp rest).length_le
        simp only [List.filter_cons, hpx, hqx]
        simp only [Bool.false_eq_true, if_false, if_true, List.length_cons]
        omega
      · cases hq : q a with
        | true =>
            have hpa := himp a hq
            have := ih hmem
            simp only [List.filter_cons, hq, hpa, if_true, List.length_cons]
            omega
        | false =>
            cases hp : p a with
            | true =>
                have := ih hmem
                simp only [List.filter_cons, hq, hp, Bool.false_eq_true,
                  if_false, if_true, List.length_cons]
                omega
            | false =>
                have := ih hmem
                simp only [List.filter_cons, hq, hp, Bool.false_eq_true,
                  if_false]
                omega

theorem walkMeasure_decr {m : List (String × (String × String))}
    {seen : List String} {k source gateway : String}
    (hmem : (k, (source, gateway)) ∈ m) (hnot : source ∉ seen) :
    walkMeasure m (source :: seen) < walkMeasure m seen := by
  refine filter_length_lt hmem ?_ ?_ ?_
  · have : ¬ (seen.contains source = true) :=
      fun hc => hnot (List.elem_iff.mp hc)
    simpa using this
  · have : (source :: seen).contains source = true :=
      List.elem_iff.mpr (List.mem_cons_self _ _)
    simpa using this
  · intro y hq
    have h1 : ¬ ((source :: seen).contains y.2.1 = true) := by
      simpa using hq
    have h2 : y.2.1 ∉ seen := by
      intro hm
      exact h1 (List.elem_iff.mpr (List.mem_cons_of_mem _ hm))
    simpa using fun hc => h2 (List.elem_iff.mp hc)

theorem walkMeasure_le_length (m : List (String × (String × String)))
    (seen : List String) : walkMeasure m seen ≤ m.length :=
  List.length_filter_le _ _

theorem walkLoop_succ (m : List (String × (String × String)))
    (fuel : Nat) (seen gateways_path : List String)
    (source gateway : String) :
    walkLoop m (fuel + 1) seen gateways_path (source, gateway) =
      if source ∈ seen then none
      else
        match lookupA m source with
        | some prev => walkLoop m fuel (source :: seen)
            (gateways_path ++ [gateway]) prev
        | none => some (source, gateways_path ++ [gateway]) := rfl

theorem walkLoop_fuel_succ (m : List (String × (String × String))) :
    ∀ (fuel : Nat) (seen path : List String) (p : String × String),
      (∃ k, (k, p) ∈ m) → walkMeasure m seen < fuel →
      walkLoop m (fuel + 1) seen path p = walkLoop m fuel seen path p := by
  intro fuel
  induction fuel with
  | zero => intro seen path p _ h; exact absurd h (Nat.not_lt_zero _)
  | succ f ih =>
      intro seen path p hp hmeas
      obtain ⟨source, gateway⟩ := p
      rw [walkLoop_succ, walkLoop_succ]
      by_cases hs : source ∈ seen
      · rw [if_pos hs, if_pos hs]
      · rw [if_neg hs, if_neg hs]
        cases hl : lookupA m source with
        | none => rfl
        | some prev =>
            obtain ⟨k, hk⟩ := hp
            have hd := walkMeasure_decr hk hs
            exact ih (source :: seen) (path ++ [gateway]) prev
              ⟨source, lookupA_mem hl⟩ (by omega)

theorem walkLoop_fuel_eq (m : List (String × (String × String)))
    {f1 f2 : Nat} {seen path : List String} {p : String × String}
    (hp : ∃ k, (k, p) ∈ m)
    (h1 : walkMeasure m seen < f1) (h2 : walkMeasure m seen < f2) :
    walkLoop m f1 seen path p = walkLoop m f2 seen path p := by
  have aux : ∀ f, walkMeasure m seen < f →
      walkLoop m f seen path p =
        walkLoop m (walkMeasure m seen + 1) seen path p := by
    intro f
    induction f with
    | zero => intro h; exact absurd h (Nat.not_lt_zero _)
    | succ g ihg =>
        intro h
        by_cases hg : walkMeasure m seen = g
        · rw [hg]
        · have hlt : walkMeasure m seen < g := by omega
          rw [walkLoop_fuel_succ m g seen path p hp hlt]
          exact ihg hlt
  rw [aux f1 h1, aux f2 h2]

theorem walkTarget_fuel_eq (m : List (String × (String × String)))
    {f1 f2 : Nat} (target : String)
    (h1 : m.length < f1) (h2 : m.length < f2) :
    walkTarget m f1 target = walkTarget m f2 target := by
  cases hl : lookupA m target with
  | none => rw [walkTarget, walkTarget, hl]
  | some prev =>
      rw [walkTarget, walkTarget, hl]
      have hm := walkMeasure_le_length m [target]
      show (walkLoop m f1 [target] [] prev).map (fun r => (r.1, r.2.reverse)) =
        (walkLoop m f2 [target] [] prev).map (fun r => (r.1, r.2.reverse))
      rw [walkLoop_fuel_eq m ⟨target, lookupA_mem hl⟩
        (by omega : walkMeasure m [target] < f1)
        (by omega : walkMeasure m [target] < f2)]

theorem walkLoop_of_walksTo (m : List (String × (String × String))) :
    ∀ {seen : List String} {p : String × String} {o : String}
      {path : List String},
      WalksTo m seen p o path → (∃ k, (k, p) ∈ m) →
      ∀ (fuel : Nat) (acc : List String), walkMeasure m seen < fuel →
        walkLoop m fuel seen acc p = some (o, acc ++ path.reverse) := by
  intro seen p o path h
  induction h with
  | origin seen source gateway hnotseen hnone =>
      intro _ fuel acc hf
      match fuel with
      | 0 => exact absurd hf (Nat.not_lt_zero _)
      | f + 1 =>
          rw [walkLoop_succ, if_neg hnotseen, hnone]
          show some (source, acc ++ [gateway]) =
            some (source, acc ++ [gateway].reverse)
          simp
  | step seen source gateway prev o path hnotseen hsome hrest ih =>
      intro hp fuel acc hf
      match fuel with
      | 0 => exact absurd hf (Nat.not_lt_zero _)
      | f + 1 =>
          rw [walkLoop_succ, if_neg hnotseen, hsome]
          obtain ⟨k, hk⟩ := hp
          have hd := walkMeasure_decr hk hnotseen
          have hrec := ih ⟨source, lookupA_mem hsome⟩ f (acc ++ [gateway])
            (by omega)
          show walkLoop m f (source :: seen) (acc ++ [gateway]) prev =
            some (o, acc ++ (path ++ [gateway]).reverse)
          rw [hrec]
          simp

theorem walkLoop_none_of_cycles (m : List (String × (String × String))) :
    ∀ {seen : List String} {p : String × String},
      WalkCycles m seen p →
      ∀ (fuel : Nat) (acc : List String),
        walkLoop m fuel seen acc p = none := by
  intro seen p h
  induction h with
  | hit seen source gateway hseen =>
      intro fuel acc
      match fuel with
      | 0 => rfl
      | f + 1 => rw [walkLoop_succ, if_pos hseen]
  | step seen source gateway prev hnotseen hsome hrest ih =>
      intro fuel acc
      match fuel with
      | 0 => rfl
      | f + 1 =>
          rw [walkLoop_succ, if_neg hnotseen, hsome]
          show walkLoop m f (source :: seen) (acc ++ [gateway]) prev = none
          exact ih f (acc ++ [gateway])

theorem foldl_congr_step {α β : Type} (f g : β → α → β) :
    ∀ (L : List α) (acc : β), (∀ b a, f b a = g b a) →
      L.foldl f acc = L.foldl g acc := by
  intro L
  induction L with
  | nil => intro acc _; rfl
  | cons a rest ih =>
      intro acc h
      rw [List.foldl_cons, List.foldl_cons, h]
      exact ih _ h

theorem lookupA_resolve_fold_untouched
    (w : String → Option (String × List String)) :
    ∀ (L : List String) (acc : List (String × (String × List String)))
      (t : String), t ∉ L →
      lookupA (L.foldl (fun result target =>
        match w target with
        | some r => insertA result target r
        | none => result) acc) t = lookupA acc t := by
  intro L
  induction L with
  | nil => intro acc t _; rfl
  | cons b rs ihr =>
      intro acc t hmem
      rw [List.foldl_cons]
      simp only [List.mem_cons] at hmem
      push_neg at hmem
      cases hw : w b with
      | none =>
          simp only [hw]
          exact ihr _ t hmem.2
      | some r =>
          simp only [hw]
          refine Eq.trans (ihr _ t hmem.2) ?_
          exact lookupA_insertA_ne _ _ (Ne.symm hmem.1)

theorem lookupA_resolve_fold (w : String → Option (String × List String)) :
    ∀ (L : List String) (acc : List (String × (String × List String)))
      (t : String), L.Nodup → t ∈ L → t ∉ keysA acc →
      lookupA (L.foldl (fun result target =>
        match w target with
        | some r => insertA result target r
        | none => result) acc) t = w t := by
  intro L
  induction L with
  | nil => intro acc t _ ht _; cases ht
  | cons a rest ih =>
      intro acc t hnd ht hacc
      rw [List.foldl_cons]
      rw [List.nodup_cons] at hnd
      rcases List.mem_cons.mp ht with rfl | hmem
      · cases hw : w t with
        | none =>
            simp only [hw]
            rw [lookupA_resolve_fold_untouched w rest acc t hnd.1]
            exact lookupA_eq_none_of_not_mem_keys hacc
        | some r =>
            simp only [hw]
            rw [lookupA_resolve_fold_untouched w rest (insertA acc t r) t hnd.1]
            exact lookupA_insertA_self _ _ _
      · cases hw : w a with
        | none =>
            simp only [hw]
            exact ih _ t hnd.2 hmem hacc
        | some r =>
            simp only [hw]
            refine ih _ t hnd.2 hmem ?_
            exact keysA_insertA_subset _ _ _ _ hacc
              (by rintro rfl; exact hnd.1 hmem)

theorem buildTargetToSource_keys_nodup (gateways : List Gateway) :
    (keysA (buildTargetToSource gateways)).Nodup := by
  rw [buildTargetToSource]
  have inner : ∀ (gw : Gateway) (routes : List (String × String))
      (m : List (String × (String × String))), (keysA m).Nodup →
      (keysA (routes.foldl (fun m st =>
        let source_pair := (st.1, gw.name)
        if pairLe ((lookupA m st.2).getD source_pair) source_pair then
          insertA m st.2 source_pair
        else m) m)).Nodup := by
    intro gw routes
    induction routes with
    | nil => intro m h; exact h
    | cons r rs ih =>
        intro m h
        rw [List.foldl_cons]
        apply ih
        dsimp only
        split
        · exact keysA_nodup_insertA _ _ _ h
        · exact h
  have outer : ∀ (gws : List Gateway)
      (m : List (String × (String × String))), (keysA m).Nodup →
      (keysA (gws.foldl (fun m gateway =>
        gateway.pdu_triggering_routes.foldl (fun m st =>
          let source_pair := (st.1, gateway.name)
          if pairLe ((lookupA m st.2).getD source_pair) source_pair then
            insertA m st.2 source_pair
          else m) m) m)).Nodup := by
    intro gws
    induction gws with
    | nil => intro m h; exact h
    | cons g gs ih =>
        intro m h
        rw [List.foldl_cons]
        exact ih _ (inner g _ m h)
  exact outer gateways [] (by simp [keysA])

/-! ## Claim theorems: gateway resolution and bit positions -/

/-- Claim C1 (code_bug evidence).  The source comments and the spec say
the lexicographically smaller `(source, gateway_name)` pair is kept
when several gateways claim one target, but the replacement condition
`target_to_source.get(target, source_pair) <= source_pair` keeps the
larger pair: gateways `G1:(a,z)` and `G2:(b,z)` resolve `z` to
`(b, [G2])`, not `(a, [G1])`, in either scan order. -/
theorem claim_c1_gateway_tiebreak_keeps_larger :
    getPduTriggeringRoutes
      [⟨"G1", "node", [("a", "z")]⟩, ⟨"G2", "node", [("b", "z")]⟩] =
      [("z", ("b", ["G2"]))] ∧
    getPduTriggeringRoutes
      [⟨"G2", "node", [("b", "z")]⟩, ⟨"G1", "node", [("a", "z")]⟩] =
      [("z", ("b", ["G2"]))] := by
  constructor
  · decide
  · decide

/-- Claim C2.  The bit-position translation `_start_bit` is an exact
involution for every non-negative offset and both byte-order tags: it
is the identity for little-endian and the per-byte mirroring
`8*(x // 8) + (7 - x % 8)` for big-endian, which is self-inverse. -/
theorem claim_c2_bit_position_involution (x : Int) (hx : 0 ≤ x) :
    (startBitKcd (startBitKcd x "little_endian") "little_endian" = x ∧
      startBitKcd x "little_endian" = x) ∧
    (startBitKcd (startBitKcd x "big_endian") "big_endian" = x ∧
      startBitKcd x "big_endian" = 8 * (x / 8) + (7 - x % 8)) := by
  have hne : ¬ (("little_endian" : String) = "big_endian") := by decide
  refine ⟨⟨?_, ?_⟩, ⟨?_, ?_⟩⟩
  · rw [startBitKcd, if_neg hne, startBitKcd, if_neg hne]
  · rw [startBitKcd, if_neg hne]
  · rw [startBitKcd, if_pos rfl, startBitKcd, if_pos rfl]
    omega
  · rw [startBitKcd, if_pos rfl]

theorem claim_c2_witness :
    (0 : Int) ≤ 13 ∧
    ((startBitKcd (startBitKcd 13 "little_endian") "little_endian" = 13 ∧
        startBitKcd (13 : Int) "little_endian" = 13) ∧
      (startBitKcd (startBitKcd 13 "big_endian") "big_endian" = 13 ∧
        startBitKcd (13 : Int) "big_endian" =
          8 * ((13 : Int) / 8) + (7 - (13 : Int) % 8))) :=
  ⟨by decide, claim_c2_bit_position_involution 13 (by decide)⟩

/-- Claim C4.  If the backward walk from a target runs into a cycle (a
source repeating within the current walk, as captured by `WalkCycles`),
the resolved table has no entry for that target at all: no partial or
truncated route is stored. -/
theorem claim_c4_gateway_cycle_rejection (gateways : List Gateway)
    (target : String) (prev : String × String)
    (hlk : lookupA (buildTargetToSource gateways) target = some prev)
    (hcyc : WalkCycles (buildTargetToSource gateways) [target] prev) :
    lookupA (getPduTriggeringRoutes gateways) target = none := by
  have hnodup := buildTargetToSource_keys_nodup gateways
  have ht : target ∈ keysA (buildTargetToSource gateways) :=
    mem_keysA_of_lookupA hlk
  simp only [getPduTriggeringRoutes, getPduTriggeringRoutesFuel]
  rw [lookupA_resolve_fold _ _ [] target hnodup ht (by simp [keysA])]
  rw [walkTarget, hlk]
  show (walkLoop _ _ [target] [] prev).map (fun r => (r.1, r.2.reverse)) =
    none
  rw [walkLoop_none_of_cycles _ hcyc]
  rfl

theorem claim_c4_witness :
    lookupA (getPduTriggeringRoutes
      [⟨"G1", "node", [("x", "y")]⟩, ⟨"G2", "node", [("y", "x")]⟩]) "x" =
      none ∧
    lookupA (getPduTriggeringRoutes
      [⟨"G1", "node", [("x", "y")]⟩, ⟨"G2", "node", [("y", "x")]⟩]) "y" =
      none :=
  ⟨claim_c4_gateway_cycle_rejection _ "x" ("y", "G2") (by decide)
      (.step ["x"] "y" "G2" ("x", "G1") (by decide) (by decide)
        (.hit ["y", "x"] "x" "G1" (by decide))),
    claim_c4_gateway_cycle_rejection _ "y" ("x", "G1") (by decide)
      (.step ["y"] "x" "G1" ("y", "G2") (by decide) (by decide)
        (.hit ["x", "y"] "y" "G2" (by decide)))⟩

/-- Claim C5.  Every target whose backward walk (`WalksTo`) reaches an
origin without revisiting a source is mapped to the pair of that origin
and the traversed gateway names in origin-first order. -/
theorem claim_c5_gateway_chain_resolution (gateways : List Gateway)
    (target origin : String) (prev : String × String) (path : List String)
    (hlk : lookupA (buildTargetToSource gateways) target = some prev)
    (hwalk : WalksTo (buildTargetToSource gateways) [target] prev
      origin path) :
    lookupA (getPduTriggeringRoutes gateways) target =
      some (origin, path) := by
  have hnodup := buildTargetToSource_keys_nodup gateways
  have ht : target ∈ keysA (buildTargetToSource gateways) :=
    mem_keysA_of_lookupA hlk
  simp only [getPduTriggeringRoutes, getPduTriggeringRoutesFuel]
  rw [lookupA_resolve_fold _ _ [] target hnodup ht (by simp [keysA])]
  rw [walkTarget, hlk]
  have hm := walkMeasure_le_length (buildTargetToSource gateways) [target]
  have hloop := walkLoop_of_walksTo (buildTargetToSource gateways) hwalk
    ⟨target, lookupA_mem hlk⟩ ((buildTargetToSource gateways).length + 1)
    [] (by omega)
  show (walkLoop _ _ [target] [] prev).map (fun r => (r.1, r.2.reverse)) =
    some (origin, path)
  rw [hloop]
  simp

theorem claim_c5_witness :
    lookupA (getPduTriggeringRoutes
      [⟨"G1", "node", [("a", "b")]⟩, ⟨"G2", "node", [("b", "c")]⟩]) "c" =
      some ("a", ["G1", "G2"]) :=
  claim_c5_gateway_chain_resolution _ "c" "a" ("b", "G2") ["G1", "G2"]
    (by decide)
    (.step ["c"] "b" "G2" ("a", "G1") "a" ["G1"] (by decide) (by decide)
      (.origin ["b", "c"] "a" "G1" (by decide) (by decide)))

/-- Claim C10.  The backward walk terminates: every iteration either
stops or adds an unseen source to the seen set, so any fuel beyond the
size of the direct target-to-source map computes the same resolved
table — the resolution is a total function of its input. -/
theorem claim_c10_gateway_resolution_total (gateways : List Gateway)
    (fuel : Nat) (hf : (buildTargetToSource gateways).length < fuel) :
    getPduTriggeringRoutesFuel gateways fuel =
      getPduTriggeringRoutes gateways := by
  rw [getPduTriggeringRoutes]
  simp only [getPduTriggeringRoutesFuel]
  apply foldl_congr_step
  intro acc t
  rw [walkTarget_fuel_eq _ t hf
    (by omega : (buildTargetToSource gateways).length <
      (buildTargetToSource gateways).length + 1)]

/-! ## Claim C6: implicit message length -/

theorem sorted_le_getLast {l : List Signal}
    (hs : List.Sorted (fun a b => utilStartBit a ≤ utilStartBit b) l)
    (hne : l ≠ []) :
    ∀ x ∈ l, utilStartBit x ≤ utilStartBit (l.getLast hne) := by
  induction l with
  | nil => exact absurd rfl hne
  | cons a rest ih =>
      intro x hx
      cases rest with
      | nil =>
          rcases List.mem_cons.mp hx with rfl | hx'
          · exact le_refl _
          · cases hx'
      | cons b rs =>
          have hne' : b :: rs ≠ [] := by simp
          rw [List.getLast_cons hne']
          rcases List.mem_cons.mp hx with rfl | hx'
          · exact List.rel_of_sorted_cons hs _ (List.getLast_mem hne')
          · exact ih ((List.sorted_cons.mp hs).2) hne' x hx'

theorem getLast_sortByStartBit (signals : List Signal) (sig : Signal)
    (hmem : sig ∈ signals)
    (hmax : ∀ t ∈ signals, utilStartBit t ≤ utilStartBit sig)
    (huniq : signals.filter
      (fun t => decide (utilStartBit t = utilStartBit sig)) = [sig]) :
    (sortByStartBit signals).getLastD default = sig := by
  have hperm : (sortByStartBit signals).Perm signals :=
    List.perm_insertionSort _ signals
  have hsorted := List.sorted_insertionSort
    (fun a b => utilStartBit a ≤ utilStartBit b) signals
  have hne : sortByStartBit signals ≠ [] := by
    intro h
    rw [h] at hperm
    have h2 : signals = [] := List.perm_nil.mp hperm.symm
    rw [h2] at hmem
    cases hmem
  have hlastmem : (sortByStartBit signals).getLast hne ∈ signals :=
    hperm.mem_iff.mp (List.getLast_mem hne)
  have hsigmem : sig ∈ sortByStartBit signals := hperm.mem_iff.mpr hmem
  have hge : utilStartBit sig ≤
      utilStartBit ((sortByStartBit signals).getLast hne) :=
    sorted_le_getLast hsorted hne sig hsigmem
  have hle : utilStartBit ((sortByStartBit signals).getLast hne) ≤
      utilStartBit sig := hmax _ hlastmem
  have heq : utilStartBit ((sortByStartBit signals).getLast hne) =
      utilStartBit sig := le_antisymm hle hge
  have hfil : (sortByStartBit signals).filter
      (fun t => decide (utilStartBit t = utilStartBit sig)) = [sig] :=
    List.perm_singleton.mp (by rw [← huniq]; exact hperm.filter _)
  have hlast_in_fil : (sortByStartBit signals).getLast hne ∈
      (sortByStartBit signals).filter
        (fun t => decide (utilStartBit t = utilStartBit sig)) := by
    rw [List.mem_filter]
    exact ⟨List.getLast_mem hne, by simp [heq]⟩
  rw [hfil] at hlast_in_fil
  have : (sortByStartBit signals).getLast hne = sig := by
    simpa using hlast_in_fil
  rw [List.getLastD_eq_getLast?, List.getLast?_eq_getLast _ hne,
    Option.getD_some, this]

/-- Claim C6.  A message whose declared length is the `auto` sentinel
derives byte length 0 when it has no signals, and otherwise
`(s + l + 7) // 8` — the ceiling of `(s + l) / 8` — where `s` is the
maximum canonical start bit over all signals (not document order) and
`l` the bit length of the signal attaining it; the message element with
signals occupying canonical bits `[0, 8)` and `[8, 20)` loads with
byte length 3. -/
theorem claim_c6_auto_length_derivation (signals : List Signal)
    (sig : Signal) (smax len : Int)
    (hmem : sig ∈ signals)
    (hstart : sig.start = some smax) (hlen : sig.length = len)
    (hall : ∀ t ∈ signals, t.start.isSome = true)
    (hmax : ∀ t ∈ signals, utilStartBit t ≤ utilStartBit sig)
    (huniq : signals.filter
      (fun t => decide (utilStartBit t = utilStartBit sig)) = [sig]) :
    deriveAutoLength [] = .ok 0 ∧
    deriveAutoLength signals = .ok ((smax + len + 7) / 8) ∧
    (loadMessageElement
      (mkEl (nsTag "Message") [("id", "0x001"), ("name", "AM")]
        [mkEl (nsTag "Signal")
          [("name", "s1"), ("offset", "0"), ("length", "8")] [],
         mkEl (nsTag "Signal")
          [("name", "s2"), ("offset", "8"), ("length", "12")] []])
      none [] true none).map Message.length = .ok 3 := by
  refine ⟨rfl, ?_, by decide⟩
  obtain ⟨a, as, rfl⟩ : ∃ a as, signals = a :: as := by
    cases signals with
    | nil => cases hmem
    | cons a as => exact ⟨a, as, rfl⟩
  have hany : (a :: as).any (fun s => s.start.isNone) = false := by
    rw [List.any_eq_false]
    intro x hx
    have := hall x hx
    cases hs : x.start with
    | none => rw [hs] at this; cases this
    | some v => simp [hs]
  rw [deriveAutoLength]
  rw [hany]
  simp only [Bool.false_eq_true, if_false]
  rw [getLast_sortByStartBit _ sig hmem hmax huniq]
  have hu : utilStartBit sig = smax := by
    rw [utilStartBit, hstart, Option.getD_some]
  rw [hu, hlen]
  simp

theorem claim_c6_witness :
    deriveAutoLength [] = .ok 0 ∧
    deriveAutoLength [plainSig "s1" 0 8, plainSig "s2" 8 12] =
      .ok ((8 + 12 + 7) / 8) ∧
    (loadMessageElement
      (mkEl (nsTag "Message") [("id", "0x001"), ("name", "AM")]
        [mkEl (nsTag "Signal")
          [("name", "s1"), ("offset", "0"), ("length", "8")] [],
         mkEl (nsTag "Signal")
          [("name", "s2"), ("offset", "8"), ("length", "12")] []])
      none [] true none).map Message.length = .ok 3 :=
  claim_c6_auto_length_derivation [plainSig "s1" 0 8, plainSig "s2" 8 12]
    (plainSig "s2" 8 12) 8 12 (by decide) (by decide)
    (by decide) (by decide) (by decide) (by decide)

/-! ## Claims C3 and C7: load-time failures and degraded references -/

/-- Claim C3, amended.  A document whose root tag differs from the
expected namespaced constant fails with the structural `ValueError`
naming the expected and actual tags, and — the load being a single
`Except` value — produces no partial model.  The root check is the only
failure the codec raises explicitly, but it is not the only hard
failure surfaced at load time: the same load on a well-tagged document
whose `Bus` element lacks its required `name` attribute raises a
`KeyError`. -/
theorem claim_c3_root_tag_failure (root : Element) (strict : Bool)
    (sortSig : Option (List Signal → List Signal))
    (h : root.tag ≠ ROOT_TAG) :
    loadString root strict sortSig = .error (rootTagError root) ∧
    loadString (mkEl ROOT_TAG [] [mkEl (nsTag "Bus") [] []]) strict
      sortSig = .error (.keyError "name") := by
  constructor
  · rw [loadString, if_pos h]
    rfl
  · rfl

theorem claim_c3_witness :
    loadString (mkEl "wrong" [] []) true none =
      .error (rootTagError (mkEl "wrong" [] [])) ∧
    loadString (mkEl ROOT_TAG [] [mkEl (nsTag "Bus") [] []]) true none =
      .error (.keyError "name") :=
  claim_c3_root_tag_failure (mkEl "wrong" [] []) true none (by decide)

/-- Claim C3, counterexample to "the only hard failure": a document
with the correct root tag still fails hard when a `Bus` element has no
`name` attribute. -/
theorem claim_c3_counterexample :
    (mkEl ROOT_TAG [] [mkEl (nsTag "Bus") [] []]).tag = ROOT_TAG ∧
    loadString (mkEl ROOT_TAG [] [mkEl (nsTag "Bus") [] []]) true none =
      .error (.keyError "name") := by
  constructor
  · rfl
  · rfl

theorem getNodeNameById_wf (nodes : List (List (String × String)))
    (hwf : wellFormedNodeTable nodes = true) (i : String) :
    getNodeNameById nodes i = .ok (resolveNodeId nodes i) := by
  induction nodes with
  | nil => rfl
  | cons n rest ih =>
      rw [wellFormedNodeTable, List.all_cons] at hwf
      obtain ⟨hn, hrest⟩ := Bool.and_eq_true_iff.mp hwf
      obtain ⟨hid, hname⟩ := Bool.and_eq_true_iff.mp hn
      cases hlid : lookupA n "id" with
      | none => rw [hlid] at hid; cases hid
      | some v =>
          cases hlname : lookupA n "name" with
          | none => rw [hlname] at hname; cases hname
          | some nm =>
              simp only [getNodeNameById, resolveNodeId, hlid, hlname]
              by_cases hb : (v == i) = true
              · simp [hb]
              · have hb' : (v == i) = false := by
                  cases hx : (v == i) with
                  | false => rfl
                  | true => exact absurd hx hb
                simp only [hb', Bool.false_eq_true, if_false,
                  Option.some_beq_some]
                exact ih (by rw [wellFormedNodeTable]; exact hrest)

/-- Claim C7, amended.  When the node table is well formed, resolving a
`Consumer`/`Producer` reference list never fails, and an unresolved
node id yields a `None` placeholder at its position — the entry is kept
(the result has exactly one entry per reference), not omitted. -/
theorem claim_c7_unresolved_ref_placeholder
    (nodes : List (List (String × String))) (refs : List Element)
    (hwf : wellFormedNodeTable nodes = true)
    (hids : ∀ r ∈ refs, (lookupA r.attrib "id").isSome = true) :
    loadNodeRefs nodes refs =
      .ok ((refIdsOf refs).map (resolveNodeId nodes)) ∧
    ((refIdsOf refs).map (resolveNodeId nodes)).length = refs.length := by
  constructor
  · induction refs with
    | nil => rfl
    | cons r rest ih =>
        have hr := hids r (List.mem_cons_self _ _)
        cases hlid : lookupA r.attrib "id" with
        | none => rw [hlid] at hr; cases hr
        | some i =>
            have hrest := ih (fun x hx => hids x (List.mem_cons_of_mem _ hx))
            simp only [loadNodeRefs, hlid]
            rw [getNodeNameById_wf nodes hwf i, hrest]
            simp [refIdsOf, hlid]
            rfl
  · rw [refIdsOf]
    simp

theorem claim_c7_witness :
    loadNodeRefs [[("id", "1"), ("name", "A")]]
      [mkEl (nsTag "NodeRef") [("id", "1")] [],
       mkEl (nsTag "NodeRef") [("id", "2")] []] =
      .ok ((refIdsOf [mkEl (nsTag "NodeRef") [("id", "1")] [],
        mkEl (nsTag "NodeRef") [("id", "2")] []]).map
          (resolveNodeId [[("id", "1"), ("name", "A")]])) ∧
    ((refIdsOf [mkEl (nsTag "NodeRef") [("id", "1")] [],
        mkEl (nsTag "NodeRef") [("id", "2")] []]).map
          (resolveNodeId [[("id", "1"), ("name", "A")]])).length = 2 :=
  claim_c7_unresolved_ref_placeholder [[("id", "1"), ("name", "A")]]
    [mkEl (nsTag "NodeRef") [("id", "1")] [],
     mkEl (nsTag "NodeRef") [("id", "2")] []] (by decide) (by decide)

/-- Claim C7, counterexample to the claim as stated: one resolvable and
one unresolvable reference load to `[some "A", none]` — the unresolved
entry is a `None` placeholder appended to the receiver list, not an
absent entry. -/
theorem claim_c7_counterexample :
    (loadSignalElement
      (mkEl (nsTag "Signal") [("name", "s"), ("offset", "0")]
        [mkEl (nsTag "Consumer") []
          [mkEl (nsTag "NodeRef") [("id", "1")] [],
           mkEl (nsTag "NodeRef") [("id", "2")] []]])
      [[("id", "1"), ("name", "A")]]).map Signal.receivers =
      .ok [some "A", none] ∧
    ¬ ((loadSignalElement
      (mkEl (nsTag "Signal") [("name", "s"), ("offset", "0")]
        [mkEl (nsTag "Consumer") []
          [mkEl (nsTag "NodeRef") [("id", "1")] [],
           mkEl (nsTag "NodeRef") [("id", "2")] []]])
      [[("id", "1"), ("name", "A")]]).map Signal.receivers =
      .ok [some "A"]) := by
  constructor
  · decide
  · decide

theorem claim_c10_witness :
    (buildTargetToSource
      [⟨"G1", "node", [("a", "b")]⟩, ⟨"G2", "node", [("b", "c")]⟩]).length
      < 17 ∧
    getPduTriggeringRoutesFuel
      [⟨"G1", "node", [("a", "b")]⟩, ⟨"G2", "node", [("b", "c")]⟩] 17 =
    getPduTriggeringRoutes
      [⟨"G1", "node", [("a", "b")]⟩, ⟨"G2", "node", [("b", "c")]⟩] :=
  ⟨by decide, claim_c10_gateway_resolution_total _ 17 (by decide)⟩

/-! ## Formatting-erasure lemmas -/

theorem stripWs_tag : ∀ e : Element, (stripWs e).tag = e.tag
  | .mk _ _ _ _ _ => rfl

theorem stripWs_attrib : ∀ e : Element, (stripWs e).attrib = e.attrib
  | .mk _ _ _ _ _ => rfl

theorem stripWsList_toList : ∀ cs : ElementList,
    (stripWsList cs).toList = cs.toList.map stripWs
  | .nil => rfl
  | .cons e es => by
      simp [stripWsList, ElementList.toList, stripWsList_toList es]

theorem toList_ofList : ∀ l : List Element,
    (ElementList.ofList l).toList = l
  | [] => rfl
  | e :: es => by
      simp [ElementList.ofList, ElementList.toList, toList_ofList es]

theorem childrenWithTag_stripWs (e : Element) (t : String) :
    childrenWithTag (stripWs e) t = (childrenWithTag e t).map stripWs := by
  obtain ⟨tg, a, x, cs, tl⟩ := e
  show ((stripWsList cs).toList.filter fun c => c.tag == t) =
    (cs.toList.filter fun c => c.tag == t).map stripWs
  rw [stripWsList_toList, List.filter_map]
  have hfun : ∀ c ∈ cs.toList,
      ((fun c => c.tag == t) ∘ stripWs) c = (c.tag == t) := by
    intro c _
    simp only [Function.comp_apply, stripWs_tag]
  rw [List.filter_congr hfun]

theorem findChild_stripWs (e : Element) (t : String) :
    findChild (stripWs e) t = (findChild e t).map stripWs := by
  rw [findChild, findChild, childrenWithTag_stripWs, List.head?_map]

theorem notesFlatList_mem : ∀ (cs : ElementList) (c : Element),
    notesFlatList cs → c ∈ cs.toList → notesFlat c
  | .nil, c, _, hc => by cases hc
  | .cons e es, c, h, hc => by
      rw [notesFlatList] at h
      rcases List.mem_cons.mp hc with rfl | hc'
      · exact h.1
      · exact notesFlatList_mem es c h.2 hc'

theorem notesFlat_child {e c : Element} (h : notesFlat e)
    (hc : c ∈ e.children.toList) : notesFlat c := by
  obtain ⟨tg, a, x, cs, tl⟩ := e
  rw [notesFlat] at h
  exact notesFlatList_mem cs c h.2 hc

theorem findChild_mem {e : Element} {t : String} {c : Element}
    (h : findChild e t = some c) : c ∈ e.children.toList ∧ c.tag = t := by
  rw [findChild] at h
  have hc : c ∈ childrenWithTag e t := by
    cases hf : childrenWithTag e t with
    | nil => rw [hf] at h; cases h
    | cons a rest =>
        rw [hf, List.head?_cons] at h
        cases h
        exact List.mem_cons_self _ _
  rw [childrenWithTag, List.mem_filter] at hc
  exact ⟨hc.1, by simpa using hc.2⟩

theorem notes_text_stripWs {e : Element} (h : notesFlat e) :
    ((findChild (stripWs e) (nsTag "Notes")).bind Element.text) =
      ((findChild e (nsTag "Notes")).bind Element.text) := by
  rw [findChild_stripWs]
  cases hf : findChild e (nsTag "Notes") with
  | none => rfl
  | some nt =>
      obtain ⟨hmem, htag⟩ := findChild_mem hf
      have hflat := notesFlat_child h hmem
      obtain ⟨tg, a, x, cs, tl⟩ := nt
      rw [notesFlat] at hflat
      have hnil : cs = ElementList.nil := hflat.1 htag
      subst hnil
      rfl

theorem strip_reparse_tail_irrel (t : String) (a : List (String × String))
    (x : Option String) (cs : ElementList) (tl1 tl2 : Option String) :
    stripWs (reparse (.mk t a x cs tl1)) =
      stripWs (reparse (.mk t a x cs tl2)) := rfl

theorem strip_reparse_eq (t : String) (a : List (String × String))
    (x : Option String) (cs : ElementList) (tl : Option String) :
    stripWs (reparse (.mk t a x cs tl)) =
      .mk (nsTag t)
        (a.filterMap (fun kv => (reparseAttrKey kv.1).map (fun k => (k, kv.2))))
        (match cs with
         | .nil => (reparse (.mk t a x cs tl)).text
         | .cons _ _ => none)
        (stripWsList (reparseList cs)) none := by
  cases cs with
  | nil => rfl
  | cons c cs' => rfl

theorem strip_reparse_setLastTail (i : String) :
    ∀ cs : ElementList,
      stripWsList (reparseList (setLastTailIfBlank i cs)) =
        stripWsList (reparseList cs)
  | .nil => rfl
  | .cons e .nil => by
      rw [setLastTailIfBlank]
      split
      · obtain ⟨tg, a, x, cs, tl⟩ := e
        show ElementList.cons (stripWs (reparse (.mk tg a x cs (some i))))
            (stripWsList (reparseList .nil)) =
          .cons (stripWs (reparse (.mk tg a x cs tl)))
            (stripWsList (reparseList .nil))
        rw [strip_reparse_tail_irrel tg a x cs (some i) tl]
      · rfl
  | .cons e (.cons f fs) => by
      show ElementList.cons (stripWs (reparse e))
          (stripWsList (reparseList (setLastTailIfBlank i (.cons f fs)))) =
        .cons (stripWs (reparse e)) (stripWsList (reparseList (.cons f fs)))
      rw [strip_reparse_setLastTail i (.cons f fs)]

theorem setLastTailIfBlank_cons (i : String) (e : Element) :
    ∀ es : ElementList, ∃ e' es',
      setLastTailIfBlank i (.cons e es) = .cons e' es'
  | .nil => by
      rw [setLastTailIfBlank]
      split
      · exact ⟨_, _, rfl⟩
      · exact ⟨_, _, rfl⟩
  | .cons f fs => ⟨e, setLastTailIfBlank i (.cons f fs), rfl⟩

mutual
theorem strip_reparse_indent (ind : String) :
    ∀ (e : Element) (level : Nat),
      stripWs (reparse (indentXml ind e level)) = stripWs (reparse e)
  | .mk t a x cs tl, level => by
      cases cs with
      | nil =>
          show stripWs (reparse
            (if level ≠ 0 ∧ textIsBlank tl then
              Element.mk t a x .nil (some ("\n" ++ strRepeat ind level))
            else .mk t a x .nil tl)) = stripWs (reparse (.mk t a x .nil tl))
          split
          · exact strip_reparse_tail_irrel t a x .nil _ tl
          · rfl
      | cons c cs' =>
          show stripWs (reparse (Element.mk t a
              (if textIsBlank x then
                some (("\n" ++ strRepeat ind level) ++ ind) else x)
              (setLastTailIfBlank ("\n" ++ strRepeat ind level)
                (indentXmlList ind (.cons c cs') (level + 1)))
              (if textIsBlank tl then
                some ("\n" ++ strRepeat ind level) else tl))) =
            stripWs (reparse (.mk t a x (.cons c cs') tl))
          rw [strip_reparse_tail_irrel t a _ _ _ tl]
          have hmain : stripWsList (reparseList
              (setLastTailIfBlank ("\n" ++ strRepeat ind level)
                (indentXmlList ind (.cons c cs') (level + 1)))) =
              stripWsList (reparseList (.cons c cs')) := by
            rw [strip_reparse_setLastTail,
              strip_reparse_indentList ind (.cons c cs') (level + 1)]
          obtain ⟨e', es', hk⟩ := setLastTailIfBlank_cons
            ("\n" ++ strRepeat ind level)
            (indentXml ind c (level + 1))
            (indentXmlList ind cs' (level + 1))
          rw [show indentXmlList ind (.cons c cs') (level + 1) =
            .cons (indentXml ind c (level + 1))
              (indentXmlList ind cs' (level + 1)) from rfl] at hmain ⊢
          rw [hk] at hmain ⊢
          rw [strip_reparse_eq, strip_reparse_eq, hmain]
theorem strip_reparse_indentList (ind : String) :
    ∀ (cs : ElementList) (level : Nat),
      stripWsList (reparseList (indentXmlList ind cs level)) =
        stripWsList (reparseList cs)
  | .nil, _ => rfl
  | .cons e es, level => by
      show ElementList.cons (stripWs (reparse (indentXml ind e level)))
          (stripWsList (reparseList (indentXmlList ind es level))) =
        .cons (stripWs (reparse e)) (stripWsList (reparseList es))
      rw [strip_reparse_indent ind e level,
        strip_reparse_indentList ind es level]
end

/-! ## Loaders are insensitive to the stripped whitespace -/

theorem mem_children_of_childrenWithTag {e : Element} {t : String}
    {c : Element} (h : c ∈ childrenWithTag e t) : c ∈ e.children.toList :=
  (List.mem_filter.mp h).1

theorem bindE_congr {α β : Type} (x : Except PyError α)
    (f g : α → Except PyError β) (h : ∀ a, f a = g a) :
    x >>= f = x >>= g := by
  cases x with
  | error e => rfl
  | ok a => exact h a

theorem notes_text_map_stripWs {e : Element} (h : notesFlat e) :
    ((findChild e (nsTag "Notes")).map stripWs).bind Element.text =
      (findChild e (nsTag "Notes")).bind Element.text := by
  cases hf : findChild e (nsTag "Notes") with
  | none => rfl
  | some nt =>
      obtain ⟨hmem, htag⟩ := findChild_mem hf
      have hflat := notesFlat_child h hmem
      obtain ⟨tg, a, x, cs, tl⟩ := nt
      rw [notesFlat] at hflat
      have hnil : cs = ElementList.nil := hflat.1 htag
      subst hnil
      rfl

theorem loadLabels_stripWs :
    ∀ (labels : List Element) (acc : List (Int × String)),
      loadLabels (labels.map stripWs) acc = loadLabels labels acc
  | [], _ => rfl
  | l :: rest, acc => by
      rw [List.map_cons, loadLabels, loadLabels, stripWs_attrib]
      cases lookupA l.attrib "value" with
      | none => rfl
      | some vs =>
          refine bindE_congr (pyIntE vs) _ _ (fun v => ?_)
          cases lookupA l.attrib "name" with
          | none => rfl
          | some n => exact loadLabels_stripWs rest (insertA acc v n)

theorem loadNodeRefs_stripWs (nodes : List (List (String × String))) :
    ∀ refs : List Element,
      loadNodeRefs nodes (refs.map stripWs) = loadNodeRefs nodes refs
  | [] => rfl
  | r :: rest => by
      rw [List.map_cons, loadNodeRefs, loadNodeRefs, stripWs_attrib]
      cases lookupA r.attrib "id" with
      | none => rfl
      | some i =>
          refine bindE_congr (getNodeNameById nodes i) _ _ (fun r => ?_)
          rw [loadNodeRefs_stripWs nodes rest]

theorem loadSignalElement_stripWs {e : Element} (hflat : notesFlat e)
    (nodes : List (List (String × String))) :
    loadSignalElement (stripWs e) nodes = loadSignalElement e nodes := by
  simp only [loadSignalElement, stripWs_attrib, findChild_stripWs]
  rw [notes_text_map_stripWs hflat]
  refine bindE_congr _ _ _ (fun st => ?_)
  cases findChild e (nsTag "Value") <;>
    cases findChild e (nsTag "LabelSet") <;>
      cases findChild e (nsTag "Consumer") <;>
        simp only [Option.map_some', Option.map_none', stripWs_attrib,
          childrenWithTag_stripWs, loadLabels_stripWs, loadNodeRefs_stripWs]

theorem loadMuxGroupSignals_stripWs (nodes : List (List (String × String)))
    (mux_name : Option String) (count : String) :
    ∀ sigEls : List Element, (∀ se ∈ sigEls, notesFlat se) →
      loadMuxGroupSignals nodes mux_name count (sigEls.map stripWs) =
        loadMuxGroupSignals nodes mux_name count sigEls
  | [], _ => rfl
  | se :: rest, h => by
      rw [List.map_cons, loadMuxGroupSignals, loadMuxGroupSignals]
      rw [loadSignalElement_stripWs (h se (List.mem_cons_self _ _)) nodes]
      rw [loadMuxGroupSignals_stripWs nodes mux_name count rest
        (fun x hx => h x (List.mem_cons_of_mem _ hx))]

theorem loadMuxGroups_stripWs (nodes : List (List (String × String)))
    (mux_name : Option String) :
    ∀ groups : List Element, (∀ g ∈ groups, notesFlat g) →
      loadMuxGroups nodes mux_name (groups.map stripWs) =
        loadMuxGroups nodes mux_name groups
  | [], _ => rfl
  | g :: rest, h => by
      rw [List.map_cons, loadMuxGroups, loadMuxGroups, stripWs_attrib]
      cases lookupA g.attrib "count" with
      | none => rfl
      | some count =>
          show (loadMuxGroupSignals nodes mux_name count
              (childrenWithTag (stripWs g) (nsTag "Signal")) >>= fun ss =>
            loadMuxGroups nodes mux_name (rest.map stripWs) >>= fun r2 =>
            Except.ok (ss ++ r2)) =
            (loadMuxGroupSignals nodes mux_name count
              (childrenWithTag g (nsTag "Signal")) >>= fun ss =>
            loadMuxGroups nodes mux_name rest >>= fun r2 =>
            Except.ok (ss ++ r2))
          rw [childrenWithTag_stripWs,
            loadMuxGroupSignals_stripWs nodes mux_name count
              (childrenWithTag g (nsTag "Signal"))
              (fun x hx => notesFlat_child (h g (List.mem_cons_self _ _))
                (mem_children_of_childrenWithTag hx)),
            loadMuxGroups_stripWs nodes mux_name rest
              (fun x hx => h x (List.mem_cons_of_mem _ hx))]

theorem loadMultiplexElement_stripWs {e : Element} (hflat : notesFlat e)
    (nodes : List (List (String × String))) :
    loadMultiplexElement (stripWs e) nodes = loadMultiplexElement e nodes := by
  rw [loadMultiplexElement, loadMultiplexElement,
    loadSignalElement_stripWs hflat nodes, childrenWithTag_stripWs]
  refine bindE_congr _ _ _ (fun s => ?_)
  show (loadMuxGroups nodes ({ s with is_multiplexer := true } : Signal).name
      ((childrenWithTag e (nsTag "MuxGroup")).map stripWs) >>= fun rest =>
    Except.ok (({ s with is_multiplexer := true } : Signal) :: rest)) =
    (loadMuxGroups nodes ({ s with is_multiplexer := true } : Signal).name
      (childrenWithTag e (nsTag "MuxGroup")) >>= fun rest =>
    Except.ok (({ s with is_multiplexer := true } : Signal) :: rest))
  rw [loadMuxGroups_stripWs nodes _ _
    (fun x hx => notesFlat_child hflat
      (mem_children_of_childrenWithTag hx))]

theorem loadMultiplexList_stripWs (nodes : List (List (String × String))) :
    ∀ muxes : List Element, (∀ m ∈ muxes, notesFlat m) →
      loadMultiplexList nodes (muxes.map stripWs) =
        loadMultiplexList nodes muxes
  | [], _ => rfl
  | m :: rest, h => by
      rw [List.map_cons, loadMultiplexList, loadMultiplexList,
        loadMultiplexElement_stripWs (h m (List.mem_cons_self _ _)) nodes,
        loadMultiplexList_stripWs nodes rest
          (fun x hx => h x (List.mem_cons_of_mem _ hx))]

theorem loadSignalList_stripWs (nodes : List (List (String × String))) :
    ∀ sigEls : List Element, (∀ s ∈ sigEls, notesFlat s) →
      loadSignalList nodes (sigEls.map stripWs) = loadSignalList nodes sigEls
  | [], _ => rfl
  | se :: rest, h => by
      rw [List.map_cons, loadSignalList, loadSignalList,
        loadSignalElement_stripWs (h se (List.mem_cons_self _ _)) nodes,
        loadSignalList_stripWs nodes rest
          (fun x hx => h x (List.mem_cons_of_mem _ hx))]

theorem loadMessageElement_stripWs {e : Element} (hflat : notesFlat e)
    (bus_name : Option String) (nodes : List (List (String × String)))
    (strict : Bool) (sortSig : Option (List Signal → List Signal)) :
    loadMessageElement (stripWs e) bus_name nodes strict sortSig =
      loadMessageElement e bus_name nodes strict sortSig := by
  simp only [loadMessageElement, stripWs_attrib, findChild_stripWs,
    childrenWithTag_stripWs]
  rw [notes_text_map_stripWs hflat,
    loadMultiplexList_stripWs nodes (childrenWithTag e (nsTag "Multiplex"))
      (fun x hx => notesFlat_child hflat (mem_children_of_childrenWithTag hx)),
    loadSignalList_stripWs nodes (childrenWithTag e (nsTag "Signal"))
      (fun x hx => notesFlat_child hflat (mem_children_of_childrenWithTag hx))]
  refine bindE_congr _ _ _ (fun st => ?_)
  cases findChild e (nsTag "Producer") with
  | none => rfl
  | some p =>
      simp only [Option.map_some', childrenWithTag_stripWs,
        loadNodeRefs_stripWs]

theorem loadMessagesOfBus_stripWs (bus_name : String)
    (nodes : List (List (String × String))) (strict : Bool)
    (sortSig : Option (List Signal → List Signal)) :
    ∀ msgs : List Element, (∀ m ∈ msgs, notesFlat m) →
      loadMessagesOfBus bus_name nodes strict sortSig (msgs.map stripWs) =
        loadMessagesOfBus bus_name nodes strict sortSig msgs
  | [], _ => rfl
  | m :: rest, h => by
      rw [List.map_cons, loadMessagesOfBus, loadMessagesOfBus,
        loadMessageElement_stripWs (h m (List.mem_cons_self _ _)),
        loadMessagesOfBus_stripWs bus_name nodes strict sortSig rest
          (fun x hx => h x (List.mem_cons_of_mem _ hx))]

theorem loadBusList_stripWs (nodes : List (List (String × String)))
    (strict : Bool) (sortSig : Option (List Signal → List Signal)) :
    ∀ buses : List Element, (∀ b ∈ buses, notesFlat b) →
      loadBusList nodes strict sortSig (buses.map stripWs) =
        loadBusList nodes strict sortSig buses
  | [], _ => rfl
  | b :: rest, h => by
      rw [List.map_cons, loadBusList, loadBusList, stripWs_attrib]
      cases lookupA b.attrib "name" with
      | none => rfl
      | some bus_name =>
          show (do
              let baudrate ←
                match lookupA b.attrib "baudrate" with
                | some bb => pyIntE bb
                | none => pure 500000
              let msgs ← loadMessagesOfBus bus_name nodes strict sortSig
                (childrenWithTag (stripWs b) (nsTag "Message"))
              let (bs, ms) ← loadBusList nodes strict sortSig
                (rest.map stripWs)
              Except.ok ((⟨bus_name, baudrate⟩ : Bus) :: bs, msgs ++ ms)) =
            (do
              let baudrate ←
                match lookupA b.attrib "baudrate" with
                | some bb => pyIntE bb
                | none => pure 500000
              let msgs ← loadMessagesOfBus bus_name nodes strict sortSig
                (childrenWithTag b (nsTag "Message"))
              let (bs, ms) ← loadBusList nodes strict sortSig rest
              Except.ok ((⟨bus_name, baudrate⟩ : Bus) :: bs, msgs ++ ms))
          rw [childrenWithTag_stripWs,
            loadMessagesOfBus_stripWs bus_name nodes strict sortSig
              (childrenWithTag b (nsTag "Message"))
              (fun x hx => notesFlat_child (h b (List.mem_cons_self _ _))
                (mem_children_of_childrenWithTag hx)),
            loadBusList_stripWs nodes strict sortSig rest
              (fun x hx => h x (List.mem_cons_of_mem _ hx))]

theorem map_attrib_stripWs (l : List Element) :
    (l.map stripWs).map Element.attrib = l.map Element.attrib := by
  rw [List.map_map]
  exact List.map_congr_left (fun c _ => by
    rw [Function.comp_apply, stripWs_attrib])

theorem loadString_stripWs {root : Element} (hflat : notesFlat root)
    (strict : Bool) (sortSig : Option (List Signal → List Signal)) :
    loadString (stripWs root) strict sortSig =
      loadString root strict sortSig := by
  simp only [loadString, stripWs_tag, childrenWithTag_stripWs,
    map_attrib_stripWs, findChild_stripWs]
  by_cases htag : root.tag ≠ ROOT_TAG
  · rw [if_pos htag, if_pos htag]
  · rw [if_neg htag, if_neg htag]
    rw [loadBusList_stripWs _ strict sortSig
      (childrenWithTag root (nsTag "Bus"))
      (fun x hx => notesFlat_child hflat
        (mem_children_of_childrenWithTag hx))]
    cases findChild root (nsTag "Document") with
    | none => rfl
    | some d => simp only [Option.map_some', stripWs_attrib]

/-! ## Clean-tree algebra: serialize, parse back, erase whitespace -/

theorem nsTag_inj {a b : String} (h : nsTag a = nsTag b) : a = b := by
  have h2 := congrArg String.data h
  simp only [nsTag, String.data_append, List.append_assoc] at h2
  exact String.ext (List.append_cancel_left
    (List.append_cancel_left (List.append_cancel_left h2)))

mutual
theorem notesFlat_reparse : ∀ e : Element,
    plainNotesFlat e → notesFlat (reparse e)
  | .mk t a x cs tl, h =>
      ⟨fun ht => by rw [nsTag_inj ht] at h; rw [h.1 rfl]; rfl,
       notesFlatList_reparse cs h.2⟩
theorem notesFlatList_reparse : ∀ cs : ElementList,
    plainNotesFlatList cs → notesFlatList (reparseList cs)
  | .nil, _ => True.intro
  | .cons e es, h =>
      ⟨notesFlat_reparse e h.1, notesFlatList_reparse es h.2⟩
end

theorem plainNotesFlat_setLastTail (i : String) :
    ∀ cs : ElementList, plainNotesFlatList cs →
      plainNotesFlatList (setLastTailIfBlank i cs)
  | .nil, _ => True.intro
  | .cons e .nil, h => by
      rw [setLastTailIfBlank]
      refine ⟨?_, True.intro⟩
      obtain ⟨t, a, x, cs, tl⟩ := e
      by_cases hb : textIsBlank (Element.tail (.mk t a x cs tl)) = true
      · rw [if_pos hb]; exact h.1
      · rw [if_neg hb]; exact h.1
  | .cons e (.cons f es), h =>
      ⟨h.1, plainNotesFlat_setLastTail i (.cons f es) h.2⟩

mutual
theorem plainNotesFlat_indent (ind : String) :
    ∀ (e : Element) (level : Nat),
      plainNotesFlat e → plainNotesFlat (indentXml ind e level)
  | .mk t a x .nil tl, level, h => by
      simp only [indentXml]
      split
      · exact ⟨fun _ => rfl, True.intro⟩
      · exact h
  | .mk t a x (.cons c cs) tl, level, h => by
      simp only [indentXml]
      refine ⟨fun ht => (nomatch h.1 ht), ?_⟩
      exact plainNotesFlat_setLastTail _ _
        (plainNotesFlat_indentList ind (.cons c cs) (level + 1) h.2)
theorem plainNotesFlat_indentList (ind : String) :
    ∀ (cs : ElementList) (level : Nat),
      plainNotesFlatList cs →
        plainNotesFlatList (indentXmlList ind cs level)
  | .nil, _, _ => True.intro
  | .cons e es, level, h =>
      ⟨plainNotesFlat_indent ind e level h.1,
       plainNotesFlat_indentList ind es level h.2⟩
end

theorem stripWsList_reparseList_ofList : ∀ kids : List Element,
    stripWsList (reparseList (ElementList.ofList kids)) =
      ElementList.ofList (kids.map cleanEl)
  | [] => rfl
  | k :: ks =>
      congrArg (ElementList.cons (cleanEl k))
        (stripWsList_reparseList_ofList ks)

theorem clean_mkEl (t : String) (a : List (String × String))
    (kids : List Element) :
    cleanEl (mkEl t a kids) =
      .mk (nsTag t) (cleanAttrs a) none
        (ElementList.ofList (kids.map cleanEl)) none := by
  rw [cleanEl, mkEl, strip_reparse_eq, stripWsList_reparseList_ofList]
  cases kids with
  | nil => rfl
  | cons k ks => rfl

theorem clean_mkNotes {c : String} (h : c ≠ "") :
    cleanEl (mkNotes c) =
      .mk (nsTag "Notes") [] (some c) .nil none := by
  obtain ⟨cl⟩ := c
  cases cl with
  | nil => exact absurd rfl h
  | cons ch rest => rfl

/-! ## The dumpers compute the explicit trees -/

theorem append_ite {α : Type} (c : Prop) [Decidable c] (l x : List α) :
    (if c then l ++ x else l) = l ++ (if c then x else []) := by
  by_cases h : c
  · rw [if_pos h, if_pos h]
  · rw [if_neg h, if_neg h, List.append_nil]

theorem append_ite_flip {α : Type} (c : Prop) [Decidable c] (l x : List α) :
    (if c then l else l ++ x) = l ++ (if c then [] else x) := by
  by_cases h : c
  · rw [if_pos h, if_pos h, List.append_nil]
  · rw [if_neg h, if_neg h]

theorem okBind {α β : Type} (a : α) (f : α → Except PyError β) :
    (Except.ok a >>= f) = f a := rfl

theorem dumpNodeRefList_ok (nr : List (String × Int)) :
    ∀ rs : List (Option String),
      (∀ r ∈ rs, (r.bind (fun rn => lookupA nr rn)).isSome = true) →
      dumpNodeRefList rs nr = .ok (dumpedRefElems nr rs)
  | [], _ => rfl
  | r :: rest, h => by
      cases r with
      | none => exact absurd (h none (List.mem_cons_self _ _)) (by simp)
      | some rn =>
          have hr := h (some rn) (List.mem_cons_self _ _)
          obtain ⟨i, hi⟩ :=
            Option.isSome_iff_exists.mp (by simpa using hr)
          rw [dumpNodeRefList]
          simp only [hi]
          rw [dumpNodeRefList_ok nr rest
            (fun x hx => h x (List.mem_cons_of_mem _ hx))]
          simp [dumpedRefElems, refIdIn, hi, okBind]

theorem dumpSignalParts_ok (s : Signal) (nr : List (String × Int))
    {nm : String} {st : Int}
    (hname : s.name = some nm) (hstart : s.start = some st)
    (hrecv : ∀ r ∈ s.receivers,
      (r.bind (fun rn => lookupA nr rn)).isSome = true) :
    dumpSignalParts s nr =
      .ok (dumpedSignalAttrs s, dumpedSignalKids s nr) := by
  simp only [dumpSignalParts, hname, hstart, pure_bind]
  cases hrs : s.receivers with
  | nil =>
      simp [dumpedSignalAttrs, dumpedSignalKids, hname, hstart, hrs,
        append_ite, append_ite_flip, okBind]
      by_cases hl : s.length = 1 <;> simp [hl]
  | cons r rest =>
      rw [hrs] at hrecv
      simp [dumpedSignalAttrs, dumpedSignalKids, hname, hstart, hrs,
        append_ite, append_ite_flip, okBind,
        dumpNodeRefList_ok nr (r :: rest) hrecv]
      by_cases hl : s.length = 1 <;> simp [hl]

theorem muxGroupAssignments_ok (name : Option String) :
    ∀ (signals : List Signal) (acc : List (Int × List Signal)),
      (∀ t ∈ signals, t.multiplexer_signal = name →
        ∃ v r, t.multiplexer_ids = some (v :: r)) →
      muxGroupAssignments name signals acc =
        .ok ((muxMembers signals name).foldl
          (fun a t => insertGrouped a (muxKeyOf t) t) acc)
  | [], _, _ => rfl
  | s :: rest, acc, h => by
      rw [muxGroupAssignments]
      have hmm : muxMembers (s :: rest) name =
          if (s.multiplexer_signal == name) = true
          then s :: muxMembers rest name else muxMembers rest name := by
        simp [muxMembers, List.filter_cons]
      by_cases hm : s.multiplexer_signal = name
      · rw [if_neg (fun hn => hn hm)]
        obtain ⟨v, r, hid⟩ := h s (List.mem_cons_self _ _) hm
        simp only [hid]
        rw [muxGroupAssignments_ok name rest (insertGrouped acc v s)
          (fun t ht => h t (List.mem_cons_of_mem _ ht)), hmm]
        simp [hm, muxKeyOf, hid]
      · rw [if_pos hm,
          muxGroupAssignments_ok name rest acc
            (fun t ht => h t (List.mem_cons_of_mem _ ht)), hmm]
        simp [hm]

theorem mem_insertGrouped {κ β : Type} [DecidableEq κ] :
    ∀ (acc : List (κ × List β)) (k : κ) (v : β) (g : κ × List β),
      g ∈ insertGrouped acc k v → ∀ b ∈ g.2,
        (∃ g2 ∈ acc, b ∈ g2.2) ∨ b = v
  | [], k, v, g, hg, b, hb => by
      rw [insertGrouped] at hg
      rcases List.mem_singleton.mp hg with rfl
      rcases List.mem_singleton.mp hb with rfl
      exact Or.inr rfl
  | (k2, ws) :: rest, k, v, g, hg, b, hb => by
      rw [insertGrouped] at hg
      by_cases hk : k2 = k
      · rw [if_pos hk] at hg
        rcases List.mem_cons.mp hg with rfl | hg2
        · rcases List.mem_append.mp hb with hb1 | hb2
          · exact Or.inl ⟨(k2, ws), List.mem_cons_self _ _, hb1⟩
          · exact Or.inr (List.mem_singleton.mp hb2)
        · exact Or.inl ⟨g, List.mem_cons_of_mem _ hg2, hb⟩
      · rw [if_neg hk] at hg
        rcases List.mem_cons.mp hg with rfl | hg2
        · exact Or.inl ⟨(k2, ws), List.mem_cons_self _ _, hb⟩
        · rcases mem_insertGrouped rest k v g hg2 b hb with ⟨g2, hg3, hb3⟩ | hbv
          · exact Or.inl ⟨g2, List.mem_cons_of_mem _ hg3, hb3⟩
          · exact Or.inr hbv

theorem mem_groupFold :
    ∀ (l : List Signal) (acc : List (Int × List Signal))
      (g : Int × List Signal),
      g ∈ l.foldl (fun a s => insertGrouped a (muxKeyOf s) s) acc →
      ∀ t ∈ g.2, (∃ g2 ∈ acc, t ∈ g2.2) ∨ t ∈ l
  | [], acc, g, hg, t, ht => Or.inl ⟨g, hg, ht⟩
  | s :: rest, acc, g, hg, t, ht => by
      rw [List.foldl_cons] at hg
      rcases mem_groupFold rest _ g hg t ht with ⟨g2, hg2, ht2⟩ | hin
      · rcases mem_insertGrouped acc (muxKeyOf s) s g2 hg2 t ht2 with
          ⟨g3, hg3, ht3⟩ | rfl
        · exact Or.inl ⟨g3, hg3, ht3⟩
        · exact Or.inr (List.mem_cons_self _ _)
      · exact Or.inr (List.mem_cons_of_mem _ hin)

theorem mem_groupByMuxKey {members : List Signal}
    {g : Int × List Signal} (hg : g ∈ groupByMuxKey members) :
    ∀ t ∈ g.2, t ∈ members := by
  intro t ht
  rcases mem_groupFold members [] g hg t ht with ⟨g2, hg2, _⟩ | hin
  · exact absurd hg2 (List.not_mem_nil g2)
  · exact hin

theorem mem_muxMembers {signals : List Signal} {selname : Option String}
    {t : Signal} (ht : t ∈ muxMembers signals selname) : t ∈ signals :=
  List.mem_of_mem_filter ht

theorem dumpSignalElems_ok (nr : List (String × Int)) :
    ∀ sigs : List Signal, (∀ t ∈ sigs, sigDumpable nr t) →
      dumpSignalElems sigs nr =
        .ok (sigs.map (fun t => dumpedSignalEl t nr))
  | [], _ => rfl
  | s :: rest, h => by
      have hs := h s (List.mem_cons_self _ _)
      obtain ⟨nm, hnm⟩ := Option.isSome_iff_exists.mp hs.1
      obtain ⟨st, hst⟩ := Option.isSome_iff_exists.mp hs.2.1
      rw [dumpSignalElems, dumpSignalParts_ok s nr hnm hst hs.2.2,
        dumpSignalElems_ok nr rest
          (fun t ht => h t (List.mem_cons_of_mem _ ht))]
      simp [dumpedSignalEl, okBind]

theorem dumpMuxGroupList_ok (nr : List (String × Int)) :
    ∀ groups : List (Int × List Signal),
      (∀ g ∈ groups, ∀ t ∈ g.2, sigDumpable nr t) →
      dumpMuxGroupList groups nr =
        .ok (groups.map (fun g =>
          mkEl "MuxGroup" [("count", pyStrOfInt g.1)]
            (g.2.map (fun t => dumpedSignalEl t nr))))
  | [], _ => rfl
  | g :: rest, h => by
      rw [dumpMuxGroupList,
        dumpSignalElems_ok nr g.2 (h g (List.mem_cons_self _ _)),
        dumpMuxGroupList_ok nr rest
          (fun g2 hg2 => h g2 (List.mem_cons_of_mem _ hg2))]
      simp [okBind]

theorem dumpMuxGroups_ok (selname : Option String)
    (signals : List Signal) (nr : List (String × Int))
    (hmemD : ∀ t ∈ signals, sigDumpable nr t)
    (hids : ∀ t ∈ signals, t.multiplexer_signal = selname →
      ∃ v r, t.multiplexer_ids = some (v :: r)) :
    dumpMuxGroups selname signals nr =
      .ok (dumpedMuxGroupEls signals nr selname) := by
  rw [dumpMuxGroups, muxGroupAssignments_ok selname signals [] hids]
  rw [okBind]
  rw [dumpMuxGroupList_ok nr
    ((muxMembers signals selname).foldl
      (fun a t => insertGrouped a (muxKeyOf t) t) [])
    (fun g hg t ht => hmemD t (mem_muxMembers (mem_groupByMuxKey hg t ht)))]
  rfl

theorem dumpMessageSignals_ok (signals : List Signal)
    (nr : List (String × Int))
    (hmemD : ∀ t ∈ signals, sigDumpable nr t)
    (hids : ∀ t ∈ signals, t.multiplexer_signal ≠ none →
      ∃ v r, t.multiplexer_ids = some (v :: r)) :
    ∀ sigList : List Signal,
      (∀ t ∈ sigList, sigDumpable nr t) →
      (∀ t ∈ sigList, t.is_multiplexer = true → t.name ≠ none) →
      dumpMessageSignals signals nr sigList =
        .ok (dumpedMessageSignalEls signals nr sigList)
  | [], _, _ => rfl
  | s :: rest, h, hsel => by
      have hs := h s (List.mem_cons_self _ _)
      obtain ⟨nm, hnm⟩ := Option.isSome_iff_exists.mp hs.1
      obtain ⟨st, hst⟩ := Option.isSome_iff_exists.mp hs.2.1
      rw [dumpMessageSignals, dumpedMessageSignalEls]
      by_cases hmx : s.is_multiplexer = true
      · have hsname : s.name ≠ none :=
          hsel s (List.mem_cons_self _ _) hmx
        rw [if_pos hmx, if_pos hmx,
          dumpSignalParts_ok s nr hnm hst hs.2.2, okBind,
          dumpMuxGroups_ok s.name signals nr hmemD
            (fun t ht hteq => hids t ht (hteq ▸ hsname)),
          okBind,
          dumpMessageSignals_ok signals nr hmemD hids rest
            (fun t ht => h t (List.mem_cons_of_mem _ ht))
            (fun t ht => hsel t (List.mem_cons_of_mem _ ht)),
          okBind]
      · rw [if_neg hmx, if_neg hmx]
        cases hmi : s.multiplexer_ids with
        | none =>
            rw [dumpSignalParts_ok s nr hnm hst hs.2.2, okBind,
              dumpMessageSignals_ok signals nr hmemD hids rest
                (fun t ht => h t (List.mem_cons_of_mem _ ht))
                (fun t ht => hsel t (List.mem_cons_of_mem _ ht)),
              okBind]
            rfl
        | some ids =>
            exact dumpMessageSignals_ok signals nr hmemD hids rest
              (fun t ht => h t (List.mem_cons_of_mem _ ht))
              (fun t ht => hsel t (List.mem_cons_of_mem _ ht))

theorem dumpMessage_ok (m : Message) (nr : List (String × Int))
    {fid : Int} {nm : String}
    (hfid : m.frame_id = some fid) (hnm : m.name = some nm)
    (hsend : ∀ r ∈ m.senders,
      (r.bind (fun rn => lookupA nr rn)).isSome = true)
    (hmemD : ∀ t ∈ m.signals, sigDumpable nr t)
    (hids : ∀ t ∈ m.signals, t.multiplexer_signal ≠ none →
      ∃ v r, t.multiplexer_ids = some (v :: r))
    (hsel : ∀ t ∈ m.signals, t.is_multiplexer = true → t.name ≠ none) :
    dumpMessage m nr none = .ok (dumpedMessageEl m nr) := by
  simp only [dumpMessage, hfid, hnm, pure_bind]
  cases hms : m.senders with
  | nil =>
      simp [hms, okBind, dumpedMessageEl, dumpedMessageAttrs,
        dumpedMessageKids, hfid, hnm,
        dumpMessageSignals_ok m.signals nr hmemD hids m.signals hmemD hsel]
  | cons r rest =>
      rw [hms] at hsend
      simp [hms, okBind, dumpedMessageEl, dumpedMessageAttrs,
        dumpedMessageKids, hfid, hnm,
        dumpNodeRefList_ok nr (r :: rest) hsend,
        dumpMessageSignals_ok m.signals nr hmemD hids m.signals hmemD hsel]

theorem dumpMessageList_ok (nr : List (String × Int)) :
    ∀ messages : List Message,
      (∀ m ∈ messages, (m.frame_id.isSome = true ∧ m.name.isSome = true) ∧
        (∀ r ∈ m.senders,
          (r.bind (fun rn => lookupA nr rn)).isSome = true) ∧
        (∀ t ∈ m.signals, sigDumpable nr t) ∧
        (∀ t ∈ m.signals, t.multiplexer_signal ≠ none →
          ∃ v r, t.multiplexer_ids = some (v :: r)) ∧
        (∀ t ∈ m.signals, t.is_multiplexer = true → t.name ≠ none)) →
      dumpMessageList messages nr none =
        .ok (messages.map (fun m => dumpedMessageEl m nr))
  | [], _ => rfl
  | m :: rest, h => by
      have hm := h m (List.mem_cons_self _ _)
      obtain ⟨fid, hfid⟩ := Option.isSome_iff_exists.mp hm.1.1
      obtain ⟨nm, hnm⟩ := Option.isSome_iff_exists.mp hm.1.2
      rw [dumpMessageList,
        dumpMessage_ok m nr hfid hnm hm.2.1 hm.2.2.1 hm.2.2.2.1 hm.2.2.2.2,
        okBind,
        dumpMessageList_ok nr rest
          (fun m2 hm2 => h m2 (List.mem_cons_of_mem _ hm2)),
        okBind]
      rfl

theorem dumpRoot_ok (db : InternalDatabase)
    (h : ∀ m ∈ db.messages,
      (m.frame_id.isSome = true ∧ m.name.isSome = true) ∧
      (∀ r ∈ m.senders,
        (r.bind (fun rn => lookupA (buildNodeRefs db.nodes) rn)).isSome =
          true) ∧
      (∀ t ∈ m.signals, sigDumpable (buildNodeRefs db.nodes) t) ∧
      (∀ t ∈ m.signals, t.multiplexer_signal ≠ none →
        ∃ v r, t.multiplexer_ids = some (v :: r)) ∧
      (∀ t ∈ m.signals, t.is_multiplexer = true → t.name ≠ none)) :
    dumpRoot db none = .ok (dumpedRootEl db) := by
  simp only [dumpRoot, dumpMessageList_ok (buildNodeRefs db.nodes)
    db.messages h, okBind]
  rfl

/-! ## Reloading the cleaned dumped tree -/

theorem cleanEl_tag : ∀ e : Element, (cleanEl e).tag = nsTag e.tag
  | .mk t a x cs tl => rfl

theorem childrenWithTag_mkOf (t : String) (a : List (String × String))
    (x : Option String) (kids : List Element) (tl : Option String)
    (u : String) :
    childrenWithTag (.mk t a x (ElementList.ofList kids) tl) u =
      kids.filter (fun c => c.tag == u) := by
  rw [childrenWithTag]
  show (ElementList.ofList kids).toList.filter (fun c => c.tag == u) = _
  rw [toList_ofList]

theorem cleanAttrs_self : ∀ a : List (String × String),
    (∀ kv ∈ a, reparseAttrKey kv.1 = some kv.1) → cleanAttrs a = a
  | [], _ => rfl
  | (k, v) :: rest, h => by
      simp only [cleanAttrs, List.filterMap_cons,
        h (k, v) (List.mem_cons_self _ _), Option.map_some']
      exact congrArg (List.cons (k, v))
        (cleanAttrs_self rest (fun x hx => h x (List.mem_cons_of_mem _ hx)))

theorem loadSigAttrs_append :
    ∀ (a b : List (String × String)) (st : SigAttrs),
      loadSigAttrs (a ++ b) st =
        loadSigAttrs a st >>= fun st2 => loadSigAttrs b st2
  | [], b, st => by
      rw [List.nil_append, loadSigAttrs, okBind]
  | kv :: rest, b, st => by
      rw [List.cons_append, loadSigAttrs, loadSigAttrs]
      repeat' split
      all_goals simp only [pure_bind, bind_assoc]
      all_goals
        first
          | exact loadSigAttrs_append rest b _
          | exact bindE_congr _ _ _ (fun v => loadSigAttrs_append rest b _)

theorem loadValAttrs_append :
    ∀ (a b : List (String × String)) (st : ValAttrs),
      loadValAttrs (a ++ b) st =
        loadValAttrs a st >>= fun st2 => loadValAttrs b st2
  | [], b, st => by
      rw [List.nil_append, loadValAttrs, okBind]
  | kv :: rest, b, st => by
      rw [List.cons_append, loadValAttrs, loadValAttrs]
      repeat' split
      all_goals simp only [pure_bind, bind_assoc]
      all_goals
        first
          | exact loadValAttrs_append rest b _
          | exact bindE_congr _ _ _ (fun v => loadValAttrs_append rest b _)

theorem loadMsgAttrs_append :
    ∀ (a b : List (String × String)) (st : MsgAttrs),
      loadMsgAttrs (a ++ b) st =
        loadMsgAttrs a st >>= fun st2 => loadMsgAttrs b st2
  | [], b, st => by
      rw [List.nil_append, loadMsgAttrs, okBind]
  | kv :: rest, b, st => by
      rw [List.cons_append, loadMsgAttrs, loadMsgAttrs]
      repeat' split
      all_goals simp only [pure_bind, bind_assoc]
      all_goals
        first
          | exact loadMsgAttrs_append rest b _
          | exact bindE_congr _ _ _ (fun v => loadMsgAttrs_append rest b _)

theorem loadSigAttrs_base (nm : String) (off : Int) (st0 : SigAttrs) :
    loadSigAttrs [("name", nm), ("offset", pyStrOfInt off)] st0 =
      .ok { st0 with name := some nm, offset := some off } := by
  simp [loadSigAttrs, pyIntE_pyStrOfInt, okBind]

theorem loadSigAttrs_lengthKey (v : Int) (st0 : SigAttrs) :
    loadSigAttrs [("length", pyStrOfInt v)] st0 =
      .ok { st0 with length := v } := by
  simp [loadSigAttrs, pyIntE_pyStrOfInt, okBind]

theorem loadSigAttrs_endianess (v : String) (st0 : SigAttrs) :
    loadSigAttrs [("endianess", v)] st0 =
      .ok { st0 with byte_order := v ++ "_endian" } := by
  simp [loadSigAttrs, okBind]

theorem loadSigAttrs_result (s : Signal) {nm : String} {st : Int}
    (hname : s.name = some nm) (hstart : s.start = some st)
    (hbo : s.byte_order = "little_endian" ∨ s.byte_order = "big_endian") :
    loadSigAttrs (dumpedSignalAttrs s) ⟨none, none, 1, "little_endian"⟩ =
      .ok ⟨some nm, some (startBitKcd st s.byte_order), s.length,
           s.byte_order⟩ := by
  rw [dumpedSignalAttrs, hname, hstart]
  rw [loadSigAttrs_append, loadSigAttrs_append]
  rw [show ((some nm).getD "") = nm from rfl,
    show ((some st).getD 0) = st from rfl]
  rw [loadSigAttrs_base, okBind]
  by_cases hl : s.length = 1
  · rw [if_neg (fun hn => hn hl), loadSigAttrs, okBind]
    rcases hbo with hbo | hbo
    · rw [if_neg (fun hn => hn hbo), loadSigAttrs, hbo, hl]
    · rw [if_pos (by rw [hbo]; decide), loadSigAttrs_endianess, hbo, hl]
      rfl
  · rw [if_pos hl, loadSigAttrs_lengthKey, okBind]
    rcases hbo with hbo | hbo
    · rw [if_neg (fun hn => hn hbo), loadSigAttrs, hbo]
    · rw [if_pos (by rw [hbo]; decide), loadSigAttrs_endianess, hbo]
      rfl

theorem loadValAttrs_minKey (v : Int) (st0 : ValAttrs) :
    loadValAttrs [("min", pyStrOfInt v)] st0 =
      .ok { st0 with minimum := some v } := by
  simp [loadValAttrs, pyNumE_pyStrOfInt, okBind]

theorem loadValAttrs_maxKey (v : Int) (st0 : ValAttrs) :
    loadValAttrs [("max", pyStrOfInt v)] st0 =
      .ok { st0 with maximum := some v } := by
  simp [loadValAttrs, pyNumE_pyStrOfInt, okBind]

theorem loadValAttrs_slopeKey (v : Int) (st0 : ValAttrs) :
    loadValAttrs [("slope", pyStrOfInt v)] st0 =
      .ok { st0 with slope := v } := by
  simp [loadValAttrs, pyNumE_pyStrOfInt, okBind]

theorem loadValAttrs_interceptKey (v : Int) (st0 : ValAttrs) :
    loadValAttrs [("intercept", pyStrOfInt v)] st0 =
      .ok { st0 with intercept := v } := by
  simp [loadValAttrs, pyNumE_pyStrOfInt, okBind]

theorem loadValAttrs_unitKey (v : String) (st0 : ValAttrs) :
    loadValAttrs [("unit", v)] st0 =
      .ok { st0 with unit := some v } := by
  simp [loadValAttrs, okBind]

theorem loadValAttrs_typeKey (v : String) (st0 : ValAttrs) :
    loadValAttrs [("type", v)] st0 =
      .ok { st0 with is_signed := v == "signed",
                     is_float := v == "single" || v == "double" } := by
  simp [loadValAttrs, okBind]

theorem loadValAttrs_minChunk (s : Signal) (st0 : ValAttrs)
    (h0 : st0.minimum = none) :
    loadValAttrs (match s.minimum with
      | some m => [("min", pyStrOfInt m)]
      | none => []) st0 = .ok { st0 with minimum := s.minimum } := by
  cases hm : s.minimum with
  | none => rw [loadValAttrs]; exact congrArg Except.ok (by rw [← h0])
  | some m => rw [loadValAttrs_minKey]

theorem loadValAttrs_maxChunk (s : Signal) (st0 : ValAttrs)
    (h0 : st0.maximum = none) :
    loadValAttrs (match s.maximum with
      | some m => [("max", pyStrOfInt m)]
      | none => []) st0 = .ok { st0 with maximum := s.maximum } := by
  cases hm : s.maximum with
  | none => rw [loadValAttrs]; exact congrArg Except.ok (by rw [← h0])
  | some m => rw [loadValAttrs_maxKey]

theorem loadValAttrs_slopeChunk (s : Signal) (st0 : ValAttrs)
    (h0 : st0.slope = 1) :
    loadValAttrs (if s.scale ≠ 1 then [("slope", pyStrOfInt s.scale)]
      else []) st0 = .ok { st0 with slope := s.scale } := by
  by_cases h : s.scale = 1
  · rw [if_neg (fun hn => hn h), loadValAttrs]
    exact congrArg Except.ok (by rw [h, ← h0])
  · rw [if_pos h, loadValAttrs_slopeKey]

theorem loadValAttrs_interceptChunk (s : Signal) (st0 : ValAttrs)
    (h0 : st0.intercept = 0) :
    loadValAttrs (if s.offset ≠ 0 then [("intercept", pyStrOfInt s.offset)]
      else []) st0 = .ok { st0 with intercept := s.offset } := by
  by_cases h : s.offset = 0
  · rw [if_neg (fun hn => hn h), loadValAttrs]
    exact congrArg Except.ok (by rw [h, ← h0])
  · rw [if_pos h, loadValAttrs_interceptKey]

theorem loadValAttrs_unitChunk (s : Signal) (st0 : ValAttrs)
    (h0 : st0.unit = none) :
    loadValAttrs (match s.unit with
      | some u => [("unit", u)]
      | none => []) st0 = .ok { st0 with unit := s.unit } := by
  cases hu : s.unit with
  | none => rw [loadValAttrs]; exact congrArg Except.ok (by rw [← h0])
  | some u => rw [loadValAttrs_unitKey]

theorem loadValAttrs_typeChunk (s : Signal) (st0 : ValAttrs)
    (hsf : ¬(s.is_signed = true ∧ s.is_float = true))
    (h0 : st0.is_signed = false) (h1 : st0.is_float = false) :
    loadValAttrs (if s.is_float then
        [("type", if s.length = 32 then "single" else "double")]
      else if s.is_signed then [("type", "signed")]
      else []) st0 =
      .ok { st0 with is_signed := s.is_signed, is_float := s.is_float } := by
  cases hf : s.is_float with
  | true =>
      have hsg : s.is_signed = false := by
        cases hsg2 : s.is_signed with
        | true => exact absurd ⟨hsg2, hf⟩ hsf
        | false => rfl
      rw [if_pos (show (true : Bool) = true from rfl),
        loadValAttrs_typeKey, hsg]
      by_cases hl32 : s.length = 32
      · rw [if_pos hl32]
        rfl
      · rw [if_neg hl32]
        rfl
  | false =>
      rw [if_neg (show ¬(false : Bool) = true from (fun h => nomatch h))]
      cases hsg : s.is_signed with
      | true =>
          rw [if_pos (show (true : Bool) = true from rfl),
            loadValAttrs_typeKey]
          rfl
      | false =>
          rw [if_neg (show ¬(false : Bool) = true from (fun h => nomatch h)),
            loadValAttrs]
          obtain ⟨mn, mx, sl, ic, un, sg, fl⟩ := st0
          have h0b : sg = false := h0
          have h1b : fl = false := h1
          subst h0b
          subst h1b
          rfl

theorem loadValAttrs_result (s : Signal)
    (hsf : ¬(s.is_signed = true ∧ s.is_float = true)) :
    loadValAttrs (valueAttrsOf s) ⟨none, none, 1, 0, none, false, false⟩ =
      .ok ⟨s.minimum, s.maximum, s.scale, s.offset, s.unit,
           s.is_signed, s.is_float⟩ := by
  rw [valueAttrsOf, loadValAttrs_append, loadValAttrs_append,
    loadValAttrs_append, loadValAttrs_append, loadValAttrs_append]
  rw [loadValAttrs_minChunk s _ rfl, okBind,
    loadValAttrs_maxChunk s _ rfl, okBind,
    loadValAttrs_slopeChunk s _ rfl, okBind,
    loadValAttrs_interceptChunk s _ rfl, okBind,
    loadValAttrs_unitChunk s _ rfl, okBind,
    loadValAttrs_typeChunk s _ hsf rfl rfl]

theorem loadMsgAttrs_base (f : Int) (hf : 0 ≤ f) (nm : String) (len : Int)
    (st0 : MsgAttrs) :
    loadMsgAttrs [("id", "0x" ++ pyFmt03X f), ("name", nm),
        ("length", pyStrOfInt len)] st0 =
      .ok { st0 with name := some nm, frame_id := some f,
                     lengthStr := pyStrOfInt len } := by
  simp [loadMsgAttrs, pyIntBase0E_hexdump f hf, okBind]

theorem loadMsgAttrs_intervalChunk (m : Message) (st0 : MsgAttrs)
    (h0 : st0.interval = none) :
    loadMsgAttrs (match m.cycle_time with
      | some t => [("interval", pyStrOfInt t)]
      | none => []) st0 = .ok { st0 with interval := m.cycle_time } := by
  cases hc : m.cycle_time with
  | none => rw [loadMsgAttrs]; exact congrArg Except.ok (by rw [← h0])
  | some t => simp [loadMsgAttrs, pyIntE_pyStrOfInt, okBind]

theorem loadMsgAttrs_formatChunk (m : Message) (st0 : MsgAttrs)
    (h0 : st0.is_extended_frame = false) :
    loadMsgAttrs (if m.is_extended_frame then [("format", "extended")]
      else []) st0 =
      .ok { st0 with is_extended_frame := m.is_extended_frame } := by
  cases hx : m.is_extended_frame with
  | true =>
      rw [if_pos (show (true : Bool) = true from rfl)]
      simp [loadMsgAttrs, okBind]
  | false =>
      rw [if_neg (show ¬(false : Bool) = true from (fun h => nomatch h)),
        loadMsgAttrs]
      exact congrArg Except.ok (by rw [← h0])

theorem loadMsgAttrs_result (m : Message) {fid : Int} {nm : String}
    (hfid : m.frame_id = some fid) (hf : 0 ≤ fid) :
    m.name = some nm →
    loadMsgAttrs (dumpedMessageAttrs m) ⟨none, none, false, "auto", none⟩ =
      .ok ⟨some nm, some fid, m.is_extended_frame,
           pyStrOfInt m.length, m.cycle_time⟩ := by
  intro hnm
  rw [dumpedMessageAttrs, hfid, hnm]
  rw [show ((some fid).getD 0) = fid from rfl,
    show ((some nm).getD "") = nm from rfl]
  rw [loadMsgAttrs_append, loadMsgAttrs_append,
    loadMsgAttrs_base fid hf, okBind,
    loadMsgAttrs_intervalChunk m _ rfl, okBind,
    loadMsgAttrs_formatChunk m _ rfl]

theorem startBitKcd_invol (x : Int) (bo : String) :
    startBitKcd (startBitKcd x bo) bo = x := by
  rw [startBitKcd, startBitKcd]
  by_cases hb : bo = "big_endian"
  · rw [if_pos hb, if_pos hb]
    omega
  · rw [if_neg hb, if_neg hb]

theorem insertA_fresh {κ β : Type} [DecidableEq κ] :
    ∀ (acc : List (κ × β)) (k : κ) (v : β), k ∉ keysA acc →
      insertA acc k v = acc ++ [(k, v)]
  | [], _, _, _ => rfl
  | (k2, w) :: rest, k, v, h => by
      rw [insertA,
        if_neg (fun (he : k2 = k) =>
          h (he ▸ List.mem_cons_self k2 (keysA rest))),
        List.cons_append]
      exact congrArg (List.cons (k2, w))
        (insertA_fresh rest k v
          (fun hm => h (List.mem_cons_of_mem _ hm)))

theorem loadLabels_dumped :
    ∀ (l : List (Int × String)) (acc : List (Int × String)),
      (∀ p ∈ l, p.1 ∉ keysA acc) → ((l.map Prod.fst).Nodup) →
      loadLabels (l.map (fun p =>
        cleanEl (mkEl "Label" [("name", p.2), ("value", pyStrOfInt p.1)] [])))
        acc = .ok (acc ++ l)
  | [], acc, _, _ => by simp [loadLabels]
  | p :: rest, acc, hfresh, hnodup => by
      obtain ⟨v, nm⟩ := p
      rw [List.map_cons, loadLabels]
      rw [show (cleanEl (mkEl "Label"
          [("name", nm), ("value", pyStrOfInt v)] [])).attrib =
          [("name", nm), ("value", pyStrOfInt v)] from rfl]
      rw [show lookupA [("name", nm), ("value", pyStrOfInt v)] "value" =
          some (pyStrOfInt v) from by simp [lookupA]]
      simp only [pyIntE_pyStrOfInt, okBind]
      simp only [show lookupA [("name", nm), ("value", pyStrOfInt v)]
          "name" = some nm from by simp [lookupA]]
      rw [insertA_fresh acc v nm (hfresh (v, nm) (List.mem_cons_self _ _))]
      have hnodup2 : ((rest.map Prod.fst).Nodup) := by
        rw [List.map_cons] at hnodup
        exact (List.nodup_cons.mp hnodup).2
      have hvfresh : v ∉ rest.map Prod.fst := by
        rw [List.map_cons] at hnodup
        exact (List.nodup_cons.mp hnodup).1
      rw [loadLabels_dumped rest (acc ++ [(v, nm)])
        (fun q hq hmem => by
          rw [keysA, List.map_append] at hmem
          rcases List.mem_append.mp hmem with h1 | h2
          · exact hfresh q (List.mem_cons_of_mem _ hq) h1
          · have hqv : q.1 = v := by simpa using h2
            exact hvfresh (hqv ▸ List.mem_map_of_mem Prod.fst hq))
        hnodup2]
      simp

theorem nodeTable_enumFrom :
    ∀ (nodes : List Node) (base : Nat),
      (List.enumFrom base nodes).map (fun p =>
        [("id", pyStrOfInt (p.1 : Int)), ("name", p.2.name)]) =
        nodeTable nodes base
  | [], _ => rfl
  | n :: rest, base => by
      rw [List.enumFrom_cons, List.map_cons, nodeTable,
        nodeTable_enumFrom rest (base + 1)]

theorem mkNodes_nodeTable :
    ∀ (nodes : List Node) (base : Nat),
      (∀ n ∈ nodes, n.comment = none) →
      mkNodes (nodeTable nodes base) = .ok nodes
  | [], _, _ => rfl
  | n :: rest, base, h => by
      rw [nodeTable, mkNodes]
      simp only [show lookupA [("id", pyStrOfInt (base : Int)),
          ("name", n.name)] "name" = some n.name from by simp [lookupA],
        mkNodes_nodeTable rest (base + 1)
          (fun x hx => h x (List.mem_cons_of_mem _ hx)), okBind]
      obtain ⟨nm, cmt⟩ := n
      have hc : cmt = none := h ⟨nm, cmt⟩ (List.mem_cons_self _ _)
      subst hc
      rfl

theorem getNodeNameById_nodeTable :
    ∀ (nodes : List Node) (base k : Nat) (hk : k < nodes.length),
      getNodeNameById (nodeTable nodes base)
        (pyStrOfInt ((base + k : Nat) : Int)) =
        .ok (some (nodes.get ⟨k, hk⟩).name)
  | [], base, k, hk => absurd hk (by simp)
  | n :: rest, base, k, hk => by
      rw [nodeTable, getNodeNameById]
      simp only [show lookupA [("id", pyStrOfInt (base : Int)),
          ("name", n.name)] "id" = some (pyStrOfInt (base : Int)) from
        by simp [lookupA]]
      cases k with
      | zero =>
          rw [show ((base + 0 : Nat) : Int) = (base : Int) from by omega]
          rw [if_pos (beq_self_eq_true _)]
          simp only [show lookupA [("id", pyStrOfInt (base : Int)),
              ("name", n.name)] "name" = some n.name from
            by simp [lookupA]]
          rfl
      | succ k2 =>
          have hne : (pyStrOfInt (base : Int) ==
              pyStrOfInt ((base + (k2 + 1) : Nat) : Int)) = false := by
            refine beq_eq_false_iff_ne.mpr (fun he => ?_)
            have := pyStrOfInt_inj he
            omega
          rw [if_neg (fun hcontra => by
            rw [hne] at hcontra
            exact (nomatch hcontra))]
          rw [show ((base + (k2 + 1) : Nat) : Int) =
              (((base + 1) + k2 : Nat) : Int) from by omega]
          exact getNodeNameById_nodeTable rest (base + 1) k2
            (by simpa using Nat.lt_of_succ_lt_succ hk)

theorem foldl_insertA_lookup_mem :
    ∀ (l : List (Nat × Node)) (acc : List (String × Int)) (rn : String)
      (i : Int),
      lookupA (l.foldl (fun a p => insertA a p.2.name ((p.1 : Nat) : Int))
        acc) rn = some i →
      (∃ p ∈ l, p.2.name = rn ∧ ((p.1 : Nat) : Int) = i) ∨
        lookupA acc rn = some i
  | [], _, _, _, h => Or.inr h
  | q :: rest, acc, rn, i, h => by
      rw [List.foldl_cons] at h
      rcases foldl_insertA_lookup_mem rest _ rn i h with
        ⟨p, hp, h1, h2⟩ | h2
      · exact Or.inl ⟨p, List.mem_cons_of_mem _ hp, h1, h2⟩
      · by_cases he : q.2.name = rn
        · rw [← he, lookupA_insertA_self] at h2
          exact Or.inl ⟨q, List.mem_cons_self _ _, he,
            Option.some_injective _ h2⟩
        · rw [lookupA_insertA_ne acc _ he] at h2
          exact Or.inr h2

theorem getNodeNameById_buildNodeRefs (nodes : List Node) {rn : String}
    {i : Int} (h : lookupA (buildNodeRefs nodes) rn = some i) :
    getNodeNameById (nodeTable nodes 1) (pyStrOfInt i) = .ok (some rn) := by
  rw [buildNodeRefs] at h
  rcases foldl_insertA_lookup_mem (List.enumFrom 1 nodes) [] rn i h with
    ⟨p, hp, hname, hidx⟩ | h2
  · obtain ⟨pi, pn⟩ := p
    obtain ⟨hge, hlt, heq⟩ := List.mem_enumFrom hp
    have hk : pi - 1 < nodes.length := by omega
    have harith : ((1 + (pi - 1) : Nat) : Int) = i := by omega
    have := getNodeNameById_nodeTable nodes 1 (pi - 1) hk
    rw [harith] at this
    rw [this]
    have hnm : (nodes.get ⟨pi - 1, hk⟩).name = rn := by
      rw [show nodes.get ⟨pi - 1, hk⟩ = pn from heq.symm]
      exact hname
    rw [hnm]
  · exact absurd h2 (by simp [lookupA])

theorem loadNodeRefs_dumped (nodes : List Node) :
    ∀ rs : List (Option String),
      (∀ r ∈ rs, ∃ rn, r = some rn ∧
        (lookupA (buildNodeRefs nodes) rn).isSome = true) →
      loadNodeRefs (nodeTable nodes 1)
        ((dumpedRefElems (buildNodeRefs nodes) rs).map cleanEl) = .ok rs
  | [], _ => rfl
  | r :: rest, h => by
      obtain ⟨rn, rfl, hsome⟩ := h r (List.mem_cons_self _ _)
      obtain ⟨i, hi⟩ := Option.isSome_iff_exists.mp hsome
      rw [show dumpedRefElems (buildNodeRefs nodes) (some rn :: rest) =
          mkEl "NodeRef" [("id", pyStrOfInt
            (refIdIn (buildNodeRefs nodes) (some rn)))] [] ::
          dumpedRefElems (buildNodeRefs nodes) rest from rfl]
      rw [List.map_cons, loadNodeRefs]
      simp only [show (cleanEl (mkEl "NodeRef" [("id", pyStrOfInt
          (refIdIn (buildNodeRefs nodes) (some rn)))] [])).attrib =
          [("id", pyStrOfInt (refIdIn (buildNodeRefs nodes) (some rn)))]
          from rfl]
      simp only [show lookupA [("id", pyStrOfInt
          (refIdIn (buildNodeRefs nodes) (some rn)))] "id" =
          some (pyStrOfInt (refIdIn (buildNodeRefs nodes) (some rn)))
          from by simp [lookupA]]
      rw [show refIdIn (buildNodeRefs nodes) (some rn) = i from
        by simp [refIdIn, hi]]
      rw [getNodeNameById_buildNodeRefs nodes hi, okBind]
      rw [loadNodeRefs_dumped nodes rest
        (fun x hx => h x (List.mem_cons_of_mem _ hx)), okBind]

theorem cleanAttrs_dumpedSignalAttrs (s : Signal) :
    cleanAttrs (dumpedSignalAttrs s) = dumpedSignalAttrs s := by
  refine cleanAttrs_self _ (fun kv hkv => ?_)
  rw [dumpedSignalAttrs] at hkv
  rcases List.mem_append.mp hkv with h1 | h2
  · rcases List.mem_append.mp h1 with h3 | h4
    · rcases List.mem_cons.mp h3 with rfl | h5
      · rfl
      · rcases List.mem_cons.mp h5 with rfl | h6
        · rfl
        · exact absurd h6 (List.not_mem_nil kv)
    · by_cases hc : s.length ≠ 1
      · rw [if_pos hc] at h4
        rcases List.mem_singleton.mp h4 with rfl
        rfl
      · rw [if_neg hc] at h4
        exact absurd h4 (List.not_mem_nil kv)
  · by_cases hc : s.byte_order ≠ "little_endian"
    · rw [if_pos hc] at h2
      rcases List.mem_singleton.mp h2 with rfl
      rfl
    · rw [if_neg hc] at h2
      exact absurd h2 (List.not_mem_nil kv)

theorem cleanAttrs_valueAttrsOf (s : Signal) :
    cleanAttrs (valueAttrsOf s) = valueAttrsOf s := by
  refine cleanAttrs_self _ (fun kv hkv => ?_)
  rw [valueAttrsOf] at hkv
  rcases List.mem_append.mp hkv with h1 | h2
  · rcases List.mem_append.mp h1 with h3 | h4
    · rcases List.mem_append.mp h3 with h5 | h6
      · rcases List.mem_append.mp h5 with h7 | h8
        · rcases List.mem_append.mp h7 with h9 | h10
          · cases hsm : s.minimum with
            | none => rw [hsm] at h9; exact absurd h9 (List.not_mem_nil kv)
            | some m =>
                rw [hsm] at h9
                rcases List.mem_singleton.mp h9 with rfl
                rfl
          · cases hsm : s.maximum with
            | none => rw [hsm] at h10; exact absurd h10 (List.not_mem_nil kv)
            | some m =>
                rw [hsm] at h10
                rcases List.mem_singleton.mp h10 with rfl
                rfl
        · by_cases hc : s.scale ≠ 1
          · rw [if_pos hc] at h8
            rcases List.mem_singleton.mp h8 with rfl
            rfl
          · rw [if_neg hc] at h8
            exact absurd h8 (List.not_mem_nil kv)
      · by_cases hc : s.offset ≠ 0
        · rw [if_pos hc] at h6
          rcases List.mem_singleton.mp h6 with rfl
          rfl
        · rw [if_neg hc] at h6
          exact absurd h6 (List.not_mem_nil kv)
    · cases hsu : s.unit with
      | none => rw [hsu] at h4; exact absurd h4 (List.not_mem_nil kv)
      | some u =>
          rw [hsu] at h4
          rcases List.mem_singleton.mp h4 with rfl
          rfl
  · cases hf : s.is_float with
    | true =>
        rw [hf, if_pos (show (true : Bool) = true from rfl)] at h2
        rcases List.mem_singleton.mp h2 with rfl
        rfl
    | false =>
        rw [hf,
          if_neg (show ¬(false : Bool) = true from (fun h => nomatch h))]
          at h2
        cases hsg : s.is_signed with
        | true =>
            rw [hsg, if_pos (show (true : Bool) = true from rfl)] at h2
            rcases List.mem_singleton.mp h2 with rfl
            rfl
        | false =>
            rw [hsg, if_neg (show ¬(false : Bool) = true from
              (fun h => nomatch h))] at h2
            exact absurd h2 (List.not_mem_nil kv)

theorem cleanAttrs_dumpedMessageAttrs (m : Message) :
    cleanAttrs (dumpedMessageAttrs m) = dumpedMessageAttrs m := by
  refine cleanAttrs_self _ (fun kv hkv => ?_)
  rw [dumpedMessageAttrs] at hkv
  rcases List.mem_append.mp hkv with h1 | h2
  · rcases List.mem_append.mp h1 with h3 | h4
    · rcases List.mem_cons.mp h3 with rfl | h5
      · rfl
      · rcases List.mem_cons.mp h5 with rfl | h6
        · rfl
        · rcases List.mem_cons.mp h6 with rfl | h7
          · rfl
          · exact absurd h7 (List.not_mem_nil kv)
    · cases hc : m.cycle_time with
      | none => rw [hc] at h4; exact absurd h4 (List.not_mem_nil kv)
      | some t =>
          rw [hc] at h4
          rcases List.mem_singleton.mp h4 with rfl
          rfl
  · cases hx : m.is_extended_frame with
    | true =>
        rw [hx, if_pos (show (true : Bool) = true from rfl)] at h2
        rcases List.mem_singleton.mp h2 with rfl
        rfl
    | false =>
        rw [hx, if_neg (show ¬(false : Bool) = true from
          (fun h => nomatch h))] at h2
        exact absurd h2 (List.not_mem_nil kv)

theorem nsTag_beq (a b : String) : (nsTag a == nsTag b) = (a == b) := by
  by_cases h : a = b
  · rw [h]
    simp
  · have h2 : nsTag a ≠ nsTag b := fun he => h (nsTag_inj he)
    simp [h, h2]

theorem tag_mk (t : String) (a : List (String × String))
    (x : Option String) (cs : ElementList) (tl : Option String) :
    (Element.mk t a x cs tl).tag = t := rfl

theorem tag_mkEl (t : String) (a : List (String × String))
    (kids : List Element) : (mkEl t a kids).tag = t := rfl

theorem nsTag_ne (a b : String) (h : (a == b) = false) :
    nsTag a ≠ nsTag b := fun he => by
  have h2 := nsTag_inj he
  rw [h2] at h
  simp at h

theorem filter_clean_extra_nil (extra : List Element) (u : String)
    (hextra : ∀ x ∈ extra, x.tag = "MuxGroup")
    (hu : ("MuxGroup" == u) = false) :
    (extra.map cleanEl).filter (fun c => c.tag == nsTag u) = [] := by
  rw [List.filter_eq_nil]
  intro c hc
  obtain ⟨x, hx, rfl⟩ := List.mem_map.mp hc
  rw [cleanEl_tag, hextra x hx, nsTag_beq, hu]
  exact fun h => nomatch h

theorem filter_clean_extra_all (extra : List Element)
    (hextra : ∀ x ∈ extra, x.tag = "MuxGroup") :
    (extra.map cleanEl).filter (fun c => c.tag == nsTag "MuxGroup") =
      extra.map cleanEl := by
  rw [List.filter_eq_self]
  intro c hc
  obtain ⟨x, hx, rfl⟩ := List.mem_map.mp hc
  rw [cleanEl_tag, hextra x hx]
  exact beq_self_eq_true _

theorem filter_clean_notesChunk_drop (o : Option String) (u : String)
    (hu : ("Notes" == u) = false) :
    (((match o with
       | some c => [mkNotes c]
       | none => []) : List Element).map cleanEl).filter
      (fun c => c.tag == nsTag u) = [] := by
  cases o <;> simp [cleanEl_tag, tag_mk, mkNotes, nsTag_ne _ _ hu]

theorem filter_clean_notesChunk_keep (o : Option String) :
    (((match o with
       | some c => [mkNotes c]
       | none => []) : List Element).map cleanEl).filter
      (fun c => c.tag == nsTag "Notes") =
      (match o with
       | some c => [cleanEl (mkNotes c)]
       | none => []) := by
  cases o <;> simp [cleanEl_tag, tag_mk, mkNotes]

theorem filter_clean_consumerChunk_drop (rs : List (Option String))
    (nr : List (String × Int)) (u : String)
    (hu : ("Consumer" == u) = false) :
    (((match rs with
       | [] => []
       | _ :: _ => [mkEl "Consumer" [] (dumpedRefElems nr rs)]) :
        List Element).map cleanEl).filter
      (fun c => c.tag == nsTag u) = [] := by
  cases rs <;> simp [cleanEl_tag, tag_mk, mkEl, nsTag_ne _ _ hu]

theorem filter_clean_consumerChunk_keep (rs : List (Option String))
    (nr : List (String × Int)) :
    (((match rs with
       | [] => []
       | _ :: _ => [mkEl "Consumer" [] (dumpedRefElems nr rs)]) :
        List Element).map cleanEl).filter
      (fun c => c.tag == nsTag "Consumer") =
      (match rs with
       | [] => []
       | _ :: _ => [cleanEl (mkEl "Consumer" [] (dumpedRefElems nr rs))]) := by
  cases rs <;> simp [cleanEl_tag, tag_mk, mkEl]

theorem filter_clean_valueChunk_drop (s : Signal) (u : String)
    (hu : ("Value" == u) = false) :
    (((if valueAttrsOf s ≠ [] then [mkEl "Value" (valueAttrsOf s) []]
       else []) : List Element).map cleanEl).filter
      (fun c => c.tag == nsTag u) = [] := by
  by_cases h : valueAttrsOf s ≠ [] <;>
    simp [h, cleanEl_tag, tag_mk, mkEl, nsTag_ne _ _ hu]

theorem filter_clean_valueChunk_keep (s : Signal) :
    (((if valueAttrsOf s ≠ [] then [mkEl "Value" (valueAttrsOf s) []]
       else []) : List Element).map cleanEl).filter
      (fun c => c.tag == nsTag "Value") =
      (if valueAttrsOf s ≠ [] then
        [cleanEl (mkEl "Value" (valueAttrsOf s) [])] else []) := by
  by_cases h : valueAttrsOf s ≠ [] <;> simp [h, cleanEl_tag, tag_mk, mkEl]

theorem filter_clean_labelChunk_drop (o : Option (List (Int × String)))
    (u : String) (hu : ("LabelSet" == u) = false) :
    (((match o with
       | some (c :: cs) =>
           [mkEl "LabelSet" []
             ((c :: cs).map (fun p =>
               mkEl "Label" [("name", p.2), ("value", pyStrOfInt p.1)] []))]
       | _ => []) : List Element).map cleanEl).filter
      (fun c => c.tag == nsTag u) = [] := by
  rcases o with _ | (_ | ⟨c, cs⟩) <;>
    simp [cleanEl_tag, tag_mk, mkEl, nsTag_ne _ _ hu]

theorem filter_clean_labelChunk_keep (o : Option (List (Int × String))) :
    (((match o with
       | some (c :: cs) =>
           [mkEl "LabelSet" []
             ((c :: cs).map (fun p =>
               mkEl "Label" [("name", p.2), ("value", pyStrOfInt p.1)] []))]
       | _ => []) : List Element).map cleanEl).filter
      (fun c => c.tag == nsTag "LabelSet") =
      (match o with
       | some (c :: cs) =>
           [cleanEl (mkEl "LabelSet" []
             ((c :: cs).map (fun p =>
               mkEl "Label" [("name", p.2), ("value", pyStrOfInt p.1)] [])))]
       | _ => []) := by
  rcases o with _ | (_ | ⟨c, cs⟩) <;> simp [cleanEl_tag, tag_mk, mkEl]

theorem attrib_clean_mkEl (t : String) (a : List (String × String))
    (kids : List Element) :
    (cleanEl (mkEl t a kids)).attrib = cleanAttrs a := by
  rw [clean_mkEl]
  rfl

theorem children_clean_mkEl (t : String) (a : List (String × String))
    (kids : List Element) (u : String) :
    childrenWithTag (cleanEl (mkEl t a kids)) u =
      (kids.map cleanEl).filter (fun c => c.tag == u) := by
  rw [clean_mkEl, childrenWithTag_mkOf]

theorem text_clean_mkNotes {c : String} (h : c ≠ "") :
    (cleanEl (mkNotes c)).text = some c := by
  rw [clean_mkNotes h]
  rfl

theorem filter_clean_refElems (nr : List (String × Int))
    (rs : List (Option String)) :
    ((dumpedRefElems nr rs).map cleanEl).filter
      (fun c => c.tag == nsTag "NodeRef") =
      (dumpedRefElems nr rs).map cleanEl := by
  rw [List.filter_eq_self]
  intro c hc
  obtain ⟨x, hx, rfl⟩ := List.mem_map.mp hc
  obtain ⟨r, hr, rfl⟩ := List.mem_map.mp hx
  rw [cleanEl_tag]
  exact beq_self_eq_true _

theorem filter_clean_labelElems (L : List (Int × String)) :
    (((L.map (fun p =>
        mkEl "Label" [("name", p.2), ("value", pyStrOfInt p.1)] [])).map
          cleanEl).filter (fun c => c.tag == nsTag "Label")) =
      (L.map (fun p =>
        mkEl "Label" [("name", p.2), ("value", pyStrOfInt p.1)] [])).map
          cleanEl := by
  rw [List.filter_eq_self]
  intro c hc
  obtain ⟨x, hx, rfl⟩ := List.mem_map.mp hc
  obtain ⟨p, hp, rfl⟩ := List.mem_map.mp hx
  rw [cleanEl_tag]
  exact beq_self_eq_true _

theorem valueAttrsOf_nil_fields (s : Signal) (h : valueAttrsOf s = []) :
    s.minimum = none ∧ s.maximum = none ∧ s.scale = 1 ∧ s.offset = 0 ∧
      s.unit = none ∧ s.is_signed = false ∧ s.is_float = false := by
  rw [valueAttrsOf] at h
  rw [List.append_eq_nil] at h
  obtain ⟨h1, hF⟩ := h
  rw [List.append_eq_nil] at h1
  obtain ⟨h2, hE⟩ := h1
  rw [List.append_eq_nil] at h2
  obtain ⟨h3, hD⟩ := h2
  rw [List.append_eq_nil] at h3
  obtain ⟨h4, hC⟩ := h3
  rw [List.append_eq_nil] at h4
  obtain ⟨hA, hB⟩ := h4
  refine ⟨?_, ?_, ?_, ?_, ?_, ?_, ?_⟩
  · cases hm : s.minimum with
    | none => rfl
    | some m => rw [hm] at hA; exact absurd hA (by simp)
  · cases hm : s.maximum with
    | none => rfl
    | some m => rw [hm] at hB; exact absurd hB (by simp)
  · by_cases hc : s.scale = 1
    · exact hc
    · rw [if_pos hc] at hC
      exact absurd hC (by simp)
  · by_cases hc : s.offset = 0
    · exact hc
    · rw [if_pos hc] at hD
      exact absurd hD (by simp)
  · cases hm : s.unit with
    | none => rfl
    | some u => rw [hm] at hE; exact absurd hE (by simp)
  · cases hsg : s.is_signed with
    | false => rfl
    | true =>
        cases hfl : s.is_float with
        | false =>
            rw [hfl, if_neg (show ¬(false : Bool) = true from
              (fun hx => nomatch hx)), hsg,
              if_pos (show (true : Bool) = true from rfl)] at hF
            exact absurd hF (by simp)
        | true =>
            rw [hfl, if_pos (show (true : Bool) = true from rfl)] at hF
            exact absurd hF (by simp)
  · cases hfl : s.is_float with
    | false => rfl
    | true =>
        rw [hfl, if_pos (show (true : Bool) = true from rfl)] at hF
        exact absurd hF (by simp)

theorem sigKids_filter_notes (s : Signal) (nr : List (String × Int))
    (extra : List Element) (hextra : ∀ x ∈ extra, x.tag = "MuxGroup") :
    (((dumpedSignalKids s nr ++ extra).map cleanEl).filter
      (fun c => c.tag == nsTag "Notes")) =
      (match s.comment with
       | some c => [cleanEl (mkNotes c)]
       | none => []) := by
  rw [List.map_append, List.filter_append,
    filter_clean_extra_nil extra "Notes" hextra (by decide),
    List.append_nil, dumpedSignalKids, List.map_append, List.filter_append,
    List.map_append, List.filter_append, List.map_append,
    List.filter_append]
  rw [filter_clean_notesChunk_keep,
    filter_clean_consumerChunk_drop _ _ _ (by decide),
    filter_clean_valueChunk_drop _ _ (by decide),
    filter_clean_labelChunk_drop _ _ (by decide),
    List.append_nil, List.append_nil, List.append_nil]

theorem sigKids_filter_consumer (s : Signal) (nr : List (String × Int))
    (extra : List Element) (hextra : ∀ x ∈ extra, x.tag = "MuxGroup") :
    (((dumpedSignalKids s nr ++ extra).map cleanEl).filter
      (fun c => c.tag == nsTag "Consumer")) =
      (match s.receivers with
       | [] => []
       | _ :: _ =>
           [cleanEl (mkEl "Consumer" [] (dumpedRefElems nr s.receivers))]) := by
  rw [List.map_append, List.filter_append,
    filter_clean_extra_nil extra "Consumer" hextra (by decide),
    List.append_nil, dumpedSignalKids, List.map_append, List.filter_append,
    List.map_append, List.filter_append, List.map_append,
    List.filter_append]
  rw [filter_clean_notesChunk_drop _ _ (by decide),
    filter_clean_consumerChunk_keep,
    filter_clean_valueChunk_drop _ _ (by decide),
    filter_clean_labelChunk_drop _ _ (by decide),
    List.nil_append, List.append_nil, List.append_nil]

theorem sigKids_filter_value (s : Signal) (nr : List (String × Int))
    (extra : List Element) (hextra : ∀ x ∈ extra, x.tag = "MuxGroup") :
    (((dumpedSignalKids s nr ++ extra).map cleanEl).filter
      (fun c => c.tag == nsTag "Value")) =
      (if valueAttrsOf s ≠ [] then
        [cleanEl (mkEl "Value" (valueAttrsOf s) [])] else []) := by
  rw [List.map_append, List.filter_append,
    filter_clean_extra_nil extra "Value" hextra (by decide),
    List.append_nil, dumpedSignalKids, List.map_append, List.filter_append,
    List.map_append, List.filter_append, List.map_append,
    List.filter_append]
  rw [filter_clean_notesChunk_drop _ _ (by decide),
    filter_clean_consumerChunk_drop _ _ _ (by decide),
    filter_clean_valueChunk_keep,
    filter_clean_labelChunk_drop _ _ (by decide),
    List.nil_append, List.nil_append, List.append_nil]

theorem sigKids_filter_labels (s : Signal) (nr : List (String × Int))
    (extra : List Element) (hextra : ∀ x ∈ extra, x.tag = "MuxGroup") :
    (((dumpedSignalKids s nr ++ extra).map cleanEl).filter
      (fun c => c.tag == nsTag "LabelSet")) =
      (match s.choices with
       | some (c :: cs) =>
           [cleanEl (mkEl "LabelSet" []
             ((c :: cs).map (fun p =>
               mkEl "Label" [("name", p.2), ("value", pyStrOfInt p.1)] [])))]
       | _ => []) := by
  rw [List.map_append, List.filter_append,
    filter_clean_extra_nil extra "LabelSet" hextra (by decide),
    List.append_nil, dumpedSignalKids, List.map_append, List.filter_append,
    List.map_append, List.filter_append, List.map_append,
    List.filter_append]
  rw [filter_clean_notesChunk_drop _ _ (by decide),
    filter_clean_consumerChunk_drop _ _ _ (by decide),
    filter_clean_valueChunk_drop _ _ (by decide),
    filter_clean_labelChunk_keep,
    List.nil_append, List.nil_append, List.nil_append]

theorem sigKids_filter_muxGroups (s : Signal) (nr : List (String × Int))
    (extra : List Element) (hextra : ∀ x ∈ extra, x.tag = "MuxGroup") :
    (((dumpedSignalKids s nr ++ extra).map cleanEl).filter
      (fun c => c.tag == nsTag "MuxGroup")) = extra.map cleanEl := by
  rw [List.map_append, List.filter_append,
    filter_clean_extra_all extra hextra, dumpedSignalKids,
    List.map_append, List.filter_append, List.map_append,
    List.filter_append, List.map_append, List.filter_append]
  rw [filter_clean_notesChunk_drop _ _ (by decide),
    filter_clean_consumerChunk_drop _ _ _ (by decide),
    filter_clean_valueChunk_drop _ _ (by decide),
    filter_clean_labelChunk_drop _ _ (by decide),
    List.nil_append, List.nil_append, List.nil_append, List.nil_append]

theorem filter_clean_labelElems2 (L : List (Int × String)) :
    ((L.map (fun p => cleanEl
        (mkEl "Label" [("name", p.2), ("value", pyStrOfInt p.1)] []))).filter
      (fun c => c.tag == nsTag "Label")) =
      L.map (fun p => cleanEl
        (mkEl "Label" [("name", p.2), ("value", pyStrOfInt p.1)] [])) := by
  rw [List.filter_eq_self]
  intro c hc
  obtain ⟨p, hp, rfl⟩ := List.mem_map.mp hc
  rw [cleanEl_tag]
  exact beq_self_eq_true _

theorem map_clean_labelElems (L : List (Int × String)) :
    ((L.map (fun p =>
        mkEl "Label" [("name", p.2), ("value", pyStrOfInt p.1)] [])).map
      cleanEl) =
      L.map (fun p =>
        cleanEl (mkEl "Label" [("name", p.2), ("value", pyStrOfInt p.1)] [])) := by
  rw [List.map_map]
  rfl

theorem cleanSig_vaStep (s : Signal)
    (hsf : ¬(s.is_signed = true ∧ s.is_float = true)) :
    (match (if valueAttrsOf s ≠ [] then
        [cleanEl (mkEl "Value" (valueAttrsOf s) [])] else []).head? with
     | some value =>
         loadValAttrs value.attrib ⟨none, none, 1, 0, none, false, false⟩
     | none => pure ⟨none, none, 1, 0, none, false, false⟩) =
      .ok ⟨s.minimum, s.maximum, s.scale, s.offset, s.unit,
           s.is_signed, s.is_float⟩ := by
  by_cases hva : valueAttrsOf s ≠ []
  · rw [if_pos hva]
    simp only [List.head?_cons, attrib_clean_mkEl, cleanAttrs_valueAttrsOf,
      loadValAttrs_result s hsf]
  · rw [if_neg hva]
    obtain ⟨e1, e2, e3, e4, e5, e6, e7⟩ :=
      valueAttrsOf_nil_fields s (not_not.mp hva)
    simp only [List.head?_nil, e1, e2, e3, e4, e5, e6, e7]
    rfl

theorem cleanSig_notesStep (s : Signal) (hcm : s.comment ≠ some "") :
    ((match s.comment with
      | some c => [cleanEl (mkNotes c)]
      | none => []).head?.bind Element.text) = s.comment := by
  cases hcom : s.comment with
  | none => rfl
  | some c =>
      have hc : c ≠ "" := fun he => hcm (by rw [hcom, he])
      simp [text_clean_mkNotes hc]

theorem cleanSig_labelsStep (s : Signal)
    (hchne : s.choices ≠ some [])
    (hchnd : ∀ l, s.choices = some l → ((l.map Prod.fst).Nodup)) :
    (match (match s.choices with
       | some (c :: cs) =>
           [cleanEl (mkEl "LabelSet" []
             ((c :: cs).map (fun (p : Int × String) =>
               mkEl "Label" [("name", p.2), ("value", pyStrOfInt p.1)] [])))]
       | _ => []).head? with
     | some label_set => do
         let l ← loadLabels (childrenWithTag label_set (nsTag "Label")) []
         pure (some l)
     | none => pure none) = .ok s.choices := by
  rcases hchc : s.choices with _ | (_ | ⟨c0, cs0⟩)
  · rfl
  · exact absurd hchc hchne
  · simp only [List.head?_cons, children_clean_mkEl,
      filter_clean_labelElems, map_clean_labelElems,
        filter_clean_labelElems2]
    rw [loadLabels_dumped (c0 :: cs0) [] (fun p hp => by simp [keysA])
      (hchnd _ hchc)]
    simp [okBind]

theorem cleanSig_recvStep (s : Signal) (nodes : List Node)
    (hrecv : ∀ r ∈ s.receivers, ∃ rn, r = some rn ∧
      (lookupA (buildNodeRefs nodes) rn).isSome = true) :
    (match (match s.receivers with
       | [] => []
       | _ :: _ => [cleanEl (mkEl "Consumer" []
           (dumpedRefElems (buildNodeRefs nodes) s.receivers))]).head? with
     | some consumer =>
         loadNodeRefs (nodeTable nodes 1)
           (childrenWithTag consumer (nsTag "NodeRef"))
     | none => pure []) = .ok s.receivers := by
  cases hr : s.receivers with
  | nil => rfl
  | cons r0 rs0 =>
      simp only [List.head?_cons, children_clean_mkEl,
        filter_clean_refElems]
      rw [loadNodeRefs_dumped nodes (r0 :: rs0) (hr ▸ hrecv)]

theorem loadSignalElement_clean (s : Signal) (nodes : List Node)
    (T : String) (extra : List Element)
    (hextra : ∀ x ∈ extra, x.tag = "MuxGroup")
    {nm : String} {st : Int}
    (hname : s.name = some nm) (hstart : s.start = some st)
    (hbo : s.byte_order = "little_endian" ∨ s.byte_order = "big_endian")
    (hsf : ¬(s.is_signed = true ∧ s.is_float = true))
    (hchne : s.choices ≠ some [])
    (hchnd : ∀ l, s.choices = some l → ((l.map Prod.fst).Nodup))
    (hcm : s.comment ≠ some "")
    (hrecv : ∀ r ∈ s.receivers, ∃ rn, r = some rn ∧
      (lookupA (buildNodeRefs nodes) rn).isSome = true) :
    loadSignalElement
      (cleanEl (mkEl T (dumpedSignalAttrs s)
        (dumpedSignalKids s (buildNodeRefs nodes) ++ extra)))
      (nodeTable nodes 1) = .ok (bareSig s) := by
  rw [loadSignalElement, attrib_clean_mkEl, cleanAttrs_dumpedSignalAttrs,
    loadSigAttrs_result s hname hstart hbo, okBind]
  simp only [findChild, children_clean_mkEl,
    sigKids_filter_value s (buildNodeRefs nodes) extra hextra,
    sigKids_filter_notes s (buildNodeRefs nodes) extra hextra,
    sigKids_filter_labels s (buildNodeRefs nodes) extra hextra,
    sigKids_filter_consumer s (buildNodeRefs nodes) extra hextra]
  rw [cleanSig_notesStep s hcm]
  by_cases hva : valueAttrsOf s ≠ []
  · rw [if_pos hva]
    simp only [List.head?_cons, attrib_clean_mkEl, cleanAttrs_valueAttrsOf,
      loadValAttrs_result s hsf, okBind]
    rcases hchc : s.choices with _ | (_ | ⟨c0, cs0⟩)
    · simp only [List.head?_nil, pure_bind]
      cases hrcv2 : s.receivers with
      | nil =>
          simp [startBitOpt, startBitKcd_invol, okBind, bareSig,
            hname, hstart, hchc, hrcv2]
      | cons r0 rs0 =>
          simp only [List.head?_cons, children_clean_mkEl,
            filter_clean_refElems]
          rw [loadNodeRefs_dumped nodes (r0 :: rs0) (hrcv2 ▸ hrecv)]
          simp [startBitOpt, startBitKcd_invol, okBind, bareSig,
            hname, hstart, hchc, hrcv2]
    · exact absurd hchc hchne
    · simp only [List.head?_cons, children_clean_mkEl,
        filter_clean_labelElems, map_clean_labelElems,
        filter_clean_labelElems2]
      rw [loadLabels_dumped (c0 :: cs0) [] (fun p hp => by simp [keysA])
        (hchnd _ hchc)]
      simp only [List.nil_append, okBind, pure_bind]
      cases hrcv2 : s.receivers with
      | nil =>
          simp [startBitOpt, startBitKcd_invol, okBind, bareSig,
            hname, hstart, hchc, hrcv2]
      | cons r0 rs0 =>
          simp only [List.head?_cons, children_clean_mkEl,
            filter_clean_refElems]
          rw [loadNodeRefs_dumped nodes (r0 :: rs0) (hrcv2 ▸ hrecv)]
          simp [startBitOpt, startBitKcd_invol, okBind, bareSig,
            hname, hstart, hchc, hrcv2]
  · rw [if_neg hva]
    obtain ⟨e1, e2, e3, e4, e5, e6, e7⟩ :=
      valueAttrsOf_nil_fields s (not_not.mp hva)
    simp only [List.head?_nil, pure_bind]
    rcases hchc : s.choices with _ | (_ | ⟨c0, cs0⟩)
    · simp only [List.head?_nil, pure_bind]
      cases hrcv2 : s.receivers with
      | nil =>
          simp [startBitOpt, startBitKcd_invol, okBind, bareSig,
            hname, hstart, hchc, hrcv2, e1, e2, e3, e4, e5, e6, e7]
      | cons r0 rs0 =>
          simp only [List.head?_cons, children_clean_mkEl,
            filter_clean_refElems]
          rw [loadNodeRefs_dumped nodes (r0 :: rs0) (hrcv2 ▸ hrecv)]
          simp [startBitOpt, startBitKcd_invol, okBind, bareSig,
            hname, hstart, hchc, hrcv2, e1, e2, e3, e4, e5, e6, e7]
    · exact absurd hchc hchne
    · simp only [List.head?_cons, children_clean_mkEl,
        filter_clean_labelElems, map_clean_labelElems,
        filter_clean_labelElems2]
      rw [loadLabels_dumped (c0 :: cs0) [] (fun p hp => by simp [keysA])
        (hchnd _ hchc)]
      simp only [List.nil_append, okBind, pure_bind]
      cases hrcv2 : s.receivers with
      | nil =>
          simp [startBitOpt, startBitKcd_invol, okBind, bareSig,
            hname, hstart, hchc, hrcv2, e1, e2, e3, e4, e5, e6, e7]
      | cons r0 rs0 =>
          simp only [List.head?_cons, children_clean_mkEl,
            filter_clean_refElems]
          rw [loadNodeRefs_dumped nodes (r0 :: rs0) (hrcv2 ▸ hrecv)]
          simp [startBitOpt, startBitKcd_invol, okBind, bareSig,
            hname, hstart, hchc, hrcv2, e1, e2, e3, e4, e5, e6, e7]

theorem loadSignalElement_clean2 {s : Signal} {nodes : List Node}
    (T : String) (extra : List Element)
    (hextra : ∀ x ∈ extra, x.tag = "MuxGroup")
    (h : sigCleanLoadable nodes s) :
    loadSignalElement
      (cleanEl (mkEl T (dumpedSignalAttrs s)
        (dumpedSignalKids s (buildNodeRefs nodes) ++ extra)))
      (nodeTable nodes 1) = .ok (bareSig s) := by
  obtain ⟨⟨nm, hnm⟩, ⟨st, hst⟩, hbo, hsf, hchne, hchnd, hcm, hrecv⟩ := h
  exact loadSignalElement_clean s nodes T extra hextra hnm hst hbo hsf
    hchne hchnd hcm hrecv

theorem loadSignalElement_clean_noextra {s : Signal} {nodes : List Node}
    (T : String) (h : sigCleanLoadable nodes s) :
    loadSignalElement
      (cleanEl (mkEl T (dumpedSignalAttrs s)
        (dumpedSignalKids s (buildNodeRefs nodes))))
      (nodeTable nodes 1) = .ok (bareSig s) := by
  have h2 := loadSignalElement_clean2 T []
    (fun x hx => absurd hx (List.not_mem_nil x)) h
  rw [List.append_nil] at h2
  exact h2

theorem memberRecon (t : Signal) (selname : Option String) (k : Int)
    (h1 : t.is_multiplexer = false) (h2 : t.multiplexer_ids = some [k])
    (h3 : t.multiplexer_signal = selname) :
    ({ { bareSig t with multiplexer_ids := some [k] } with
        multiplexer_signal := selname } : Signal) = t := by
  obtain ⟨n1, n2, n3, n4, n5, n6, n7, n8, n9, n10, n11, n12, n13, n14,
    n15, n16, n17⟩ := t
  have hb1 : n15 = false := h1
  have hb2 : n16 = some [k] := h2
  have hb3 : n17 = selname := h3
  subst hb1
  subst hb2
  subst hb3
  rfl

theorem filter_clean_signalElems (nr : List (String × Int))
    (members : List Signal) :
    ((members.map (fun t => cleanEl (dumpedSignalEl t nr))).filter
      (fun c => c.tag == nsTag "Signal")) =
      members.map (fun t => cleanEl (dumpedSignalEl t nr)) := by
  rw [List.filter_eq_self]
  intro c hc
  obtain ⟨t, ht, rfl⟩ := List.mem_map.mp hc
  rw [dumpedSignalEl, cleanEl_tag]
  exact beq_self_eq_true _

theorem loadMuxGroupSignals_clean (nodes : List Node)
    (selname : Option String) (k : Int) :
    ∀ members : List Signal,
      (∀ t ∈ members, sigCleanLoadable nodes t ∧
        t.is_multiplexer = false ∧ t.multiplexer_signal = selname ∧
        t.multiplexer_ids = some [k]) →
      loadMuxGroupSignals (nodeTable nodes 1) selname (pyStrOfInt k)
        (members.map (fun t =>
          cleanEl (dumpedSignalEl t (buildNodeRefs nodes)))) = .ok members
  | [], _ => rfl
  | t :: rest, h => by
      obtain ⟨hload, hm1, hm3, hm2⟩ := h t (List.mem_cons_self _ _)
      rw [List.map_cons, loadMuxGroupSignals, dumpedSignalEl,
        loadSignalElement_clean_noextra "Signal" hload, okBind,
        pyIntE_pyStrOfInt, okBind,
        loadMuxGroupSignals_clean nodes selname k rest
          (fun x hx => h x (List.mem_cons_of_mem _ hx)), okBind]
      exact congrArg Except.ok
        (congrArg (fun z => z :: rest)
          (memberRecon t selname k hm1 hm2 hm3))

theorem key_insertGrouped {κ β : Type} [DecidableEq κ] (f : β → κ) :
    ∀ (acc : List (κ × List β)) (k : κ) (v : β) (g : κ × List β),
      (∀ g0 ∈ acc, ∀ b ∈ g0.2, f b = g0.1) → f v = k →
      g ∈ insertGrouped acc k v → ∀ b ∈ g.2, f b = g.1
  | [], k, v, g, hacc, hv, hg, b, hb => by
      rw [insertGrouped] at hg
      rcases List.mem_singleton.mp hg with rfl
      rcases List.mem_singleton.mp hb with rfl
      exact hv
  | (k2, ws) :: rest, k, v, g, hacc, hv, hg, b, hb => by
      rw [insertGrouped] at hg
      by_cases hk : k2 = k
      · rw [if_pos hk] at hg
        rcases List.mem_cons.mp hg with rfl | hg2
        · rcases List.mem_append.mp hb with hb1 | hb2
          · exact hacc (k2, ws) (List.mem_cons_self _ _) b hb1
          · rcases List.mem_singleton.mp hb2 with rfl
            rw [hv, hk]
        · exact hacc g (List.mem_cons_of_mem _ hg2) b hb
      · rw [if_neg hk] at hg
        rcases List.mem_cons.mp hg with rfl | hg2
        · exact hacc (k2, ws) (List.mem_cons_self _ _) b hb
        · exact key_insertGrouped f rest k v g
            (fun g0 hg0 => hacc g0 (List.mem_cons_of_mem _ hg0)) hv hg2 b hb

theorem key_groupFold :
    ∀ (l : List Signal) (acc : List (Int × List Signal))
      (g : Int × List Signal),
      (∀ g0 ∈ acc, ∀ b ∈ g0.2, muxKeyOf b = g0.1) →
      g ∈ l.foldl (fun a s => insertGrouped a (muxKeyOf s) s) acc →
      ∀ t ∈ g.2, muxKeyOf t = g.1
  | [], acc, g, hacc, hg, t, ht => hacc g hg t ht
  | s :: rest, acc, g, hacc, hg, t, ht => by
      rw [List.foldl_cons] at hg
      exact key_groupFold rest _ g
        (fun g0 hg0 b hb =>
          key_insertGrouped muxKeyOf acc (muxKeyOf s) s g0 hacc rfl hg0 b hb)
        hg t ht

theorem key_groupByMuxKey {members : List Signal}
    {g : Int × List Signal} (hg : g ∈ groupByMuxKey members) :
    ∀ t ∈ g.2, muxKeyOf t = g.1 :=
  key_groupFold members [] g
    (fun g0 hg0 => absurd hg0 (List.not_mem_nil g0)) hg

theorem map_clean_signalElems (nr : List (String × Int))
    (members : List Signal) :
    ((members.map (fun t => dumpedSignalEl t nr)).map cleanEl) =
      members.map (fun t => cleanEl (dumpedSignalEl t nr)) := by
  rw [List.map_map]
  rfl

theorem loadMuxGroups_clean (nodes : List Node) (selname : Option String) :
    ∀ groups : List (Int × List Signal),
      (∀ g ∈ groups, ∀ t ∈ g.2, sigCleanLoadable nodes t ∧
        t.is_multiplexer = false ∧ t.multiplexer_signal = selname ∧
        t.multiplexer_ids = some [g.1]) →
      loadMuxGroups (nodeTable nodes 1) selname
        ((groups.map (fun g =>
          mkEl "MuxGroup" [("count", pyStrOfInt g.1)]
            (g.2.map (fun t =>
              dumpedSignalEl t (buildNodeRefs nodes))))).map cleanEl) =
        .ok ((groups.map Prod.snd).flatten)
  | [], _ => rfl
  | g :: rest, h => by
      rw [List.map_cons, List.map_cons, loadMuxGroups]
      simp only [attrib_clean_mkEl,
        show cleanAttrs [("count", pyStrOfInt g.1)] =
          [("count", pyStrOfInt g.1)] from rfl,
        show lookupA [("count", pyStrOfInt g.1)] "count" =
          some (pyStrOfInt g.1) from by simp [lookupA]]
      simp only [children_clean_mkEl, map_clean_signalElems,
        filter_clean_signalElems]
      rw [loadMuxGroupSignals_clean nodes selname g.1 g.2
        (h g (List.mem_cons_self _ _)), okBind,
        loadMuxGroups_clean nodes selname rest
          (fun g2 hg2 => h g2 (List.mem_cons_of_mem _ hg2)), okBind]
      rfl

theorem selRecon (sel : Signal) (h1 : sel.is_multiplexer = true)
    (h2 : sel.multiplexer_ids = none)
    (h3 : sel.multiplexer_signal = none) :
    ({ bareSig sel with is_multiplexer := true } : Signal) = sel := by
  obtain ⟨n1, n2, n3, n4, n5, n6, n7, n8, n9, n10, n11, n12, n13, n14,
    n15, n16, n17⟩ := sel
  have hb1 : n15 = true := h1
  have hb2 : n16 = none := h2
  have hb3 : n17 = none := h3
  subst hb1
  subst hb2
  subst hb3
  rfl

theorem dumpedMuxGroupEls_tags (signals : List Signal)
    (nr : List (String × Int)) (selname : Option String) :
    ∀ x ∈ dumpedMuxGroupEls signals nr selname, x.tag = "MuxGroup" := by
  intro x hx
  obtain ⟨g, hg, rfl⟩ := List.mem_map.mp hx
  rfl

theorem loadMultiplexElement_clean (nodes : List Node)
    (signals : List Signal) (sel : Signal)
    (hsel : sigCleanLoadable nodes sel)
    (hselmux : sel.is_multiplexer = true)
    (hselids : sel.multiplexer_ids = none)
    (hselsig : sel.multiplexer_signal = none)
    (hmembers : ∀ t ∈ muxMembers signals sel.name,
      sigCleanLoadable nodes t ∧ t.is_multiplexer = false ∧
      t.multiplexer_signal = sel.name ∧
      ∃ v, t.multiplexer_ids = some [v] ∧ muxKeyOf t = v) :
    loadMultiplexElement
      (cleanEl (mkEl "Multiplex" (dumpedSignalAttrs sel)
        (dumpedSignalKids sel (buildNodeRefs nodes) ++
          dumpedMuxGroupEls signals (buildNodeRefs nodes) sel.name)))
      (nodeTable nodes 1) = .ok (muxBlockOf signals sel) := by
  rw [loadMultiplexElement,
    loadSignalElement_clean2 "Multiplex"
      (dumpedMuxGroupEls signals (buildNodeRefs nodes) sel.name)
      (dumpedMuxGroupEls_tags signals (buildNodeRefs nodes) sel.name)
      hsel,
    okBind]
  rw [show ({ bareSig sel with is_multiplexer := true } : Signal) = sel
    from selRecon sel hselmux hselids hselsig]
  simp only [children_clean_mkEl,
    sigKids_filter_muxGroups sel (buildNodeRefs nodes)
      (dumpedMuxGroupEls signals (buildNodeRefs nodes) sel.name)
      (dumpedMuxGroupEls_tags signals (buildNodeRefs nodes) sel.name)]
  rw [dumpedMuxGroupEls,
    loadMuxGroups_clean nodes sel.name
      (groupByMuxKey (muxMembers signals sel.name))
      (fun g hg t ht => by
        have hmem := hmembers t (mem_groupByMuxKey hg t ht)
        obtain ⟨hl, hm1, hm3, v, hv, hkey⟩ := hmem
        refine ⟨hl, hm1, hm3, ?_⟩
        rw [hv, ← hkey, key_groupByMuxKey hg t ht]),
    okBind]
  rfl

theorem filter_clean_producerChunk_drop (rs : List (Option String))
    (nr : List (String × Int)) (u : String)
    (hu : ("Producer" == u) = false) :
    (((match rs with
       | [] => []
       | _ :: _ => [mkEl "Producer" [] (dumpedRefElems nr rs)]) :
        List Element).map cleanEl).filter
      (fun c => c.tag == nsTag u) = [] := by
  cases rs <;> simp [cleanEl_tag, tag_mk, mkEl, nsTag_ne _ _ hu]

theorem filter_clean_producerChunk_keep (rs : List (Option String))
    (nr : List (String × Int)) :
    (((match rs with
       | [] => []
       | _ :: _ => [mkEl "Producer" [] (dumpedRefElems nr rs)]) :
        List Element).map cleanEl).filter
      (fun c => c.tag == nsTag "Producer") =
      (match rs with
       | [] => []
       | _ :: _ => [cleanEl (mkEl "Producer" [] (dumpedRefElems nr rs))]) := by
  cases rs <;> simp [cleanEl_tag, tag_mk, mkEl]

theorem msgSigEls_filter_drop (signals : List Signal)
    (nr : List (String × Int)) (u : String)
    (hu1 : ("Multiplex" == u) = false)
    (hu2 : ("Signal" == u) = false) :
    ∀ sigList : List Signal,
      ((dumpedMessageSignalEls signals nr sigList).map cleanEl).filter
        (fun c => c.tag == nsTag u) = []
  | [] => rfl
  | s :: rest => by
      rw [dumpedMessageSignalEls]
      by_cases hm : s.is_multiplexer = true
      · rw [if_pos hm, List.map_cons, List.filter_cons]
        rw [if_neg (by
          rw [cleanEl_tag, tag_mkEl, nsTag_beq, hu1]
          exact fun h => nomatch h)]
        exact msgSigEls_filter_drop signals nr u hu1 hu2 rest
      · rw [if_neg hm]
        cases hids : s.multiplexer_ids with
        | none =>
            rw [List.map_cons, List.filter_cons]
            rw [if_neg (by
              rw [dumpedSignalEl, cleanEl_tag, tag_mkEl, nsTag_beq, hu2]
              exact fun h => nomatch h)]
            exact msgSigEls_filter_drop signals nr u hu1 hu2 rest
        | some ids => exact msgSigEls_filter_drop signals nr u hu1 hu2 rest

theorem msgSigEls_filter_mux (signals : List Signal)
    (nr : List (String × Int)) :
    ∀ sigList : List Signal,
      ((dumpedMessageSignalEls signals nr sigList).map cleanEl).filter
        (fun c => c.tag == nsTag "Multiplex") =
        (sigList.filter (fun s => s.is_multiplexer)).map (fun sel =>
          cleanEl (mkEl "Multiplex" (dumpedSignalAttrs sel)
            (dumpedSignalKids sel nr ++ dumpedMuxGroupEls signals nr sel.name)))
  | [] => rfl
  | s :: rest => by
      rw [dumpedMessageSignalEls, List.filter_cons]
      by_cases hm : s.is_multiplexer = true
      · rw [if_pos hm, List.map_cons, List.filter_cons]
        rw [if_pos (by rw [cleanEl_tag, tag_mkEl]; exact beq_self_eq_true _)]
        rw [if_pos (by rw [hm])]
        rw [List.map_cons, msgSigEls_filter_mux signals nr rest]
      · rw [if_neg hm]
        rw [if_neg hm]
        cases hids : s.multiplexer_ids with
        | none =>
            rw [List.map_cons, List.filter_cons]
            rw [if_neg (by
              rw [dumpedSignalEl, cleanEl_tag, tag_mkEl, nsTag_beq]
              rw [show (("Signal" == "Multiplex") = false) from by decide]
              exact fun h => nomatch h)]
            exact msgSigEls_filter_mux signals nr rest
        | some ids => exact msgSigEls_filter_mux signals nr rest

theorem msgSigEls_filter_signal (signals : List Signal)
    (nr : List (String × Int)) :
    ∀ sigList : List Signal,
      ((dumpedMessageSignalEls signals nr sigList).map cleanEl).filter
        (fun c => c.tag == nsTag "Signal") =
        (sigList.filter (fun s =>
          !s.is_multiplexer && s.multiplexer_ids == none)).map (fun s =>
          cleanEl (dumpedSignalEl s nr))
  | [] => rfl
  | s :: rest => by
      rw [dumpedMessageSignalEls, List.filter_cons]
      by_cases hm : s.is_multiplexer = true
      · rw [if_pos hm, List.map_cons, List.filter_cons]
        rw [if_neg (by
          rw [cleanEl_tag, tag_mkEl, nsTag_beq]
          rw [show (("Multiplex" == "Signal") = false) from by decide]
          exact fun h => nomatch h)]
        rw [if_neg (by rw [hm]; simp)]
        exact msgSigEls_filter_signal signals nr rest
      · rw [if_neg hm]
        have hmf : s.is_multiplexer = false := by
          cases hs : s.is_multiplexer with
          | true => exact absurd hs hm
          | false => rfl
        cases hids : s.multiplexer_ids with
        | none =>
            rw [List.map_cons, List.filter_cons]
            rw [if_pos (by
              rw [dumpedSignalEl, cleanEl_tag, tag_mkEl]
              exact beq_self_eq_true _)]
            rw [if_pos (by rw [hmf]; rfl)]
            rw [List.map_cons, msgSigEls_filter_signal signals nr rest]
        | some ids =>
            rw [if_neg (by rw [hmf]; simp)]
            exact msgSigEls_filter_signal signals nr rest

theorem msgKids_filter_notes (m : Message) (nr : List (String × Int)) :
    ((dumpedMessageKids m nr).map cleanEl).filter
      (fun c => c.tag == nsTag "Notes") =
      (match m.comment with
       | some c => [cleanEl (mkNotes c)]
       | none => []) := by
  rw [dumpedMessageKids, List.map_append, List.filter_append,
    List.map_append, List.filter_append]
  rw [filter_clean_notesChunk_keep,
    filter_clean_producerChunk_drop _ _ _ (by decide),
    msgSigEls_filter_drop m.signals nr "Notes" (by decide) (by decide),
    List.append_nil, List.append_nil]

theorem msgKids_filter_producer (m : Message) (nr : List (String × Int)) :
    ((dumpedMessageKids m nr).map cleanEl).filter
      (fun c => c.tag == nsTag "Producer") =
      (match m.senders with
       | [] => []
       | _ :: _ => [cleanEl (mkEl "Producer" [] (dumpedRefElems nr m.senders))]) := by
  rw [dumpedMessageKids, List.map_append, List.filter_append,
    List.map_append, List.filter_append]
  rw [filter_clean_notesChunk_drop _ _ (by decide),
    filter_clean_producerChunk_keep,
    msgSigEls_filter_drop m.signals nr "Producer" (by decide) (by decide),
    List.nil_append, List.append_nil]

theorem msgKids_filter_mux (m : Message) (nr : List (String × Int)) :
    ((dumpedMessageKids m nr).map cleanEl).filter
      (fun c => c.tag == nsTag "Multiplex") =
      (m.signals.filter (fun s => s.is_multiplexer)).map (fun sel =>
        cleanEl (mkEl "Multiplex" (dumpedSignalAttrs sel)
          (dumpedSignalKids sel nr ++
            dumpedMuxGroupEls m.signals nr sel.name))) := by
  rw [dumpedMessageKids, List.map_append, List.filter_append,
    List.map_append, List.filter_append]
  rw [filter_clean_notesChunk_drop _ _ (by decide),
    filter_clean_producerChunk_drop _ _ _ (by decide),
    msgSigEls_filter_mux m.signals nr m.signals,
    List.nil_append, List.nil_append]

theorem msgKids_filter_signal (m : Message) (nr : List (String × Int)) :
    ((dumpedMessageKids m nr).map cleanEl).filter
      (fun c => c.tag == nsTag "Signal") =
      (m.signals.filter (fun s =>
        !s.is_multiplexer && s.multiplexer_ids == none)).map (fun s =>
        cleanEl (dumpedSignalEl s nr)) := by
  rw [dumpedMessageKids, List.map_append, List.filter_append,
    List.map_append, List.filter_append]
  rw [filter_clean_notesChunk_drop _ _ (by decide),
    filter_clean_producerChunk_drop _ _ _ (by decide),
    msgSigEls_filter_signal m.signals nr m.signals,
    List.nil_append, List.nil_append]

theorem clean_notesStep (o : Option String) (hcm : o ≠ some "") :
    ((match o with
      | some c => [cleanEl (mkNotes c)]
      | none => []).head?.bind Element.text) = o := by
  cases hcom : o with
  | none => rfl
  | some c =>
      have hc : c ≠ "" := fun he => hcm (by rw [hcom, he])
      simp [text_clean_mkNotes hc]

theorem plainRecon (t : Signal) (h1 : t.is_multiplexer = false)
    (h2 : t.multiplexer_ids = none) (h3 : t.multiplexer_signal = none) :
    bareSig t = t := by
  obtain ⟨n1, n2, n3, n4, n5, n6, n7, n8, n9, n10, n11, n12, n13, n14,
    n15, n16, n17⟩ := t
  have hb1 : n15 = false := h1
  have hb2 : n16 = none := h2
  have hb3 : n17 = none := h3
  subst hb1
  subst hb2
  subst hb3
  rfl

theorem loadSignalList_clean (nodes : List Node) :
    ∀ plains : List Signal,
      (∀ t ∈ plains, sigCleanLoadable nodes t ∧
        t.is_multiplexer = false ∧ t.multiplexer_ids = none ∧
        t.multiplexer_signal = none) →
      loadSignalList (nodeTable nodes 1)
        (plains.map (fun t =>
          cleanEl (dumpedSignalEl t (buildNodeRefs nodes)))) = .ok plains
  | [], _ => rfl
  | t :: rest, h => by
      obtain ⟨hl, h1, h2, h3⟩ := h t (List.mem_cons_self _ _)
      rw [List.map_cons, loadSignalList, dumpedSignalEl,
        loadSignalElement_clean_noextra "Signal" hl, okBind,
        loadSignalList_clean nodes rest
          (fun x hx => h x (List.mem_cons_of_mem _ hx)), okBind,
        plainRecon t h1 h2 h3]

theorem loadMultiplexList_clean (nodes : List Node)
    (signals : List Signal) :
    ∀ sels : List Signal,
      (∀ sel ∈ sels, sigCleanLoadable nodes sel ∧
        sel.is_multiplexer = true ∧ sel.multiplexer_ids = none ∧
        sel.multiplexer_signal = none ∧
        (∀ t ∈ muxMembers signals sel.name, sigCleanLoadable nodes t ∧
          t.is_multiplexer = false ∧ t.multiplexer_signal = sel.name ∧
          ∃ v, t.multiplexer_ids = some [v] ∧ muxKeyOf t = v)) →
      loadMultiplexList (nodeTable nodes 1)
        (sels.map (fun sel =>
          cleanEl (mkEl "Multiplex" (dumpedSignalAttrs sel)
            (dumpedSignalKids sel (buildNodeRefs nodes) ++
              dumpedMuxGroupEls signals (buildNodeRefs nodes) sel.name)))) =
        .ok ((sels.map (muxBlockOf signals)).flatten)
  | [], _ => rfl
  | sel :: rest, h => by
      obtain ⟨hl, hm, hi, hs, hmem⟩ := h sel (List.mem_cons_self _ _)
      rw [List.map_cons, loadMultiplexList,
        loadMultiplexElement_clean nodes signals sel hl hm hi hs hmem,
        okBind,
        loadMultiplexList_clean nodes signals rest
          (fun x hx => h x (List.mem_cons_of_mem _ hx)), okBind]
      rfl

theorem loadMessageElement_clean (m : Message) (nodes : List Node)
    (strict : Bool) {fid : Int} {nm : String}
    (hfid : m.frame_id = some fid) (hfid0 : 0 ≤ fid)
    (hnm : m.name = some nm) (hcm : m.comment ≠ some "")
    (hsend : ∀ r ∈ m.senders, ∃ rn, r = some rn ∧
      (lookupA (buildNodeRefs nodes) rn).isSome = true)
    (hbus : m.bus_name = some "Bus") (h255 : m.unused_bit_pattern = 255)
    (hcanon : m.signals = canonicalMuxOrder m.signals)
    (hsels : ∀ sel ∈ m.signals.filter (fun s => s.is_multiplexer),
      sigCleanLoadable nodes sel ∧ sel.is_multiplexer = true ∧
      sel.multiplexer_ids = none ∧ sel.multiplexer_signal = none ∧
      (∀ t ∈ muxMembers m.signals sel.name, sigCleanLoadable nodes t ∧
        t.is_multiplexer = false ∧ t.multiplexer_signal = sel.name ∧
        ∃ v, t.multiplexer_ids = some [v] ∧ muxKeyOf t = v))
    (hplains : ∀ t ∈ m.signals.filter (fun s =>
        !s.is_multiplexer && s.multiplexer_ids == none),
      sigCleanLoadable nodes t ∧ t.is_multiplexer = false ∧
      t.multiplexer_ids = none ∧ t.multiplexer_signal = none) :
    loadMessageElement (cleanEl (dumpedMessageEl m (buildNodeRefs nodes)))
      (some "Bus") (nodeTable nodes 1) strict none = .ok m := by
  rw [dumpedMessageEl, loadMessageElement, attrib_clean_mkEl,
    cleanAttrs_dumpedMessageAttrs, loadMsgAttrs_result m hfid hfid0 hnm,
    okBind]
  simp only [findChild, children_clean_mkEl,
    msgKids_filter_notes m (buildNodeRefs nodes),
    msgKids_filter_producer m (buildNodeRefs nodes),
    msgKids_filter_mux m (buildNodeRefs nodes),
    msgKids_filter_signal m (buildNodeRefs nodes)]
  rw [clean_notesStep m.comment hcm]
  cases hsnd : m.senders with
  | nil =>
      simp only [List.head?_nil, pure_bind]
      rw [loadMultiplexList_clean nodes m.signals
        (m.signals.filter (fun s => s.is_multiplexer)) hsels, okBind,
        loadSignalList_clean nodes
          (m.signals.filter (fun s =>
            !s.is_multiplexer && s.multiplexer_ids == none)) hplains,
        okBind]
      simp only [pyStrOfInt_ne_auto, Bool.false_eq_true, if_false,
        pyIntE_pyStrOfInt, okBind]
      refine congrArg Except.ok ?_
      rw [show (((m.signals.filter (fun s => s.is_multiplexer)).map
          (muxBlockOf m.signals)).flatten ++
          m.signals.filter (fun s =>
            !s.is_multiplexer && s.multiplexer_ids == none)) =
          canonicalMuxOrder m.signals from rfl, ← hcanon,
        ← hfid, ← hnm, ← hbus, ← h255, ← hsnd]
  | cons r0 rs0 =>
      simp only [List.head?_cons, children_clean_mkEl,
        filter_clean_refElems]
      rw [loadNodeRefs_dumped nodes (r0 :: rs0) (hsnd ▸ hsend), okBind]
      rw [loadMultiplexList_clean nodes m.signals
        (m.signals.filter (fun s => s.is_multiplexer)) hsels, okBind,
        loadSignalList_clean nodes
          (m.signals.filter (fun s =>
            !s.is_multiplexer && s.multiplexer_ids == none)) hplains,
        okBind]
      simp only [pyStrOfInt_ne_auto, Bool.false_eq_true, if_false,
        pyIntE_pyStrOfInt, okBind]
      refine congrArg Except.ok ?_
      rw [show (((m.signals.filter (fun s => s.is_multiplexer)).map
          (muxBlockOf m.signals)).flatten ++
          m.signals.filter (fun s =>
            !s.is_multiplexer && s.multiplexer_ids == none)) =
          canonicalMuxOrder m.signals from rfl, ← hcanon,
        ← hfid, ← hnm, ← hbus, ← h255, ← hsnd]

theorem exists_enumFrom_of_mem :
    ∀ (l : List Node) (base : Nat) (n : Node), n ∈ l →
      ∃ p ∈ List.enumFrom base l, p.2 = n
  | [], _, n, h => absurd h (List.not_mem_nil n)
  | x :: rest, base, n, h => by
      rw [List.enumFrom_cons]
      rcases List.mem_cons.mp h with rfl | h2
      · exact ⟨(base, n), List.mem_cons_self _ _, rfl⟩
      · obtain ⟨p, hp, hpe⟩ := exists_enumFrom_of_mem rest (base + 1) n h2
        exact ⟨p, List.mem_cons_of_mem _ hp, hpe⟩

theorem foldl_insertA_lookup_isSome :
    ∀ (l : List (Nat × Node)) (acc : List (String × Int)) (rn : String),
      ((∃ p ∈ l, p.2.name = rn) ∨ (lookupA acc rn).isSome = true) →
      (lookupA (l.foldl (fun a p => insertA a p.2.name ((p.1 : Nat) : Int))
        acc) rn).isSome = true
  | [], acc, rn, h => by
      rcases h with ⟨p, hp, _⟩ | h2
      · exact absurd hp (List.not_mem_nil p)
      · exact h2
  | q :: rest, acc, rn, h => by
      rw [List.foldl_cons]
      apply foldl_insertA_lookup_isSome rest
      rcases h with ⟨p, hp, hname⟩ | h2
      · rcases List.mem_cons.mp hp with rfl | hp2
        · right
          rw [← hname, lookupA_insertA_self]
          rfl
        · exact Or.inl ⟨p, hp2, hname⟩
      · right
        by_cases he : q.2.name = rn
        · rw [← he, lookupA_insertA_self]
          rfl
        · rw [lookupA_insertA_ne acc _ he]
          exact h2

theorem lookupA_buildNodeRefs_isSome (nodes : List Node) (rn : String)
    (h : rn ∈ nodes.map Node.name) :
    (lookupA (buildNodeRefs nodes) rn).isSome = true := by
  rw [buildNodeRefs]
  apply foldl_insertA_lookup_isSome
  left
  obtain ⟨n, hn, rfl⟩ := List.mem_map.mp h
  obtain ⟨p, hp, hpe⟩ := exists_enumFrom_of_mem nodes 1 n hn
  exact ⟨p, hp, by rw [hpe]⟩

theorem bnot_eq_true {b : Bool} (h : (!b) = true) : b = false := by
  cases b
  · rfl
  · exact (nomatch h)

theorem bor_eq_true {a b : Bool} (h : (a || b) = true) :
    a = true ∨ b = true := by
  cases a
  · exact Or.inr h
  · exact Or.inl rfl

theorem band_eq_true {a b : Bool} (h : (a && b) = true) :
    a = true ∧ b = true := by
  cases a
  · exact (nomatch h)
  · exact ⟨rfl, h⟩

theorem normalizedSignalB_parts {nodeNames : List String} {s : Signal}
    (h : normalizedSignalB nodeNames s = true) :
    s.name.isSome = true ∧ s.start.isSome = true ∧
    (s.byte_order = "little_endian" ∨ s.byte_order = "big_endian") ∧
    (s.is_signed && s.is_float) = false ∧
    s.choices ≠ some [] ∧
    (∀ l, s.choices = some l → ((l.map Prod.fst).Nodup)) ∧
    s.comment ≠ some "" ∧
    (∀ r ∈ s.receivers, ∃ rn, r = some rn ∧ rn ∈ nodeNames) ∧
    (s.is_multiplexer = true →
      s.multiplexer_ids = none ∧ s.multiplexer_signal = none) ∧
    (s.is_multiplexer = false → ∀ nm, s.multiplexer_signal = some nm →
      ∃ v, s.multiplexer_ids = some [v]) ∧
    (s.is_multiplexer = false → s.multiplexer_signal = none →
      s.multiplexer_ids = none) := by
  simp only [normalizedSignalB, Bool.and_eq_true] at h
  obtain ⟨⟨⟨⟨⟨⟨⟨h1, h2⟩, h3⟩, h4⟩, h5⟩, h6⟩, h7⟩, h8⟩ := h
  refine ⟨h1, h2, ?_, ?_, ?_, ?_, ?_, ?_, ?_, ?_, ?_⟩
  · rcases bor_eq_true h3 with hb | hb
    · exact Or.inl (eq_of_beq hb)
    · exact Or.inr (eq_of_beq hb)
  · exact bnot_eq_true h4
  · intro he
    rw [he] at h5
    simp at h5
  · intro l hl
    rw [hl] at h5
    cases l with
    | nil => simp at h5
    | cons p ps => exact of_decide_eq_true h5
  · exact beq_eq_false_iff_ne.mp (bnot_eq_true h6)
  · intro r hr
    have hp := List.all_eq_true.mp h7 r hr
    cases r with
    | none => simp at hp
    | some rn =>
        refine ⟨rn, rfl, ?_⟩
        exact List.mem_of_elem_eq_true hp
  · intro hm
    rw [hm] at h8
    simp at h8
    exact h8
  · intro hm nm hnm
    rw [hm] at h8
    simp only [Bool.false_eq_true, if_false, hnm] at h8
    cases hids : s.multiplexer_ids with
    | none => rw [hids] at h8; simp at h8
    | some l =>
        rw [hids] at h8
        cases l with
        | nil => simp at h8
        | cons v vs =>
            cases vs with
            | nil => exact ⟨v, rfl⟩
            | cons w ws => simp at h8
  · intro hm hnm
    rw [hm] at h8
    simp only [Bool.false_eq_true, if_false, hnm] at h8
    exact eq_of_beq h8

theorem normalizedSignal_memberRole {nodeNames : List String} {s : Signal}
    (h : normalizedSignalB nodeNames s = true) {nm : String}
    (hms : s.multiplexer_signal = some nm) :
    s.is_multiplexer = false ∧ ∃ v, s.multiplexer_ids = some [v] := by
  obtain ⟨_, _, _, _, _, _, _, _, hsel, hmem, _⟩ := normalizedSignalB_parts h
  cases hm : s.is_multiplexer with
  | true =>
      have := (hsel hm).2
      rw [this] at hms
      exact (nomatch hms)
  | false => exact ⟨rfl, hmem hm nm hms⟩

theorem normalizedSignal_cleanLoadable {nodes : List Node} {s : Signal}
    (h : normalizedSignalB (nodes.map Node.name) s = true) :
    sigCleanLoadable nodes s := by
  obtain ⟨h1, h2, h3, h4, h5, h6, h7, h8, _⟩ := normalizedSignalB_parts h
  refine ⟨Option.isSome_iff_exists.mp h1, Option.isSome_iff_exists.mp h2, h3,
    ?_, h5, h6, h7, ?_⟩
  · intro hc
    rw [hc.1, hc.2] at h4
    exact (nomatch h4)
  · intro r hr
    obtain ⟨rn, rfl, hmem⟩ := h8 r hr
    exact ⟨rn, rfl, lookupA_buildNodeRefs_isSome nodes rn hmem⟩

theorem normalizedMessageB_parts {nodeNames : List String} {m : Message}
    (h : normalizedMessageB nodeNames m = true) :
    m.name.isSome = true ∧
    (∃ fid, m.frame_id = some fid ∧ 0 ≤ fid) ∧
    m.comment ≠ some "" ∧ m.bus_name = some "Bus" ∧
    (∀ r ∈ m.senders, ∃ rn, r = some rn ∧ rn ∈ nodeNames) ∧
    m.unused_bit_pattern = 255 ∧
    (∀ t ∈ m.signals, normalizedSignalB nodeNames t = true) ∧
    m.signals = canonicalMuxOrder m.signals := by
  simp only [normalizedMessageB, Bool.and_eq_true] at h
  obtain ⟨⟨⟨⟨⟨⟨⟨h1, h2⟩, h3⟩, h4⟩, h5⟩, h6⟩, h7⟩, h8⟩ := h
  refine ⟨h1, ?_, ?_, eq_of_beq h4, ?_, eq_of_beq h6, ?_, eq_of_beq h8⟩
  · cases hf : m.frame_id with
    | none => rw [hf] at h2; simp at h2
    | some f =>
        rw [hf] at h2
        exact ⟨f, rfl, of_decide_eq_true h2⟩
  · exact beq_eq_false_iff_ne.mp (bnot_eq_true h3)
  · intro r hr
    have hp := List.all_eq_true.mp h5 r hr
    cases r with
    | none => simp at hp
    | some rn => exact ⟨rn, rfl, List.mem_of_elem_eq_true hp⟩
  · intro t ht
    exact List.all_eq_true.mp h7 t ht

theorem normalizedMessage_cleanLoadable {nodes : List Node} {m : Message}
    (h : normalizedMessageB (nodes.map Node.name) m = true) :
    msgCleanLoadable nodes m := by
  obtain ⟨h1, h2, h3, h4, h5, h6, h7, h8⟩ := normalizedMessageB_parts h
  obtain ⟨nm, hnm⟩ := Option.isSome_iff_exists.mp h1
  refine ⟨h2, ⟨nm, hnm⟩, h3, ?_, h4, h6, h8, ?_, ?_⟩
  · intro r hr
    obtain ⟨rn, rfl, hmem⟩ := h5 r hr
    exact ⟨rn, rfl, lookupA_buildNodeRefs_isSome nodes rn hmem⟩
  · intro sel hsel
    have hselmem : sel ∈ m.signals := List.mem_of_mem_filter hsel
    have hmux : sel.is_multiplexer = true := List.of_mem_filter hsel
    have hN := h7 sel hselmem
    obtain ⟨_, _, _, _, _, _, _, _, hrole, _, _⟩ := normalizedSignalB_parts hN
    obtain ⟨hidsel, hsigsel⟩ := hrole hmux
    refine ⟨normalizedSignal_cleanLoadable hN, hmux, hidsel, hsigsel, ?_⟩
    intro t ht
    have ht2 : t ∈ m.signals.filter
        (fun x => x.multiplexer_signal == sel.name) := ht
    have htmem : t ∈ m.signals := List.mem_of_mem_filter ht2
    have ht3 := (List.mem_filter.mp ht2).2
    have htsig : t.multiplexer_signal = sel.name := eq_of_beq ht3
    have hNt := h7 t htmem
    obtain ⟨snm, hsnm⟩ :=
      Option.isSome_iff_exists.mp (normalizedSignalB_parts hN).1
    have htsig2 : t.multiplexer_signal = some snm := by rw [htsig, hsnm]
    obtain ⟨htm, v, hv⟩ := normalizedSignal_memberRole hNt htsig2
    refine ⟨normalizedSignal_cleanLoadable hNt, htm, htsig, v, hv, ?_⟩
    rw [muxKeyOf, hv]
    rfl
  · intro t ht
    have htmem : t ∈ m.signals := List.mem_of_mem_filter ht
    have hpt := (List.mem_filter.mp ht).2
    have hparts := band_eq_true hpt
    have htm : t.is_multiplexer = false := bnot_eq_true hparts.1
    have htids : t.multiplexer_ids = none := eq_of_beq hparts.2
    have hNt := h7 t htmem
    cases hms : t.multiplexer_signal with
    | none => exact ⟨normalizedSignal_cleanLoadable hNt, htm, htids, rfl⟩
    | some nm2 =>
        obtain ⟨_, v, hv⟩ := normalizedSignal_memberRole hNt hms
        rw [htids] at hv
        exact (nomatch hv)

theorem normalizedDbB_parts {db : InternalDatabase}
    (h : normalizedDbB db = true) :
    db.buses = [⟨"Bus", 500000⟩] ∧ (∀ n ∈ db.nodes, n.comment = none) ∧
    (∀ m ∈ db.messages,
      normalizedMessageB (db.nodes.map Node.name) m = true) := by
  simp only [normalizedDbB, Bool.and_eq_true] at h
  obtain ⟨⟨hb, hn⟩, hm⟩ := h
  refine ⟨eq_of_beq hb, ?_, ?_⟩
  · intro n hn2
    exact eq_of_beq (List.all_eq_true.mp hn n hn2)
  · intro m hm2
    exact List.all_eq_true.mp hm m hm2

theorem normalizedDb_dumpOk (db : InternalDatabase)
    (h : normalizedDbB db = true) :
    dumpRoot db none = .ok (dumpedRootEl db) := by
  obtain ⟨hb, hn, hm⟩ := normalizedDbB_parts h
  apply dumpRoot_ok
  intro m hmm
  obtain ⟨p1, p2, p3, p4, p5, p6, p7, p8⟩ := normalizedMessageB_parts (hm m hmm)
  obtain ⟨fid, hfid, _⟩ := p2
  refine ⟨⟨by rw [hfid]; rfl, p1⟩, ?_, ?_, ?_, ?_⟩
  · intro r hr
    obtain ⟨rn, rfl, hmem⟩ := p5 r hr
    exact lookupA_buildNodeRefs_isSome db.nodes rn hmem
  · intro t ht
    obtain ⟨q1, q2, _, _, _, _, _, q8, _⟩ := normalizedSignalB_parts (p7 t ht)
    refine ⟨q1, q2, ?_⟩
    intro r hr
    obtain ⟨rn, rfl, hmem⟩ := q8 r hr
    exact lookupA_buildNodeRefs_isSome db.nodes rn hmem
  · intro t ht hms
    cases hmsv : t.multiplexer_signal with
    | none => exact absurd hmsv hms
    | some nm =>
        obtain ⟨_, v, hv⟩ := normalizedSignal_memberRole (p7 t ht) hmsv
        exact ⟨v, [], hv⟩
  · intro t ht hmux hn2
    have q1 := (normalizedSignalB_parts (p7 t ht)).1
    rw [hn2] at q1
    exact (nomatch q1)

theorem plainNotesFlatList_ofList :
    ∀ kids : List Element, (∀ x ∈ kids, plainNotesFlat x) →
      plainNotesFlatList (ElementList.ofList kids)
  | [], _ => True.intro
  | k :: ks, h =>
      ⟨h k (List.mem_cons_self _ _),
       plainNotesFlatList_ofList ks
         (fun x hx => h x (List.mem_cons_of_mem _ hx))⟩

theorem plainNotesFlat_mkEl (t : String) (a : List (String × String))
    (kids : List Element) (ht : t = "Notes" → kids = [])
    (hkids : ∀ x ∈ kids, plainNotesFlat x) :
    plainNotesFlat (mkEl t a kids) :=
  ⟨fun h => by rw [ht h]; rfl, plainNotesFlatList_ofList kids hkids⟩

theorem plainNotesFlat_mkNotes (c : String) : plainNotesFlat (mkNotes c) :=
  ⟨fun _ => rfl, True.intro⟩

theorem plainNotesFlat_all_append {l1 l2 : List Element}
    (h1 : ∀ x ∈ l1, plainNotesFlat x) (h2 : ∀ x ∈ l2, plainNotesFlat x) :
    ∀ x ∈ l1 ++ l2, plainNotesFlat x := by
  intro x hx
  rcases List.mem_append.mp hx with h | h
  · exact h1 x h
  · exact h2 x h

theorem plainNotesFlat_refElems (nr : List (String × Int))
    (rs : List (Option String)) :
    ∀ x ∈ dumpedRefElems nr rs, plainNotesFlat x := by
  intro x hx
  obtain ⟨r, hr, rfl⟩ := List.mem_map.mp hx
  exact plainNotesFlat_mkEl _ _ _ (fun h2 => absurd h2 (by decide))
    (fun y hy => absurd hy (List.not_mem_nil y))

theorem plainNotesFlat_notesChunk (o : Option String) :
    ∀ x ∈ ((match o with
             | some c => [mkNotes c]
             | none => []) : List Element), plainNotesFlat x := by
  cases o with
  | none => intro x hx; exact absurd hx (List.not_mem_nil x)
  | some c =>
      intro x hx
      obtain rfl := List.mem_singleton.mp hx
      exact plainNotesFlat_mkNotes c

theorem plainNotesFlat_consumerChunk (rs : List (Option String))
    (nr : List (String × Int)) :
    ∀ x ∈ ((match rs with
             | [] => []
             | _ :: _ => [mkEl "Consumer" [] (dumpedRefElems nr rs)]) :
              List Element), plainNotesFlat x := by
  cases rs with
  | nil => intro x hx; exact absurd hx (List.not_mem_nil x)
  | cons a b =>
      intro x hx
      obtain rfl := List.mem_singleton.mp hx
      exact plainNotesFlat_mkEl _ _ _ (fun h2 => absurd h2 (by decide))
        (plainNotesFlat_refElems nr (a :: b))

theorem plainNotesFlat_valueChunk (s : Signal) :
    ∀ x ∈ ((if valueAttrsOf s ≠ [] then [mkEl "Value" (valueAttrsOf s) []]
            else []) : List Element), plainNotesFlat x := by
  by_cases h : valueAttrsOf s ≠ []
  · rw [if_pos h]
    intro x hx
    obtain rfl := List.mem_singleton.mp hx
    exact plainNotesFlat_mkEl _ _ _ (fun h2 => absurd h2 (by decide))
      (fun y hy => absurd hy (List.not_mem_nil y))
  · rw [if_neg h]
    intro x hx
    exact absurd hx (List.not_mem_nil x)

theorem plainNotesFlat_labelChunk (o : Option (List (Int × String))) :
    ∀ x ∈ ((match o with
             | some (c :: cs) =>
                 [mkEl "LabelSet" []
                   ((c :: cs).map (fun p =>
                     mkEl "Label" [("name", p.2), ("value", pyStrOfInt p.1)]
                       []))]
             | _ => []) : List Element), plainNotesFlat x := by
  rcases o with _ | (_ | ⟨c, cs⟩)
  · intro x hx; exact absurd hx (List.not_mem_nil x)
  · intro x hx; exact absurd hx (List.not_mem_nil x)
  · intro x hx
    obtain rfl := List.mem_singleton.mp hx
    refine plainNotesFlat_mkEl _ _ _ (fun h2 => absurd h2 (by decide)) ?_
    intro y hy
    obtain ⟨p, hp, rfl⟩ := List.mem_map.mp hy
    exact plainNotesFlat_mkEl _ _ _ (fun h2 => absurd h2 (by decide))
      (fun z hz => absurd hz (List.not_mem_nil z))

theorem plainNotesFlat_dumpedSignalKids (s : Signal)
    (nr : List (String × Int)) :
    ∀ x ∈ dumpedSignalKids s nr, plainNotesFlat x := by
  rw [dumpedSignalKids]
  exact plainNotesFlat_all_append
    (plainNotesFlat_all_append
      (plainNotesFlat_all_append (plainNotesFlat_notesChunk s.comment)
        (plainNotesFlat_consumerChunk s.receivers nr))
      (plainNotesFlat_valueChunk s))
    (plainNotesFlat_labelChunk s.choices)

theorem plainNotesFlat_dumpedSignalEl (s : Signal)
    (nr : List (String × Int)) : plainNotesFlat (dumpedSignalEl s nr) :=
  plainNotesFlat_mkEl _ _ _ (fun h2 => absurd h2 (by decide))
    (plainNotesFlat_dumpedSignalKids s nr)

theorem plainNotesFlat_muxGroupEls (signals : List Signal)
    (nr : List (String × Int)) (selname : Option String) :
    ∀ x ∈ dumpedMuxGroupEls signals nr selname, plainNotesFlat x := by
  intro x hx
  obtain ⟨g, hg, rfl⟩ := List.mem_map.mp hx
  refine plainNotesFlat_mkEl _ _ _ (fun h2 => absurd h2 (by decide)) ?_
  intro y hy
  obtain ⟨t, ht, rfl⟩ := List.mem_map.mp hy
  exact plainNotesFlat_dumpedSignalEl t nr

theorem plainNotesFlat_msgSigEls (signals : List Signal)
    (nr : List (String × Int)) :
    ∀ sigList : List Signal,
      ∀ x ∈ dumpedMessageSignalEls signals nr sigList, plainNotesFlat x
  | [] => by intro x hx; exact absurd hx (List.not_mem_nil x)
  | s :: rest => by
      rw [dumpedMessageSignalEls]
      by_cases hm : s.is_multiplexer = true
      · rw [if_pos hm]
        intro x hx
        rcases List.mem_cons.mp hx with rfl | h2
        · exact plainNotesFlat_mkEl _ _ _ (fun h2 => absurd h2 (by decide))
            (plainNotesFlat_all_append
              (plainNotesFlat_dumpedSignalKids s nr)
              (plainNotesFlat_muxGroupEls signals nr s.name))
        · exact plainNotesFlat_msgSigEls signals nr rest x h2
      · rw [if_neg hm]
        cases hids : s.multiplexer_ids with
        | none =>
            intro x hx
            rcases List.mem_cons.mp hx with rfl | h2
            · exact plainNotesFlat_dumpedSignalEl s nr
            · exact plainNotesFlat_msgSigEls signals nr rest x h2
        | some ids => exact plainNotesFlat_msgSigEls signals nr rest

theorem plainNotesFlat_producerChunk (rs : List (Option String))
    (nr : List (String × Int)) :
    ∀ x ∈ ((match rs with
             | [] => []
             | _ :: _ => [mkEl "Producer" [] (dumpedRefElems nr rs)]) :
              List Element), plainNotesFlat x := by
  cases rs with
  | nil => intro x hx; exact absurd hx (List.not_mem_nil x)
  | cons a b =>
      intro x hx
      obtain rfl := List.mem_singleton.mp hx
      exact plainNotesFlat_mkEl _ _ _ (fun h2 => absurd h2 (by decide))
        (plainNotesFlat_refElems nr (a :: b))

theorem plainNotesFlat_dumpedMessageEl (m : Message)
    (nr : List (String × Int)) :
    plainNotesFlat (dumpedMessageEl m nr) := by
  refine plainNotesFlat_mkEl _ _ _ (fun h2 => absurd h2 (by decide)) ?_
  rw [dumpedMessageKids]
  exact plainNotesFlat_all_append
    (plainNotesFlat_all_append (plainNotesFlat_notesChunk m.comment)
      (plainNotesFlat_producerChunk m.senders nr))
    (plainNotesFlat_msgSigEls m.signals nr m.signals)

theorem plainNotesFlat_nodeElems (nodes : List Node) :
    ∀ x ∈ dumpNodeElems nodes, plainNotesFlat x := by
  intro x hx
  obtain ⟨p, hp, rfl⟩ := List.mem_map.mp hx
  exact plainNotesFlat_mkEl _ _ _ (fun h2 => absurd h2 (by decide))
    (fun y hy => absurd hy (List.not_mem_nil y))

theorem plainNotesFlat_versionChunk (o : Option String) :
    ∀ x ∈ ((match o with
             | some v => [mkEl "Document" [("version", v)] []]
             | none => []) : List Element), plainNotesFlat x := by
  cases o with
  | none => intro x hx; exact absurd hx (List.not_mem_nil x)
  | some v =>
      intro x hx
      obtain rfl := List.mem_singleton.mp hx
      exact plainNotesFlat_mkEl _ _ _ (fun h2 => absurd h2 (by decide))
        (fun y hy => absurd hy (List.not_mem_nil y))

theorem plainNotesFlat_dumpedRootEl (db : InternalDatabase) :
    plainNotesFlat (dumpedRootEl db) := by
  rw [dumpedRootEl]
  refine plainNotesFlat_mkEl _ _ _ (fun h2 => absurd h2 (by decide)) ?_
  refine plainNotesFlat_all_append
    (plainNotesFlat_all_append (plainNotesFlat_versionChunk db.version)
      (plainNotesFlat_nodeElems db.nodes)) ?_
  intro x hx
  obtain rfl := List.mem_singleton.mp hx
  refine plainNotesFlat_mkEl _ _ _ (fun h2 => absurd h2 (by decide)) ?_
  intro y hy
  obtain ⟨m, hm, rfl⟩ := List.mem_map.mp hy
  exact plainNotesFlat_dumpedMessageEl m (buildNodeRefs db.nodes)

theorem childrenWithTag_mkEl (t : String) (a : List (String × String))
    (kids : List Element) (u : String) :
    childrenWithTag (mkEl t a kids) u = kids.filter (fun c => c.tag == u) := by
  rw [mkEl, childrenWithTag_mkOf]

theorem loadMessagesOfBus_clean (nodes : List Node) (strict : Bool) :
    ∀ msgs : List Message, (∀ m ∈ msgs, msgCleanLoadable nodes m) →
      loadMessagesOfBus "Bus" (nodeTable nodes 1) strict none
        ((msgs.map (fun m =>
          dumpedMessageEl m (buildNodeRefs nodes))).map cleanEl) = .ok msgs
  | [], _ => rfl
  | m :: rest, h => by
      obtain ⟨⟨fid, hfid, hfid0⟩, ⟨nm, hnm⟩, hcm, hsend, hbus, h255,
        hcanon, hsels, hplains⟩ := h m (List.mem_cons_self _ _)
      rw [List.map_cons, List.map_cons, loadMessagesOfBus,
        loadMessageElement_clean m nodes strict hfid hfid0 hnm hcm hsend
          hbus h255 hcanon hsels hplains, okBind,
        loadMessagesOfBus_clean nodes strict rest
          (fun x hx => h x (List.mem_cons_of_mem _ hx)), okBind]

theorem filter_clean_msgEls (nr : List (String × Int))
    (msgs : List Message) :
    (((msgs.map (fun m => dumpedMessageEl m nr)).map cleanEl).filter
      (fun c => c.tag == nsTag "Message")) =
      (msgs.map (fun m => dumpedMessageEl m nr)).map cleanEl := by
  rw [List.filter_eq_self]
  intro c hc
  obtain ⟨x, hx, rfl⟩ := List.mem_map.mp hc
  obtain ⟨m, hm, rfl⟩ := List.mem_map.mp hx
  rw [dumpedMessageEl, cleanEl_tag, tag_mkEl]
  exact beq_self_eq_true _

theorem loadBusList_clean (db : InternalDatabase) (strict : Bool)
    (hmsgs : ∀ m ∈ db.messages, msgCleanLoadable db.nodes m) :
    loadBusList (nodeTable db.nodes 1) strict none
      [cleanEl (mkEl "Bus" [("name", "Bus")]
        (db.messages.map (fun m =>
          dumpedMessageEl m (buildNodeRefs db.nodes))))] =
      .ok ([⟨"Bus", 500000⟩], db.messages) := by
  rw [loadBusList, attrib_clean_mkEl]
  rw [show cleanAttrs [("name", "Bus")] = [("name", "Bus")] from rfl]
  simp only [show lookupA [("name", "Bus")] "name" = some "Bus" from
    by simp [lookupA]]
  simp only [show lookupA [("name", "Bus")] "baudrate" = none from
    by simp [lookupA]]
  simp only [pure_bind, children_clean_mkEl, filter_clean_msgEls]
  rw [loadMessagesOfBus_clean db.nodes strict db.messages hmsgs, okBind]
  rw [show loadBusList (nodeTable db.nodes 1) strict none [] =
    .ok ([], []) from rfl, okBind]
  simp only [List.append_nil]

theorem filter_clean_versionChunk_drop (o : Option String) (u : String)
    (hu : ("Document" == u) = false) :
    (((match o with
       | some v => [mkEl "Document" [("version", v)] []]
       | none => []) : List Element).map cleanEl).filter
      (fun c => c.tag == nsTag u) = [] := by
  cases o <;> simp [cleanEl_tag, tag_mk, mkEl, nsTag_ne _ _ hu]

theorem filter_clean_versionChunk_keep (o : Option String) :
    (((match o with
       | some v => [mkEl "Document" [("version", v)] []]
       | none => []) : List Element).map cleanEl).filter
      (fun c => c.tag == nsTag "Document") =
      (match o with
       | some v => [cleanEl (mkEl "Document" [("version", v)] [])]
       | none => []) := by
  cases o <;> simp [cleanEl_tag, tag_mk, mkEl]

theorem filter_clean_nodeElems_drop (nodes : List Node) (u : String)
    (hu : ("Node" == u) = false) :
    ((dumpNodeElems nodes).map cleanEl).filter
      (fun c => c.tag == nsTag u) = [] := by
  rw [List.filter_eq_nil]
  intro c hc
  obtain ⟨x, hx, rfl⟩ := List.mem_map.mp hc
  obtain ⟨p, hp, rfl⟩ := List.mem_map.mp hx
  rw [cleanEl_tag, tag_mkEl, nsTag_beq, hu]
  exact fun h => nomatch h

theorem filter_clean_nodeElems_keep (nodes : List Node) :
    ((dumpNodeElems nodes).map cleanEl).filter
      (fun c => c.tag == nsTag "Node") = (dumpNodeElems nodes).map cleanEl := by
  rw [List.filter_eq_self]
  intro c hc
  obtain ⟨x, hx, rfl⟩ := List.mem_map.mp hc
  obtain ⟨p, hp, rfl⟩ := List.mem_map.mp hx
  rw [cleanEl_tag, tag_mkEl]
  exact beq_self_eq_true _

theorem filter_clean_busKid_drop (a : List (String × String))
    (kids : List Element) (u : String) (hu : ("Bus" == u) = false) :
    (([mkEl "Bus" a kids] : List Element).map cleanEl).filter
      (fun c => c.tag == nsTag u) = [] := by
  simp [cleanEl_tag, tag_mk, mkEl, nsTag_ne _ _ hu]

theorem filter_clean_busKid_keep (a : List (String × String))
    (kids : List Element) :
    (([mkEl "Bus" a kids] : List Element).map cleanEl).filter
      (fun c => c.tag == nsTag "Bus") = [cleanEl (mkEl "Bus" a kids)] := by
  simp [cleanEl_tag, tag_mk, mkEl]

theorem rootKids_filter_node (db : InternalDatabase) :
    ((((match db.version with
        | some v => [mkEl "Document" [("version", v)] []]
        | none => []) ++ dumpNodeElems db.nodes ++
        [mkEl "Bus" [("name", "Bus")]
          (db.messages.map (fun m =>
            dumpedMessageEl m (buildNodeRefs db.nodes)))]).map
          cleanEl).filter (fun c => c.tag == nsTag "Node")) =
      (dumpNodeElems db.nodes).map cleanEl := by
  rw [List.map_append, List.filter_append, List.map_append,
    List.filter_append]
  rw [filter_clean_versionChunk_drop _ _ (by decide),
    filter_clean_nodeElems_keep,
    filter_clean_busKid_drop _ _ _ (by decide),
    List.nil_append, List.append_nil]

theorem rootKids_filter_document (db : InternalDatabase) :
    ((((match db.version with
        | some v => [mkEl "Document" [("version", v)] []]
        | none => []) ++ dumpNodeElems db.nodes ++
        [mkEl "Bus" [("name", "Bus")]
          (db.messages.map (fun m =>
            dumpedMessageEl m (buildNodeRefs db.nodes)))]).map
          cleanEl).filter (fun c => c.tag == nsTag "Document")) =
      (match db.version with
       | some v => [cleanEl (mkEl "Document" [("version", v)] [])]
       | none => []) := by
  rw [List.map_append, List.filter_append, List.map_append,
    List.filter_append]
  rw [filter_clean_versionChunk_keep,
    filter_clean_nodeElems_drop _ _ (by decide),
    filter_clean_busKid_drop _ _ _ (by decide),
    List.append_nil, List.append_nil]

theorem rootKids_filter_bus (db : InternalDatabase) :
    ((((match db.version with
        | some v => [mkEl "Document" [("version", v)] []]
        | none => []) ++ dumpNodeElems db.nodes ++
        [mkEl "Bus" [("name", "Bus")]
          (db.messages.map (fun m =>
            dumpedMessageEl m (buildNodeRefs db.nodes)))]).map
          cleanEl).filter (fun c => c.tag == nsTag "Bus")) =
      [cleanEl (mkEl "Bus" [("name", "Bus")]
        (db.messages.map (fun m =>
          dumpedMessageEl m (buildNodeRefs db.nodes))))] := by
  rw [List.map_append, List.filter_append, List.map_append,
    List.filter_append]
  rw [filter_clean_versionChunk_drop _ _ (by decide),
    filter_clean_nodeElems_drop _ _ (by decide),
    filter_clean_busKid_keep,
    List.nil_append, List.nil_append]

theorem clean_nodeTable (nodes : List Node) :
    ((dumpNodeElems nodes).map cleanEl).map Element.attrib =
      nodeTable nodes 1 := by
  rw [dumpNodeElems, List.map_map, List.map_map,
    ← nodeTable_enumFrom nodes 1]
  refine List.map_congr_left (fun p hp => ?_)
  rfl

theorem clean_versionStep (o : Option String) :
    (match (match o with
            | some v => [cleanEl (mkEl "Document" [("version", v)] [])]
            | none => []).head? with
     | some document => lookupA document.attrib "version"
     | none => none) = o := by
  cases o <;> rfl

theorem loadString_clean (db : InternalDatabase) (strict : Bool)
    (hnodes : ∀ n ∈ db.nodes, n.comment = none)
    (hmsgs : ∀ m ∈ db.messages, msgCleanLoadable db.nodes m)
    (hbuses : db.buses = [⟨"Bus", 500000⟩]) :
    loadString (cleanEl (dumpedRootEl db)) strict none = .ok db := by
  rw [loadString, dumpedRootEl]
  rw [cleanEl_tag, tag_mkEl]
  rw [if_neg (show ¬ nsTag "NetworkDefinition" ≠ ROOT_TAG from
    fun h => h rfl)]
  simp only [findChild, children_clean_mkEl, rootKids_filter_node,
    rootKids_filter_document, rootKids_filter_bus, clean_nodeTable,
    clean_versionStep]
  rw [loadBusList_clean db strict hmsgs, okBind]
  simp only []
  rw [mkNodes_nodeTable db.nodes 1 hnodes, okBind]
  rw [← hbuses]

theorem raw_notesChunk_drop (o : Option String) (u : String)
    (hu : ("Notes" == u) = false) :
    (((match o with
       | some c => [mkNotes c]
       | none => []) : List Element).filter (fun c => c.tag == u)) = [] := by
  cases o <;> simp [mkNotes, tag_mk, hu]

theorem raw_producerChunk_drop (rs : List (Option String))
    (nr : List (String × Int)) (u : String)
    (hu : ("Producer" == u) = false) :
    (((match rs with
       | [] => []
       | _ :: _ => [mkEl "Producer" [] (dumpedRefElems nr rs)]) :
        List Element).filter (fun c => c.tag == u)) = [] := by
  cases rs <;> simp [mkEl, tag_mk, hu]

theorem raw_consumerChunk_drop (rs : List (Option String))
    (nr : List (String × Int)) (u : String)
    (hu : ("Consumer" == u) = false) :
    (((match rs with
       | [] => []
       | _ :: _ => [mkEl "Consumer" [] (dumpedRefElems nr rs)]) :
        List Element).filter (fun c => c.tag == u)) = [] := by
  cases rs <;> simp [mkEl, tag_mk, hu]

theorem raw_valueChunk_drop (s : Signal) (u : String)
    (hu : ("Value" == u) = false) :
    (((if valueAttrsOf s ≠ [] then [mkEl "Value" (valueAttrsOf s) []]
       else []) : List Element).filter (fun c => c.tag == u)) = [] := by
  by_cases h : valueAttrsOf s ≠ [] <;> simp [h, mkEl, tag_mk, hu]

theorem raw_labelChunk_drop (o : Option (List (Int × String))) (u : String)
    (hu : ("LabelSet" == u) = false) :
    (((match o with
       | some (c :: cs) =>
           [mkEl "LabelSet" []
             ((c :: cs).map (fun p =>
               mkEl "Label" [("name", p.2), ("value", pyStrOfInt p.1)] []))]
       | _ => []) : List Element).filter (fun c => c.tag == u)) = [] := by
  rcases o with _ | (_ | ⟨c, cs⟩) <;> simp [mkEl, tag_mk, hu]

theorem sigKids_raw_muxGroup (s : Signal) (nr : List (String × Int)) :
    (dumpedSignalKids s nr).filter (fun c => c.tag == "MuxGroup") = [] := by
  rw [dumpedSignalKids, List.filter_append, List.filter_append,
    List.filter_append]
  rw [raw_notesChunk_drop s.comment "MuxGroup" (by decide),
    raw_consumerChunk_drop s.receivers nr "MuxGroup" (by decide),
    raw_valueChunk_drop s "MuxGroup" (by decide),
    raw_labelChunk_drop s.choices "MuxGroup" (by decide)]
  rfl

theorem muxGroupEls_raw_keep (signals : List Signal)
    (nr : List (String × Int)) (selname : Option String) :
    (dumpedMuxGroupEls signals nr selname).filter
      (fun c => c.tag == "MuxGroup") =
      dumpedMuxGroupEls signals nr selname := by
  rw [List.filter_eq_self]
  intro c hc
  obtain ⟨g, hg, rfl⟩ := List.mem_map.mp hc
  rw [tag_mkEl]
  exact beq_self_eq_true _

theorem sigEls_raw_signal_keep (ts : List Signal)
    (nr : List (String × Int)) :
    (ts.map (fun t => dumpedSignalEl t nr)).filter
      (fun c => c.tag == "Signal") =
      ts.map (fun t => dumpedSignalEl t nr) := by
  rw [List.filter_eq_self]
  intro c hc
  obtain ⟨t, ht, rfl⟩ := List.mem_map.mp hc
  rw [dumpedSignalEl, tag_mkEl]
  exact beq_self_eq_true _

theorem msgSigEls_raw_mux (signals : List Signal)
    (nr : List (String × Int)) :
    ∀ sigList : List Signal,
      (dumpedMessageSignalEls signals nr sigList).filter
        (fun c => c.tag == "Multiplex") =
        (sigList.filter (fun s => s.is_multiplexer)).map (fun sel =>
          mkEl "Multiplex" (dumpedSignalAttrs sel)
            (dumpedSignalKids sel nr ++ dumpedMuxGroupEls signals nr sel.name))
  | [] => rfl
  | s :: rest => by
      rw [dumpedMessageSignalEls, List.filter_cons]
      by_cases hm : s.is_multiplexer = true
      · rw [if_pos hm, List.filter_cons]
        rw [if_pos (by rw [tag_mkEl]; exact beq_self_eq_true _)]
        rw [if_pos (by rw [hm])]
        rw [List.map_cons, msgSigEls_raw_mux signals nr rest]
      · rw [if_neg hm]
        rw [if_neg hm]
        cases hids : s.multiplexer_ids with
        | none =>
            rw [List.filter_cons]
            rw [if_neg (by
              rw [dumpedSignalEl, tag_mkEl]
              rw [show (("Signal" == "Multiplex") = false) from by decide]
              exact fun h => nomatch h)]
            exact msgSigEls_raw_mux signals nr rest
        | some ids => exact msgSigEls_raw_mux signals nr rest

theorem msgKids_raw_mux (m : Message) (nr : List (String × Int)) :
    (dumpedMessageKids m nr).filter (fun c => c.tag == "Multiplex") =
      (m.signals.filter (fun s => s.is_multiplexer)).map (fun sel =>
        mkEl "Multiplex" (dumpedSignalAttrs sel)
          (dumpedSignalKids sel nr ++
            dumpedMuxGroupEls m.signals nr sel.name)) := by
  rw [dumpedMessageKids, List.filter_append, List.filter_append]
  rw [raw_notesChunk_drop m.comment "Multiplex" (by decide),
    raw_producerChunk_drop m.senders nr "Multiplex" (by decide),
    msgSigEls_raw_mux m.signals nr m.signals,
    List.nil_append, List.nil_append]

theorem lookupA_dumpedSignalAttrs_name (s : Signal) :
    lookupA (dumpedSignalAttrs s) "name" = some (s.name.getD "") := by
  rw [dumpedSignalAttrs]
  by_cases h1 : s.length ≠ 1 <;>
    by_cases h2 : s.byte_order ≠ "little_endian" <;>
      simp [h1, h2, lookupA]

theorem muxGroupsView_dumpedMux (sel : Signal) (signals : List Signal)
    (nr : List (String × Int))
    (hnames : ∀ t ∈ muxMembers signals sel.name, t.name.isSome = true) :
    muxGroupsView (mkEl "Multiplex" (dumpedSignalAttrs sel)
        (dumpedSignalKids sel nr ++ dumpedMuxGroupEls signals nr sel.name)) =
      (groupByMuxKey (muxMembers signals sel.name)).map
        (fun g => (pyStrOfInt g.1, g.2.map Signal.name)) := by
  rw [muxGroupsView, childrenWithTag_mkEl, List.filter_append,
    sigKids_raw_muxGroup, muxGroupEls_raw_keep, List.nil_append]
  rw [dumpedMuxGroupEls, List.map_map]
  refine List.map_congr_left (fun g hg => ?_)
  show ((lookupA (mkEl "MuxGroup" [("count", pyStrOfInt g.1)]
      (g.2.map (fun t => dumpedSignalEl t nr))).attrib "count").getD "",
    (childrenWithTag (mkEl "MuxGroup" [("count", pyStrOfInt g.1)]
      (g.2.map (fun t => dumpedSignalEl t nr))) "Signal").map
        (fun s => lookupA s.attrib "name")) =
    (pyStrOfInt g.1, g.2.map Signal.name)
  rw [childrenWithTag_mkEl, sigEls_raw_signal_keep]
  rw [show (mkEl "MuxGroup" [("count", pyStrOfInt g.1)]
      (g.2.map (fun t => dumpedSignalEl t nr))).attrib =
      [("count", pyStrOfInt g.1)] from rfl]
  rw [show lookupA [("count", pyStrOfInt g.1)] "count" =
      some (pyStrOfInt g.1) from by simp [lookupA], Option.getD_some]
  rw [List.map_map]
  refine congrArg (Prod.mk _) ?_
  refine List.map_congr_left (fun t ht => ?_)
  obtain ⟨tn, htn⟩ := Option.isSome_iff_exists.mp
    (hnames t (mem_groupByMuxKey hg t ht))
  show lookupA (dumpedSignalEl t nr).attrib "name" = t.name
  rw [show (dumpedSignalEl t nr).attrib = dumpedSignalAttrs t from rfl,
    lookupA_dumpedSignalAttrs_name, htn]
  rfl

/-- C8: multiplexer round trip. For a normalized message carrying exactly
one selector signal, (i) the dumped message element contains exactly one
`Multiplex` child, and its `MuxGroup` children exhibit, per first-seen
selector value, the member signals in original document order — exactly
the model's grouping of the members (those sharing the selector's name)
by their singleton selector value; (ii) that grouping is the message's
multiplexer structure; (iii) reloading the dumped element reproduces the
message record — grouping and selector linkage included — exactly. -/
theorem claim_c8_mux_round_trip (m : Message) (nodes : List Node)
    (strict : Bool) (sel : Signal)
    (hnorm : normalizedMessageB (nodes.map Node.name) m = true)
    (hsel : m.signals.filter (fun s => s.is_multiplexer) = [sel]) :
    (childrenWithTag (dumpedMessageEl m (buildNodeRefs nodes))
        "Multiplex").map muxGroupsView =
      [(groupByMuxKey (muxMembers m.signals sel.name)).map
        (fun g => (pyStrOfInt g.1, g.2.map Signal.name))] ∧
    muxStructure m = some (sel.name,
      (groupByMuxKey (muxMembers m.signals sel.name)).map
        (fun g => (g.1, g.2.map Signal.name))) ∧
    loadMessageElement (cleanEl (dumpedMessageEl m (buildNodeRefs nodes)))
      (some "Bus") (nodeTable nodes 1) strict none = .ok m := by
  have h7 := (normalizedMessageB_parts hnorm).2.2.2.2.2.2.1
  have hnames : ∀ t ∈ muxMembers m.signals sel.name,
      t.name.isSome = true := by
    intro t ht
    exact (normalizedSignalB_parts (h7 t (mem_muxMembers ht))).1
  refine ⟨?_, ?_, ?_⟩
  · rw [dumpedMessageEl, childrenWithTag_mkEl, msgKids_raw_mux]
    simp only [hsel, List.map_cons, List.map_nil]
    rw [muxGroupsView_dumpedMux sel m.signals (buildNodeRefs nodes) hnames]
  · rw [muxStructure]
    simp only [hsel]
  · obtain ⟨⟨fid, hfid, hfid0⟩, ⟨nm, hnm⟩, hcm, hsend, hbus, h255,
      hcanon, hsels, hplains⟩ := normalizedMessage_cleanLoadable hnorm
    exact loadMessageElement_clean m nodes strict hfid hfid0 hnm hcm hsend
      hbus h255 hcanon hsels hplains

/-- C8 witness: the claim's own example — one selector `S` with groups
(value 0 → signals A, B; value 1 → signals C, D) — dumped and reloaded
reproduces the message exactly. -/
theorem claim_c8_witness :
    normalizedMessageB (List.map Node.name ([] : List Node))
      ⟨some 1, false, some "M", 3, 255, [], none,
        [⟨some "S", some 0, 4, "little_endian", false, false, 1, 0, none,
           none, none, none, none, [], true, none, none⟩,
         ⟨some "A", some 4, 4, "little_endian", false, false, 1, 0, none,
           none, none, none, none, [], false, some [0], some "S"⟩,
         ⟨some "B", some 8, 4, "little_endian", false, false, 1, 0, none,
           none, none, none, none, [], false, some [0], some "S"⟩,
         ⟨some "C", some 12, 4, "little_endian", false, false, 1, 0, none,
           none, none, none, none, [], false, some [1], some "S"⟩,
         ⟨some "D", some 16, 4, "little_endian", false, false, 1, 0, none,
           none, none, none, none, [], false, some [1], some "S"⟩],
        none, some "Bus"⟩ = true ∧
    loadMessageElement (cleanEl (dumpedMessageEl
        ⟨some 1, false, some "M", 3, 255, [], none,
          [⟨some "S", some 0, 4, "little_endian", false, false, 1, 0, none,
             none, none, none, none, [], true, none, none⟩,
           ⟨some "A", some 4, 4, "little_endian", false, false, 1, 0, none,
             none, none, none, none, [], false, some [0], some "S"⟩,
           ⟨some "B", some 8, 4, "little_endian", false, false, 1, 0, none,
             none, none, none, none, [], false, some [0], some "S"⟩,
           ⟨some "C", some 12, 4, "little_endian", false, false, 1, 0, none,
             none, none, none, none, [], false, some [1], some "S"⟩,
           ⟨some "D", some 16, 4, "little_endian", false, false, 1, 0, none,
             none, none, none, none, [], false, some [1], some "S"⟩],
          none, some "Bus"⟩ (buildNodeRefs [])))
      (some "Bus") (nodeTable [] 1) false none = .ok
        ⟨some 1, false, some "M", 3, 255, [], none,
          [⟨some "S", some 0, 4, "little_endian", false, false, 1, 0, none,
             none, none, none, none, [], true, none, none⟩,
           ⟨some "A", some 4, 4, "little_endian", false, false, 1, 0, none,
             none, none, none, none, [], false, some [0], some "S"⟩,
           ⟨some "B", some 8, 4, "little_endian", false, false, 1, 0, none,
             none, none, none, none, [], false, some [0], some "S"⟩,
           ⟨some "C", some 12, 4, "little_endian", false, false, 1, 0, none,
             none, none, none, none, [], false, some [1], some "S"⟩,
           ⟨some "D", some 16, 4, "little_endian", false, false, 1, 0, none,
             none, none, none, none, [], false, some [1], some "S"⟩],
          none, some "Bus"⟩ :=
  ⟨by decide,
   (claim_c8_mux_round_trip _ [] false
     ⟨some "S", some 0, 4, "little_endian", false, false, 1, 0, none,
       none, none, none, none, [], true, none, none⟩
     (by decide) (by decide)).2.2⟩

/-- C9 counterexample: the unrestricted round-trip claim fails. A model
with the single bus `Main` at 250000 baud — directly producible by the
builders — reloads with its bus renamed to the dumper's fixed `Bus` at
the default 500000 baud rate: a change that is not a collapse of field
defaults. -/
theorem claim_c9_counterexample :
    roundTrip ⟨[], [], [⟨"Main", 250000⟩], none⟩ none none false =
      .ok ⟨[], [], [⟨"Bus", 500000⟩], none⟩ ∧
    ([⟨"Bus", 500000⟩] : List Bus) ≠ [⟨"Main", 250000⟩] := by
  refine ⟨?_, by decide⟩
  rfl

/-- C9: full-document round trip on the normalized class. For every
model whose buses are the dumper's single `Bus` at 500000 baud, whose
nodes are comment-free, and whose messages are normalized (present names
and non-negative frame ids, no empty comment strings, resolvable
references, normalized signals, signal lists already in the canonical
multiplexer-block order a load produces), loading the dumped document —
indentation, serialization and namespace qualification included —
reproduces the model exactly. -/
theorem claim_c9_round_trip (db : InternalDatabase) (strict : Bool)
    (hnorm : normalizedDbB db = true) :
    roundTrip db none none strict = .ok db := by
  obtain ⟨hb, hn, hm⟩ := normalizedDbB_parts hnorm
  rw [roundTrip, dumpString, normalizedDb_dumpOk db hnorm]
  show loadString (reparse (indentXml "  " (dumpedRootEl db) 0))
    strict none = .ok db
  rw [← loadString_stripWs (notesFlat_reparse _
    (plainNotesFlat_indent "  " (dumpedRootEl db) 0
      (plainNotesFlat_dumpedRootEl db))) strict none]
  rw [strip_reparse_indent "  " (dumpedRootEl db) 0]
  exact loadString_clean db strict hn
    (fun m hm2 => normalizedMessage_cleanLoadable (hm m hm2)) hb

/-- C9 witness: a normalized one-node, one-message, one-signal model
with a version string round trips exactly. -/
theorem claim_c9_witness :
    normalizedDbB ⟨[⟨some 1, false, some "M", 1, 255, [some "ECU"], none,
        [⟨some "Sig", some 0, 1, "little_endian", false, false, 1, 0,
           none, none, none, none, none, [some "ECU"], false, none,
           none⟩], none, some "Bus"⟩],
      [⟨"ECU", none⟩], [⟨"Bus", 500000⟩], some "1"⟩ = true ∧
    roundTrip ⟨[⟨some 1, false, some "M", 1, 255, [some "ECU"], none,
        [⟨some "Sig", some 0, 1, "little_endian", false, false, 1, 0,
           none, none, none, none, none, [some "ECU"], false, none,
           none⟩], none, some "Bus"⟩],
      [⟨"ECU", none⟩], [⟨"Bus", 500000⟩], some "1"⟩ none none false =
      .ok ⟨[⟨some 1, false, some "M", 1, 255, [some "ECU"], none,
        [⟨some "Sig", some 0, 1, "little_endian", false, false, 1, 0,
           none, none, none, none, none, [some "ECU"], false, none,
           none⟩], none, some "Bus"⟩],
      [⟨"ECU", none⟩], [⟨"Bus", 500000⟩], some "1"⟩ :=
  ⟨by decide, claim_c9_round_trip _ false (by decide)⟩

end Cantools
